import Mathlib

/-!
# Netmaker control plane: ext-client lifecycle and fan-out publisher

A shallow embedding of `logic/extpeers.go`, `logic/util.go` and
`mq/publishers.go`, followed by theorems about the embedded functions.

Conventions of the embedding:

* a Go `string` is its byte sequence (`GoString`), so `len` is `List.length`;
* a nil-able Go slice or map is an `Option`; `none` is Go's `nil`; a slice
  that a function builds with `append` from nil is the list of its elements;
* a Go `map[K]struct{}` is a finite set of keys, a Go `map[K]V` an
  association list with distinct keys (`AList`), whose entry order stands for
  the order in which a `range` statement visits the map;
* a Go function returning `(value, error)` returns a pair whose second
  component is `none` when the error is `nil`, or an `Except` where the value
  is the zero value whenever the error is not nil;
* functions that read or write the store, the cache or the allocator take the
  state and return the new state; what they cannot change is in `Env`;
* a loop without a structural bound takes fuel and returns `none` when the
  fuel runs out; theorems show that the fuel given suffices.
-/

namespace Netmaker

/-! ## Go strings -/

/-- A Go string: an immutable sequence of bytes. -/
abbrev GoString := List UInt8

/-- Bytes of an ASCII literal, used to write concrete strings. -/
def ascii (s : String) : GoString := s.data.map (fun c => UInt8.ofNat c.toNat)

/-- Carriage return, `'\r'`. -/
def CR : UInt8 := 13

/-- Line feed, `'\n'`. -/
def LF : UInt8 := 10

/-- Scanning loop of Go `strings.Replace(s, old, new, -1)` for a non-empty
`old`: occurrences are found left to right and do not overlap. The counter
is the number of bytes of the last matched occurrence still to be skipped. -/
def replaceLoop (old new : GoString) : Nat → GoString → GoString
  | _, [] => []
  | skip + 1, _ :: rest => replaceLoop old new skip rest
  | 0, b :: rest =>
    if old.isPrefixOf (b :: rest) then new ++ replaceLoop old new (old.length - 1) rest
    else b :: replaceLoop old new 0 rest

/-- Go `strings.Replace(s, old, new, -1)` with `old` non-empty. -/
def stringsReplace (s old new : GoString) : GoString := replaceLoop old new 0 s

/-! ## Data model (`models` package) -/

/-- Go `models.ExtClient`, with the fields the embedded functions read or
write. `DeniedACLs` and `Tags` are `map[...]struct{}` values. -/
structure ExtClient where
  ClientID : GoString
  PrivateKey : GoString
  PublicKey : GoString
  Network : GoString
  DNS : GoString
  Address : GoString
  Address6 : GoString
  ExtraAllowedIPs : Option (List GoString)
  IngressGatewayID : GoString
  LastModified : Int
  Enabled : Bool
  OwnerID : GoString
  DeniedACLs : Option (Finset GoString)
  RemoteAccessClientID : GoString
  PostUp : GoString
  PostDown : GoString
  Tags : Option (Finset GoString)
deriving DecidableEq

/-- Go `models.CustomExtClient`: the caller-supplied part of an update. -/
structure CustomExtClient where
  ClientID : GoString
  PublicKey : GoString
  DNS : GoString
  ExtraAllowedIPs : Option (List GoString)
  Enabled : Bool
  DeniedACLs : Option (Finset GoString)
  RemoteAccessClientID : GoString
  PostUp : GoString
  PostDown : GoString
  Tags : Option (Finset GoString)
deriving DecidableEq

/-- Go `reflect.DeepEqual` on two `map[string]struct{}` values: both nil, or
both non-nil with the same length and every key of the first present in the
second. -/
def reflectDeepEqual (a b : Option (Finset GoString)) : Bool :=
  match a, b with
  | none, none => true
  | some x, some y => decide (x.card = y.card) && decide (∀ k ∈ x, k ∈ y)
  | _, _ => false

/-- Go `UpdateExtClient` (logic/extpeers.go): updates an ext client with new
values. -/
def UpdateExtClient (old : ExtClient) (update : CustomExtClient) : ExtClient :=
  let new := old
  let new := { new with ClientID := update.ClientID }
  let new :=
    if update.PublicKey ≠ [] ∧ old.PublicKey ≠ update.PublicKey then
      { new with PublicKey := update.PublicKey }
    else new
  let new := if update.DNS ≠ old.DNS then { new with DNS := update.DNS } else new
  let new :=
    if update.Enabled ≠ old.Enabled then { new with Enabled := update.Enabled } else new
  let new := { new with ExtraAllowedIPs := update.ExtraAllowedIPs }
  let new :=
    if update.DeniedACLs ≠ none ∧ ¬ reflectDeepEqual old.DeniedACLs update.DeniedACLs then
      { new with DeniedACLs := update.DeniedACLs }
    else new
  let new := { new with PostUp := stringsReplace update.PostUp [CR, LF] [LF] }
  let new := { new with PostDown := stringsReplace update.PostDown [CR, LF] [LF] }
  let new := { new with Tags := update.Tags }
  new

/-- The `CustomExtClient` that carries an ext-client's own values. -/
def asCustom (c : ExtClient) : CustomExtClient where
  ClientID := c.ClientID
  PublicKey := c.PublicKey
  DNS := c.DNS
  ExtraAllowedIPs := c.ExtraAllowedIPs
  Enabled := c.Enabled
  DeniedACLs := c.DeniedACLs
  RemoteAccessClientID := c.RemoteAccessClientID
  PostUp := c.PostUp
  PostDown := c.PostDown
  Tags := c.Tags

/-! ## Go maps, errors and time -/

/-- A Go `map[K]V` that is not nil: entries with distinct keys. -/
abbrev GoMap (K V : Type) := AList (fun _ : K => V)

/-- Go `len(m)` for a nil-able map. -/
def mapLen {K V : Type} (m : Option (GoMap K V)) : Nat :=
  match m with
  | none => 0
  | some a => a.entries.length

/-- Go `v, ok := m[k]` for a nil-able map: `none` when `ok` is false. -/
def mapIndex {K V : Type} [DecidableEq K] (m : Option (GoMap K V)) (k : K) : Option V :=
  match m with
  | none => none
  | some a => a.lookup k

/-- The entries a `range` statement visits, for a nil-able map. -/
def mapRange {K V : Type} (m : Option (GoMap K V)) : List (Sigma fun _ : K => V) :=
  match m with
  | none => []
  | some a => a.entries

/-- A Go `error` value that is not nil. -/
structure GoError where
  msg : String
deriving DecidableEq

/-- Go `time.Time`: an instant (nanoseconds since the epoch) shown in a
location (offset in seconds). -/
structure Time where
  unixNano : Int
  zoneOffset : Int
deriving DecidableEq

/-- Go `time.Time.Equal`: the two values are the same instant, whatever their
locations. -/
def Time.Equal (t u : Time) : Bool := decide (t.unixNano = u.unixNano)

/-! ## Fan-out publisher (`mq/publishers.go`) -/

/-- Go `mq.ServerStatus`. -/
structure ServerStatus where
  DB : Bool
  Broker : Bool
  IsBrokerConnOpen : Bool
  LicenseError : GoString
  IsPro : Bool
  TrialEndDate : Time
  IsOnTrialLicense : Bool
  Failover : Option (GoMap GoString Bool)

/-- The loop `for k, v := range serverStatusCache.Failover` of
`isServerStatusChanged`: returns true at the first entry whose key is missing
from the current map or mapped to another value there. -/
def failoverChanged (current : Option (GoMap GoString Bool)) :
    List (Sigma fun _ : GoString => Bool) → Bool
  | [] => false
  | ⟨k, v⟩ :: rest =>
    match mapIndex current k with
    | none => true
    | some v1 => if v ≠ v1 then true else failoverChanged current rest

/-- Go `isServerStatusChanged` (mq/publishers.go). -/
def isServerStatusChanged (serverStatusCache currentServerStatus : ServerStatus) : Bool :=
  if serverStatusCache.DB ≠ currentServerStatus.DB then true
  else if serverStatusCache.Broker ≠ currentServerStatus.Broker then true
  else if serverStatusCache.IsBrokerConnOpen ≠ currentServerStatus.IsBrokerConnOpen then true
  else if serverStatusCache.LicenseError ≠ currentServerStatus.LicenseError then true
  else if serverStatusCache.IsPro ≠ currentServerStatus.IsPro then true
  else if ¬ serverStatusCache.TrialEndDate.Equal currentServerStatus.TrialEndDate then true
  else if serverStatusCache.IsOnTrialLicense ≠ currentServerStatus.IsOnTrialLicense then true
  else if mapLen serverStatusCache.Failover ≠ mapLen currentServerStatus.Failover then true
  else failoverChanged currentServerStatus.Failover (mapRange serverStatusCache.Failover)

/-- Go `const batchSize = 20`. -/
def batchSize : Nat := 20

/-- Go `models.Host`, with the fields the publisher reads. -/
structure Host where
  ID : GoString
  OS : GoString
  PublicKey : GoString
deriving DecidableEq

/-- One use of the wait group by a bulk publisher: `wg.Add(registered)`, one
goroutine started for each host index of `dispatched` (in loop order), then
`wg.Wait()`. -/
structure Batch where
  registered : Nat
  dispatched : List Nat
deriving DecidableEq

/-- What a bulk publisher did: the batches in the order they were joined and
the host indices for which a failed publish was logged. -/
structure PublishRun where
  batches : List Batch
  logged : List Nat
deriving DecidableEq

/-- What `PublishPeerUpdate` meets when it runs: the configuration, the
inventories, and for each host index the error (if any) that
`PublishSingleHostPeerUpdate` returns for that host. -/
structure PublishEnv where
  isMessageQueueBackend : Bool
  hosts : List Host
  hostsErr : Option GoError
  nodesErr : Option GoError
  publishErr : Nat → Option GoError

/-- The loop `for i := 0; i < div*batch; i += batch` of the bulk publishers,
started at `i`: each iteration registers `batch` tasks, starts one goroutine
for each of `hosts[i+j]`, `j < batch`, and waits. `fuel` bounds the number of
iterations. -/
def fullBatches (batch div : Nat) : Nat → Nat → List Batch
  | 0, _ => []
  | fuel + 1, i =>
    if i < div * batch then
      { registered := batch, dispatched := (List.range batch).map (fun j => i + j) }
        :: fullBatches batch div fuel (i + batch)
    else []

/-- The batching of `PublishPeerUpdate`, `PublishDeletedNodePeerUpdate` and
`PublishDeletedClientPeerUpdate` for `hostLen` hosts. -/
def publishBatches (hostLen : Nat) : List Batch :=
  let batch := batchSize
  let div := hostLen / batch
  let mod := hostLen % batch
  if div = 0 then
    [{ registered := hostLen, dispatched := List.range hostLen }]
  else
    fullBatches batch div (hostLen + 1) 0 ++
      (if mod ≠ 0 then
        [{ registered := hostLen - div * batch,
           dispatched := List.range' (div * batch) (hostLen - div * batch) }]
      else [])

/-- Go `PublishPeerUpdate` (mq/publishers.go), as the record of its batches
and of the failed publishes it logs. Each goroutine runs
`PublishSingleHostPeerUpdate` for its host and logs the error, if any; the
error stops nothing. -/
def PublishPeerUpdate (env : PublishEnv) : PublishRun :=
  if ¬ env.isMessageQueueBackend then { batches := [], logged := [] }
  else if env.hostsErr.isSome then { batches := [], logged := [] }
  else if env.nodesErr.isSome then { batches := [], logged := [] }
  else
    let batches := publishBatches env.hosts.length
    { batches := batches,
      logged := (batches.map Batch.dispatched).flatten.filter
        (fun i => (env.publishErr i).isSome) }

/-- A host inventory of `n` hosts. -/
def sampleHosts (n : Nat) : List Host :=
  (List.range n).map (fun i => { ID := [UInt8.ofNat i], OS := ascii "linux", PublicKey := [] })

/-- A publisher environment with `n` hosts in which the publish to host 7
fails. -/
def samplePublishEnv (n : Nat) : PublishEnv where
  isMessageQueueBackend := true
  hosts := sampleHosts n
  hostsErr := none
  nodesErr := none
  publishErr := fun i => if i = 7 then some ⟨"connection timeout"⟩ else none

/-- The full batch that starts at host index `q * batch`. -/
def fullBatchAt (batch q : Nat) : Batch :=
  { registered := batch, dispatched := (List.range batch).map (fun j => q * batch + j) }

/-! ## Store, cache and allocator (`database`, `logic`, `logic/acls`) -/

/-- Go `models.Network`, with the fields the embedded functions read or
write. -/
structure Network where
  NetID : GoString
  AddressRange : GoString
  AddressRange6 : GoString
  IsIPv4 : GoString
  IsIPv6 : GoString
  NodesLastModified : Int
deriving DecidableEq

/-- A value of the `ext_client` table, given by what `json.Unmarshal` makes
of it: the ext-client it fills in and the error it returns. The value that
`json.Marshal` makes of an ext-client `c` is `⟨c, none⟩`. -/
structure ExtClientRecord where
  client : ExtClient
  unmarshalErr : Option GoError
deriving DecidableEq

/-- Go `acls.AclID`. -/
abbrev AclID := GoString

/-- Go `acls.ACL`, a `map[AclID]byte`: one row of the matrix. A nil row is
written as the empty row; `delete` and indexing treat the two alike. -/
abbrev ACL := GoMap AclID Nat

/-- Go `acls.ACLContainer`, a `map[AclID]ACL`: the matrix of one network. -/
abbrev ACLContainer := GoMap AclID ACL

/-- What the server meets and does not change: the configuration, the
outcome of each call to the persistence driver (`dbFault n` is the error of
the `n`-th call, if it fails), the names the name generator yields,
the key pair `wgtypes.GeneratePrivateKey` yields (private key text, public key
text, error), the clock, the addresses of a CIDR in the allocator's iteration
order, and `net.ParseIP(a).String()`. -/
structure Env where
  cacheEnabled : Bool
  dbFault : Nat → Option GoError
  generate : Nat → GoString
  generatePrivateKey : (GoString × GoString) × Option GoError
  now : Int
  cidrAddresses : GoString → List GoString
  ipString : GoString → GoString

/-- The mutable state of the server: the number of driver calls made so far,
the tables `ext_client`, `networks` and `acls`, the ext-client cache
(`extClientCacheMap`) and the allocated-IP map (`allocatedIpMap`). -/
structure State where
  dbOps : Nat
  extClientTable : GoMap GoString ExtClientRecord
  networksTable : GoMap GoString Network
  aclsTable : GoMap GoString ACLContainer
  extClientCacheMap : GoMap GoString ExtClient
  allocatedIpMap : GoMap GoString (Finset GoString)

/-- The zero value of `models.ExtClient`. -/
def zeroExtClient : ExtClient where
  ClientID := []
  PrivateKey := []
  PublicKey := []
  Network := []
  DNS := []
  Address := []
  Address6 := []
  ExtraAllowedIPs := none
  IngressGatewayID := []
  LastModified := 0
  Enabled := false
  OwnerID := []
  DeniedACLs := none
  RemoteAccessClientID := []
  PostUp := []
  PostDown := []
  Tags := none

/-- Modelled from the spec: the sentinel error `EmptyRecord` of the store
(`database` is not among the sources), returned when a table is empty. -/
def errEmptyRecord : GoError := ⟨"no results found"⟩

/-- Modelled from the spec: the error of the store for a key that is absent
from a table that is not empty (`database` is not among the sources). -/
def errNoRecord : GoError := ⟨"no result found"⟩

/-- Modelled from the spec: `database.IsEmptyRecord`, which tells the sentinel
from other failures (`database` is not among the sources). -/
def IsEmptyRecord (e : GoError) : Bool := decide (e = errEmptyRecord)

/-- One call to the persistence driver: it fails with the error the
environment holds for this call, and counts the call. -/
def dbCall (env : Env) (s : State) : Option GoError × State :=
  (env.dbFault s.dbOps, { s with dbOps := s.dbOps + 1 })

/-- Modelled from the spec: `database.FetchRecord(table, key)` (`database` is
not among the sources): the value under `key`, `EmptyRecord` for an empty
table, another error for an absent key or a failed driver call. -/
def FetchRecord {V : Type} (env : Env) (table : State → GoMap GoString V) (key : GoString)
    (s : State) : Except GoError V × State :=
  match dbCall env s with
  | (some e, s1) => (.error e, s1)
  | (none, s1) =>
    if (table s1).entries.isEmpty then (.error errEmptyRecord, s1)
    else
      match (table s1).lookup key with
      | none => (.error errNoRecord, s1)
      | some v => (.ok v, s1)

/-- Modelled from the spec: `database.Insert(key, value, EXT_CLIENT_TABLE_NAME)`
(`database` is not among the sources). -/
def insertExtClientRecord (env : Env) (key : GoString) (value : ExtClientRecord) (s : State) :
    Option GoError × State :=
  match dbCall env s with
  | (some e, s1) => (some e, s1)
  | (none, s1) => (none, { s1 with extClientTable := s1.extClientTable.insert key value })

/-- Modelled from the spec: `database.Insert(key, value, NETWORKS_TABLE_NAME)`
(`database` is not among the sources). -/
def insertNetworkRecord (env : Env) (key : GoString) (value : Network) (s : State) :
    Option GoError × State :=
  match dbCall env s with
  | (some e, s1) => (some e, s1)
  | (none, s1) => (none, { s1 with networksTable := s1.networksTable.insert key value })

/-- Modelled from the spec: `database.DeleteRecord(EXT_CLIENT_TABLE_NAME, key)`
(`database` is not among the sources); deleting an absent key is no error. -/
def deleteExtClientRecord (env : Env) (key : GoString) (s : State) : Option GoError × State :=
  match dbCall env s with
  | (some e, s1) => (some e, s1)
  | (none, s1) => (none, { s1 with extClientTable := s1.extClientTable.erase key })

/-- Modelled from the spec: `GetRecordKey(id, namespace)` returns
`{id}#{namespace}` and requires both operands non-empty (its source file is not
among the sources). -/
def GetRecordKey (id network : GoString) : Except GoError GoString :=
  if id = [] ∨ network = [] then .error ⟨"unable to generate record key"⟩
  else .ok (id ++ ascii "#" ++ network)

/-- Go `getExtClientFromCache` (logic/extpeers.go). -/
def getExtClientFromCache (key : GoString) (s : State) : Option ExtClient :=
  s.extClientCacheMap.lookup key

/-- Go `storeExtClientInCache` (logic/extpeers.go). -/
def storeExtClientInCache (key : GoString) (extclient : ExtClient) (s : State) : State :=
  { s with extClientCacheMap := s.extClientCacheMap.insert key extclient }

/-- Go `deleteExtClientFromCache` (logic/extpeers.go). -/
def deleteExtClientFromCache (key : GoString) (s : State) : State :=
  { s with extClientCacheMap := s.extClientCacheMap.erase key }

/-- Go `GetExtClient` (logic/extpeers.go): gets a single ext client on a
network. -/
def GetExtClient (env : Env) (clientid network : GoString) (s : State) :
    (ExtClient × Option GoError) × State :=
  match GetRecordKey clientid network with
  | .error e => ((zeroExtClient, some e), s)
  | .ok key =>
    match (if env.cacheEnabled then getExtClientFromCache key s else none) with
    | some extclient => ((extclient, none), s)
    | none =>
      match FetchRecord env State.extClientTable key s with
      | (.error e, s1) => ((zeroExtClient, some e), s1)
      | (.ok data, s1) =>
        let s2 := if env.cacheEnabled then storeExtClientInCache key data.client s1 else s1
        ((data.client, data.unmarshalErr), s2)

/-- What `GenerateNodeName` returns, with the number of names it drew from the
generator. -/
structure NameGen where
  name : GoString
  err : Option GoError
  draws : Nat
deriving DecidableEq

/-- The error of `GenerateNodeName` when it gives up. -/
def errNameGen : GoError := ⟨"couldn't generate random name, try again"⟩

/-- The `for` loop of `GenerateNodeName`, entered with counter `cnt`; the
generator's next name is `env.generate cnt`, since `cnt` counts the draws.
`fuel` bounds the number of iterations; `none` when it runs out. -/
def generateNodeNameLoop (env : Env) (network : GoString) :
    Nat → Nat → State → Option (NameGen × State)
  | 0, _, _ => none
  | fuel + 1, cnt, s =>
    if cnt > 10 then
      some ({ name := [], err := some errNameGen, draws := cnt }, s)
    else
      let name := env.generate cnt
      let cnt := cnt + 1
      if name.length > 15 then generateNodeNameLoop env network fuel cnt s
      else
        match GetExtClient env name network s with
        | ((_, none), s1) => generateNodeNameLoop env network fuel cnt s1
        | ((_, some _), s1) => some ({ name := name, err := none, draws := cnt }, s1)

/-- Go `GenerateNodeName` (logic/extpeers.go): generates a random node
name. -/
def GenerateNodeName (env : Env) (network : GoString) (s : State) : Option (NameGen × State) :=
  generateNodeNameLoop env network 12 0 s

/-- Modelled from the spec: `GetNetwork` / `GetParentNetwork` resolve the
record `networks[NetID]` (their source file is not among the sources). -/
def GetNetwork (env : Env) (networkname : GoString) (s : State) : Except GoError Network × State :=
  FetchRecord env State.networksTable networkname s

/-- The set of allocated IPs of a network; empty when the map has no entry. -/
def allocatedIps (network : GoString) (s : State) : Finset GoString :=
  (s.allocatedIpMap.lookup network).getD ∅

/-- Modelled from the spec: `AddIpToAllocatedIpMap(network, ip)` puts the
address into the network's allocated set (the allocator is not among the
sources). -/
def AddIpToAllocatedIpMap (network ip : GoString) (s : State) : State :=
  { s with allocatedIpMap :=
      s.allocatedIpMap.insert network (insert ip (allocatedIps network s)) }

/-- Modelled from the spec: `RemoveIpFromAllocatedIpMap(network, ip)` takes the
address out of the network's allocated set (the allocator is not among the
sources). -/
def RemoveIpFromAllocatedIpMap (network ip : GoString) (s : State) : State :=
  match s.allocatedIpMap.lookup network with
  | none => s
  | some ips => { s with allocatedIpMap := s.allocatedIpMap.insert network (ips.erase ip) }

/-- Modelled from the spec: the allocator scans the CIDR in iteration order,
returns the first address not in the allocated set and, if `reserve` is true,
inserts it into the set; it fails with `AddressSpaceExhausted` if no address is
free (the allocator is not among the sources). -/
def allocate (env : Env) (network cidr : GoString) (reserve : Bool) (s : State) :
    Except GoError GoString × State :=
  match (env.cidrAddresses cidr).find? (fun a => decide (a ∉ allocatedIps network s)) with
  | none => (.error ⟨"AddressSpaceExhausted"⟩, s)
  | some a => (.ok a, if reserve then AddIpToAllocatedIpMap network a s else s)

/-- Modelled from the spec: `UniqueAddress(network, reserve)`, over the IPv4
CIDR of the network (the allocator is not among the sources). -/
def UniqueAddress (env : Env) (networkName : GoString) (reserve : Bool) (s : State) :
    Except GoError GoString × State :=
  match GetNetwork env networkName s with
  | (.error e, s1) => (.error e, s1)
  | (.ok network, s1) => allocate env networkName network.AddressRange reserve s1

/-- Modelled from the spec: `UniqueAddress6(network, reserve)`, over the IPv6
CIDR of the network (the allocator is not among the sources). -/
def UniqueAddress6 (env : Env) (networkName : GoString) (reserve : Bool) (s : State) :
    Except GoError GoString × State :=
  match GetNetwork env networkName s with
  | (.error e, s1) => (.error e, s1)
  | (.ok network, s1) => allocate env networkName network.AddressRange6 reserve s1

/-- Go `SetNetworkNodesLastModified` (logic/util.go): sets the network nodes
last modified. -/
def SetNetworkNodesLastModified (env : Env) (networkName : GoString) (s : State) :
    Option GoError × State :=
  let timestamp := env.now
  match GetNetwork env networkName s with
  | (.error e, s1) => (some e, s1)
  | (.ok network, s1) =>
    let network := { network with NodesLastModified := timestamp }
    insertNetworkRecord env networkName network s1

/-- Go `SaveExtClient` (logic/extpeers.go): saves an ext client to
database. -/
def SaveExtClient (env : Env) (extclient : ExtClient) (s : State) : Option GoError × State :=
  match GetRecordKey extclient.ClientID extclient.Network with
  | .error e => (some e, s)
  | .ok key =>
    match insertExtClientRecord env key ⟨extclient, none⟩ s with
    | (some e, s1) => (some e, s1)
    | (none, s1) =>
      let s2 := if env.cacheEnabled then storeExtClientInCache key extclient s1 else s1
      let s3 :=
        if (s2.allocatedIpMap.lookup extclient.Network).isSome then
          let s2a :=
            if extclient.Address ≠ [] then
              AddIpToAllocatedIpMap extclient.Network (env.ipString extclient.Address) s2
            else s2
          if extclient.Address6 ≠ [] then
            AddIpToAllocatedIpMap extclient.Network (env.ipString extclient.Address6) s2a
          else s2a
        else s2
      SetNetworkNodesLastModified env extclient.Network s3

/-- The key block of `CreateExtClient`: without a public key a key pair is
generated; with a public key and no private key a placeholder private key
is set. -/
def createKeys (env : Env) (extclient : ExtClient) : Except GoError ExtClient :=
  if extclient.PublicKey.length = 0 then
    match env.generatePrivateKey with
    | (_, some e) => .error e
    | ((privateKey, publicKey), none) =>
      .ok { extclient with PrivateKey := privateKey, PublicKey := publicKey }
  else if extclient.PrivateKey.length = 0 ∧ extclient.PublicKey.length > 0 then
    .ok { extclient with PrivateKey := ascii "[ENTER PRIVATE KEY]" }
  else .ok extclient

/-- The block of `CreateExtClient` that turns a nil `ExtraAllowedIPs` into an
empty list. -/
def createExtraAllowedIPs (extclient : ExtClient) : ExtClient :=
  if extclient.ExtraAllowedIPs = none then { extclient with ExtraAllowedIPs := some [] }
  else extclient

/-- The IPv4 block of `CreateExtClient`: an empty `Address` is allocated when
the parent network has IPv4. -/
def createAddress (env : Env) (parentNetwork : Network) (extclient : ExtClient) (s : State) :
    Except GoError ExtClient × State :=
  if extclient.Address = [] then
    if parentNetwork.IsIPv4 = ascii "yes" then
      match UniqueAddress env extclient.Network true s with
      | (.error e, s1) => (.error e, s1)
      | (.ok newAddress, s1) => (.ok { extclient with Address := newAddress }, s1)
    else (.ok extclient, s)
  else (.ok extclient, s)

/-- The IPv6 block of `CreateExtClient`: an empty `Address6` is allocated when
the parent network has IPv6. -/
def createAddress6 (env : Env) (parentNetwork : Network) (extclient : ExtClient) (s : State) :
    Except GoError ExtClient × State :=
  if extclient.Address6 = [] then
    if parentNetwork.IsIPv6 = ascii "yes" then
      match UniqueAddress6 env extclient.Network true s with
      | (.error e, s1) => (.error e, s1)
      | (.ok addr6, s1) => (.ok { extclient with Address6 := addr6 }, s1)
    else (.ok extclient, s)
  else (.ok extclient, s)

/-- The name block of `CreateExtClient`: an empty `ClientID` is replaced by
what `GenerateNodeName` returns. `none` only if the name generation runs out
of fuel. -/
def createClientID (env : Env) (extclient : ExtClient) (s : State) :
    Option ((ExtClient × Option GoError) × State) :=
  if extclient.ClientID = [] then
    match GenerateNodeName env extclient.Network s with
    | none => none
    | some (g, s1) => some (({ extclient with ClientID := g.name }, g.err), s1)
  else some ((extclient, none), s)

/-- Go `CreateExtClient` (logic/extpeers.go): creates and saves an
extclient. The result holds the ext-client as the call leaves it behind the
caller's pointer, and the returned error. `none` only if the name generation
runs out of fuel. -/
def CreateExtClient (env : Env) (extclient : ExtClient) (s : State) :
    Option ((ExtClient × Option GoError) × State) :=
  match createKeys env extclient with
  | .error e => some ((extclient, some e), s)
  | .ok extclient =>
    let extclient := createExtraAllowedIPs extclient
    match GetNetwork env extclient.Network s with
    | (.error e, s1) => some ((extclient, some e), s1)
    | (.ok parentNetwork, s1) =>
      match createAddress env parentNetwork extclient s1 with
      | (.error e, s2) => some ((extclient, some e), s2)
      | (.ok extclient, s2) =>
        match createAddress6 env parentNetwork extclient s2 with
        | (.error e, s3) => some ((extclient, some e), s3)
        | (.ok extclient, s3) =>
          match createClientID env extclient s3 with
          | none => none
          | some ((extclient, some e), s4) => some ((extclient, some e), s4)
          | some ((extclient, none), s4) =>
            let extclient := { extclient with LastModified := env.now }
            match SaveExtClient env extclient s4 with
            | (err, s5) => some ((extclient, err), s5)

/-- Go `DeleteExtClient` (logic/extpeers.go): deletes an existing ext
client. The final `go RemoveNodeFromAclPolicy(...)` only starts a goroutine;
what that goroutine does later is not part of the call. -/
def DeleteExtClient (env : Env) (network clientid : GoString) (s : State) :
    Option GoError × State :=
  match GetRecordKey clientid network with
  | .error e => (some e, s)
  | .ok key =>
    match GetExtClient env clientid network s with
    | ((_, some e), s1) => (some e, s1)
    | ((extClient, none), s1) =>
      match deleteExtClientRecord env key s1 with
      | (some e, s2) => (some e, s2)
      | (none, s2) =>
        let s3 :=
          if extClient.Address ≠ [] then RemoveIpFromAllocatedIpMap network extClient.Address s2
          else s2
        let s4 :=
          if extClient.Address6 ≠ [] then RemoveIpFromAllocatedIpMap network extClient.Address6 s3
          else s3
        let s5 := if env.cacheEnabled then deleteExtClientFromCache key s4 else s4
        (none, s5)

/-- Modelled from the spec: `ACLContainer.Get(ContainerID)` returns the
network's matrix, or an empty one if the store answers `EmptyRecord`
(`logic/acls` is not among the sources). -/
def ACLContainer_Get (env : Env) (containerID : GoString) (s : State) :
    Except GoError ACLContainer × State :=
  match FetchRecord env State.aclsTable containerID s with
  | (.error e, s1) => if IsEmptyRecord e then (.ok ∅, s1) else (.error e, s1)
  | (.ok m, s1) => (.ok m, s1)

/-- Modelled from the spec: `ACLContainer.Save(ContainerID)` persists the
entire matrix as one value (`logic/acls` is not among the sources). -/
def ACLContainer_Save (env : Env) (aclContainer : ACLContainer) (containerID : GoString)
    (s : State) : Option GoError × State :=
  match dbCall env s with
  | (some e, s1) => (some e, s1)
  | (none, s1) => (none, { s1 with aclsTable := s1.aclsTable.insert containerID aclContainer })

/-- The loop `for objId := range networkAcls { delete(networkAcls[objId], id) }`
of `DeleteExtClientAndCleanup`: every row loses the key `id`. -/
def deleteFromRows (id : AclID) (networkAcls : ACLContainer) : ACLContainer where
  entries := networkAcls.entries.map (fun e => ⟨e.1, AList.erase id e.2⟩)
  nodupKeys := by
    have h : (networkAcls.entries.map
        (fun e => (⟨e.1, AList.erase id e.2⟩ : Sigma fun _ : AclID => ACL))).keys
        = networkAcls.entries.keys := by
      simp [List.keys, Function.comp_def]
    exact (show ((networkAcls.entries.map
        (fun e => (⟨e.1, AList.erase id e.2⟩ : Sigma fun _ : AclID => ACL))).keys).Nodup from
      h ▸ networkAcls.nodupKeys)

/-- Go `DeleteExtClientAndCleanup` (logic/extpeers.go): deletes an existing
ext client and update ACLs. -/
def DeleteExtClientAndCleanup (env : Env) (extClient : ExtClient) (s : State) :
    Option GoError × State :=
  match DeleteExtClient env extClient.Network extClient.ClientID s with
  | (some e, s1) => (some e, s1)
  | (none, s1) =>
    match ACLContainer_Get env extClient.Network s1 with
    | (.error e, s2) => (some e, s2)
    | (.ok networkAcls, s2) =>
      let networkAcls := deleteFromRows extClient.ClientID networkAcls
      let networkAcls := networkAcls.erase extClient.ClientID
      match ACLContainer_Save env networkAcls extClient.Network s2 with
      | (some e, s3) => (some e, s3)
      | (none, s3) => (none, s3)

/-- A sample ext-client. -/
def sampleClient : ExtClient where
  ClientID := ascii "road-warrior"
  PrivateKey := ascii "priv"
  PublicKey := ascii "pub"
  Network := ascii "n1"
  DNS := []
  Address := ascii "10.0.0.2"
  Address6 := []
  ExtraAllowedIPs := some []
  IngressGatewayID := ascii "N1"
  LastModified := 0
  Enabled := true
  OwnerID := []
  DeniedACLs := none
  RemoteAccessClientID := []
  PostUp := ascii "echo up\n"
  PostDown := []
  Tags := none

/-- An ext-client whose post-up script holds a CRLF line ending. -/
def crlfClient : ExtClient := { sampleClient with PostUp := ascii "ip link\r\n" }

/-- An update whose post-up script is CR CR LF. -/
def crcrlfUpdate : CustomExtClient := { asCustom sampleClient with PostUp := [CR, CR, LF] }

/-- A network `n1` with an IPv4 range only. -/
def sampleNetwork : Network where
  NetID := ascii "n1"
  AddressRange := ascii "10.0.0.0/24"
  AddressRange6 := []
  IsIPv4 := ascii "yes"
  IsIPv6 := ascii "no"
  NodesLastModified := 0

/-- An ACL matrix of `n1` in which `sampleClient` has a row of its own and an
entry in the row of the node `N1`. -/
def sampleAcls : ACLContainer :=
  AList.insert (ascii "road-warrior") (AList.insert (ascii "N1") 2 ∅)
    (AList.insert (ascii "N1")
      (AList.insert (ascii "road-warrior") 2 (AList.insert (ascii "N2") 2 ∅))
      (AList.insert (ascii "N2") (AList.insert (ascii "N1") 2 ∅) ∅))

/-- A state that holds the network `n1`, its ACL matrix and `sampleClient`. -/
def sampleState : State where
  dbOps := 0
  extClientTable := AList.insert (ascii "road-warrior#n1") ⟨sampleClient, none⟩ ∅
  networksTable := AList.insert (ascii "n1") sampleNetwork ∅
  aclsTable := AList.insert (ascii "n1") sampleAcls ∅
  extClientCacheMap := ∅
  allocatedIpMap := AList.insert (ascii "n1") {ascii "10.0.0.1", ascii "10.0.0.2"} ∅

/-- An environment with the cache on and a driver that never fails, whose
name generator yields `misty-river`. -/
def sampleEnv : Env where
  cacheEnabled := true
  dbFault := fun _ => none
  generate := fun _ => ascii "misty-river"
  generatePrivateKey := ((ascii "generated-private", ascii "generated-public"), none)
  now := 1700000000
  cidrAddresses := fun _ => [ascii "10.0.0.1", ascii "10.0.0.2", ascii "10.0.0.3"]
  ipString := fun a => a

/-- As `sampleEnv`, with a name generator that only yields the name of the
stored client. -/
def fullNamespaceEnv : Env := { sampleEnv with generate := fun _ => ascii "road-warrior" }

/-- As `sampleEnv`, with a name generator whose names are all longer than 15
bytes. -/
def longNamesEnv : Env := { sampleEnv with generate := fun _ => ascii "billowing-waterfall" }

/-- A request to create an ext-client under a caller-supplied ClientID of 16
bytes. -/
def longIdClient : ExtClient :=
  { sampleClient with ClientID := ascii "sixteen-bytes-id", Address := [] }

/-- As `sampleState`, with `sampleClient` in the ext-client cache as well. -/
def cachedState : State :=
  storeExtClientInCache (ascii "road-warrior#n1") sampleClient sampleState

/-- A request to create an ext-client without ClientID and address. -/
def unnamedClient : ExtClient := { sampleClient with ClientID := [], Address := [] }

/-- What `CreateExtClient` returns for `unnamedClient` in `sampleState`. -/
def createdSample : (ExtClient × Option GoError) × State :=
  (CreateExtClient sampleEnv unnamedClient sampleState).getD ((zeroExtClient, none), sampleState)

/-- Go `ToggleExtClientConnectivity` (logic/extpeers.go): enables or disables
an ext client. The update carries no PostUp, PostDown or Tags. -/
def ToggleExtClientConnectivity (env : Env) (client : ExtClient) (enable : Bool) (s : State) :
    (ExtClient × Option GoError) × State :=
  let update : CustomExtClient :=
    { Enabled := enable
      ClientID := client.ClientID
      PublicKey := client.PublicKey
      DNS := client.DNS
      ExtraAllowedIPs := client.ExtraAllowedIPs
      DeniedACLs := client.DeniedACLs
      RemoteAccessClientID := client.RemoteAccessClientID
      PostUp := []
      PostDown := []
      Tags := none }
  let newClient := UpdateExtClient client update
  match DeleteExtClient env client.Network client.ClientID s with
  | (some e, s1) => ((newClient, some e), s1)
  | (none, s1) =>
    match SaveExtClient env newClient s1 with
    | (some e, s2) => ((newClient, some e), s2)
    | (none, s2) => ((newClient, none), s2)

/-- As `sampleState`, with an IPv6 address of `sampleClient` allocated too. -/
def dualStackState : State :=
  { sampleState with
    extClientTable := AList.insert (ascii "road-warrior#n1")
      ⟨{ sampleClient with Address6 := ascii "fd00::2" }, none⟩ ∅
    allocatedIpMap := AList.insert (ascii "n1")
      {ascii "10.0.0.1", ascii "10.0.0.2", ascii "fd00::2"} ∅ }

/-- What `ToggleExtClientConnectivity` returns when `sampleClient` is
disabled in `sampleState`. -/
def toggledSample : (ExtClient × Option GoError) × State :=
  ToggleExtClientConnectivity sampleEnv sampleClient false sampleState

/-! ## Nodes and addresses (`models`, `net`) -/

/-- Go `net.IP`: a byte slice, nil when `none`. -/
abbrev NetIP := Option (List UInt8)

/-- Go `net.IPNet`: an address and a mask. -/
structure IPNet where
  IP : NetIP
  Mask : Option (List UInt8)
deriving DecidableEq

/-- Go `net.CIDRMask(32, 32)`. -/
def cidrMask32 : Option (List UInt8) := some (List.replicate 4 255)

/-- Go `net.CIDRMask(128, 128)`. -/
def cidrMask128 : Option (List UInt8) := some (List.replicate 16 255)

/-- Go `models.Node`, with the fields the embedded functions read or write.
`ID` and `HostID` stand for their `String()` forms. -/
structure Node where
  ID : GoString
  HostID : GoString
  Network : GoString
  Address : IPNet
  Address6 : IPNet
  IsStatic : Bool
  IsUserNode : Bool
  StaticNode : ExtClient
deriving DecidableEq

/-! ## Bulk publishers: the calls they make and the value they return -/

/-- Modelled from the spec: the OS tag `iot`, Go `models.OS_Types.IoT` (the
`models` package is not among the sources). -/
def OS_IoT : GoString := ascii "iot"

/-- One invocation of `PublishSingleHostPeerUpdate` by a bulk publisher: the
index of the host and the arguments `deletedNode`, `deletedClients` and
`replacePeers`. Every invocation is given the wait group and raises one
completion signal (`defer wg.Done()`). -/
structure PublishCall where
  host : Nat
  deletedNode : Option Node
  deletedClients : Option (List ExtClient)
  replacePeers : Bool
deriving DecidableEq

/-- What a bulk publisher did with its batches: the invocations of
`PublishSingleHostPeerUpdate` it made, in batch order, and whether every
`wg.Wait()` returned. -/
structure BulkRun where
  calls : List PublishCall
  joined : Bool
deriving DecidableEq

/-- The batches of a bulk publisher, run one after another. In a batch the
goroutine of host `i` makes the invocation `task i`, if any; `wg.Wait()`
returns when the completion signals raised are as many as the batch
registered, else it blocks and no later batch starts. -/
def runBatches (task : Nat → Option PublishCall) : List Batch → BulkRun
  | [] => { calls := [], joined := true }
  | b :: rest =>
    let calls := b.dispatched.filterMap task
    if calls.length = b.registered then
      let r := runBatches task rest
      { calls := calls ++ r.calls, joined := r.joined }
    else { calls := calls, joined := false }

/-- Go `PublishDeletedNodePeerUpdate` (mq/publishers.go), as the record of
the invocations it makes. -/
def PublishDeletedNodePeerUpdate (env : PublishEnv) (delNode : Node) : BulkRun :=
  if ¬ env.isMessageQueueBackend then { calls := [], joined := true }
  else if env.hostsErr.isSome then { calls := [], joined := true }
  else if env.nodesErr.isSome then { calls := [], joined := true }
  else
    runBatches
      (fun i => some { host := i, deletedNode := some delNode, deletedClients := none,
                       replacePeers := false })
      (publishBatches env.hosts.length)

/-- The goroutine of `PublishDeletedClientPeerUpdate` for the host at index
`i`: it invokes `PublishSingleHostPeerUpdate` only `if host.OS !=
models.OS_Types.IoT`. (The index is always within the host list.) -/
def deletedClientTask (hosts : List Host) (delClient : ExtClient) (i : Nat) :
    Option PublishCall :=
  match hosts.get? i with
  | none => none
  | some host =>
    if host.OS ≠ OS_IoT then
      some { host := i, deletedNode := none, deletedClients := some [delClient],
             replacePeers := false }
    else none

/-- Go `PublishDeletedClientPeerUpdate` (mq/publishers.go), as the record of
the invocations it makes. -/
def PublishDeletedClientPeerUpdate (env : PublishEnv) (delClient : ExtClient) : BulkRun :=
  if ¬ env.isMessageQueueBackend then { calls := [], joined := true }
  else if env.hostsErr.isSome then { calls := [], joined := true }
  else if env.nodesErr.isSome then { calls := [], joined := true }
  else runBatches (deletedClientTask env.hosts delClient) (publishBatches env.hosts.length)

/-- The value `PublishPeerUpdate` returns. Its variable `err` is shared with
the goroutines, each of which assigns it the result of its publish
(`if err = PublishSingleHostPeerUpdate(...); err != nil`); the function ends
with `return err`. `schedule` gives, for the hosts of a batch, the order in
which their goroutines make the assignment. -/
def PublishPeerUpdate_err (env : PublishEnv) (schedule : List Nat → List Nat) :
    Option GoError :=
  if ¬ env.isMessageQueueBackend then none
  else
    match env.hostsErr with
    | some e => some e
    | none =>
      match env.nodesErr with
      | some e => some e
      | none =>
        (((publishBatches env.hosts.length).map
            (fun b => schedule b.dispatched)).flatten).foldl
          (fun _ i => env.publishErr i) none

/-- A publisher environment with 21 hosts of which host 0 has the OS tag
`iot`. -/
def iotPublishEnv : PublishEnv :=
  { samplePublishEnv 21 with
    hosts := (List.range 21).map (fun i =>
      { ID := [UInt8.ofNat i], OS := if i = 0 then OS_IoT else ascii "linux", PublicKey := [] }) }

/-- A publisher environment with one host, the publish to which fails. -/
def failingPublishEnv : PublishEnv :=
  { samplePublishEnv 1 with publishErr := fun _ => some ⟨"connection timeout"⟩ }

/-! ## Server status (`serverStatusUpdate`) -/

/-- The zero value of `time.Time` (January 1, year 1, UTC). -/
def zeroTime : Time := { unixNano := -62135596800000000000, zoneOffset := 0 }

/-- The zero value of `ServerStatus`, the initial `serverStatusCache`. -/
def zeroServerStatus : ServerStatus where
  DB := false
  Broker := false
  IsBrokerConnOpen := false
  LicenseError := []
  IsPro := false
  TrialEndDate := zeroTime
  IsOnTrialLicense := false
  Failover := none

/-- What one call of `serverStatusUpdate` observes: the configuration
(`servercfg.ErrLicenseValidation`, `servercfg.IsPro`, the license key and
tenant id), the results of `logic.GetTrialEndDate()` and `logic.GetNetworks()`,
the second result of `logic.FailOverExists` for each network id,
`database.IsConnected()`, `IsConnected()` and `IsConnectionOpen()` of the
broker, the error of `json.Marshal`, whether `mqclient` is set and connected,
and the outcome of the publish token (`WaitTimeout` and `Error`). -/
structure StatusInputs where
  errLicenseValidation : Option GoError
  isPro : Bool
  licenseKey : GoString
  netmakerTenantID : GoString
  trialEndDate : Time × Option GoError
  networks : List Network × Option GoError
  failOverExists : GoString → Bool
  dbConnected : Bool
  brokerConnected : Bool
  connectionOpen : Bool
  marshalErr : Option GoError
  mqclientConnected : Bool
  tokenWaitOk : Bool
  tokenErr : Option GoError

/-- The state `serverStatusUpdate` works on: the variable `serverStatusCache`
and the retained messages published on `server/status` so far (oldest
first). -/
structure StatusState where
  serverStatusCache : ServerStatus
  published : List ServerStatus

/-- The map `failoverExisted` that `serverStatusUpdate` builds: empty, and
filled per network when the server is pro and the networks load. -/
def failoverExisted (inp : StatusInputs) : GoMap GoString Bool :=
  if inp.isPro then
    if inp.networks.2 = none ∧ inp.networks.1.length > 0 then
      inp.networks.1.foldl (fun m v => m.insert v.NetID (inp.failOverExists v.NetID)) ∅
    else ∅
  else ∅

/-- The value `currentServerStatus` that `serverStatusUpdate` builds from
what it observes. -/
def currentServerStatus (inp : StatusInputs) : ServerStatus :=
  let licenseErr : GoString :=
    match inp.errLicenseValidation with
    | some e => ascii e.msg
    | none => []
  let onTrialPath : Bool :=
    inp.isPro && (decide (inp.licenseKey = []) || decide (inp.netmakerTenantID = []))
  let trialEndDate : Time := if onTrialPath then inp.trialEndDate.1 else zeroTime
  let isOnTrial : Bool := onTrialPath && inp.trialEndDate.2.isNone
  { DB := inp.dbConnected
    Broker := inp.brokerConnected
    IsBrokerConnOpen := inp.connectionOpen
    LicenseError := licenseErr
    IsPro := inp.isPro
    TrialEndDate := trialEndDate
    IsOnTrialLicense := isOnTrial
    Failover := some (failoverExisted inp) }

/-- Go `serverStatusUpdate` (mq/publishers.go). -/
def serverStatusUpdate (inp : StatusInputs) (st : StatusState) : Option GoError × StatusState :=
  let current := currentServerStatus inp
  if isServerStatusChanged st.serverStatusCache current then
    match inp.marshalErr with
    | some e => (some e, st)
    | none =>
      if ¬ inp.mqclientConnected then
        (some ⟨"cannot publish ... mqclient not connected"⟩, st)
      else if ¬ inp.tokenWaitOk ∨ inp.tokenErr.isSome then
        match inp.tokenErr with
        | none => (some ⟨"connection timeout"⟩, st)
        | some e => (some e, st)
      else
        (none, { serverStatusCache := current, published := st.published ++ [current] })
  else (none, st)

/-- The state before the first `serverStatusUpdate`: the zero-valued cache and
nothing published. -/
def initialStatusState : StatusState :=
  { serverStatusCache := zeroServerStatus, published := [] }

/-- A community server with database and broker connected. -/
def healthyInputs : StatusInputs where
  errLicenseValidation := none
  isPro := false
  licenseKey := []
  netmakerTenantID := []
  trialEndDate := (zeroTime, none)
  networks := ([sampleNetwork], none)
  failOverExists := fun _ => false
  dbConnected := true
  brokerConnected := true
  connectionOpen := true
  marshalErr := none
  mqclientConnected := true
  tokenWaitOk := true
  tokenErr := none

/-- A community server that sees neither its database nor its broker. -/
def disconnectedInputs : StatusInputs :=
  { healthyInputs with
    dbConnected := false, brokerConnected := false, connectionOpen := false,
    mqclientConnected := false }

/-! ## Ext-client inventory and peers (`logic/extpeers.go`) -/

/-- Modelled from the spec: `database.FetchRecords(table)` (`database` is not
among the sources): all records of the table, or `EmptyRecord` for an empty
table. The entry order of the result is the order in which the caller's
`range` visits it. -/
def FetchRecords {V : Type} (env : Env) (table : State → GoMap GoString V) (s : State) :
    Except GoError (GoMap GoString V) × State :=
  match dbCall env s with
  | (some e, s1) => (.error e, s1)
  | (none, s1) =>
    if (table s1).entries.isEmpty then (.error errEmptyRecord, s1)
    else (.ok (table s1), s1)

/-- Go `getAllExtClientsFromCache` (logic/extpeers.go). -/
def getAllExtClientsFromCache (s : State) : List ExtClient :=
  s.extClientCacheMap.entries.map (fun e => e.2)

/-- The loop `for _, value := range records` of `GetNetworkExtClients`, with
the slice `extclients` and the variable `err` of the function as they stand.
A value that fails to decode sets `err` and is skipped; a decoded one resets
`err`, is cached under its key (when the key can be built and the cache is
on) and is appended when it belongs to the network. -/
def networkExtClientsLoop (env : Env) (network : GoString) :
    List (Sigma fun _ : GoString => ExtClientRecord) →
      (List ExtClient × Option GoError) × State → (List ExtClient × Option GoError) × State
  | [], acc => acc
  | ⟨_, value⟩ :: rest, ((extclients, _), s) =>
    match value.unmarshalErr with
    | some e => networkExtClientsLoop env network rest ((extclients, some e), s)
    | none =>
      let extclient := value.client
      let s1 :=
        match GetRecordKey extclient.ClientID extclient.Network with
        | .ok key => if env.cacheEnabled then storeExtClientInCache key extclient s else s
        | .error _ => s
      let extclients :=
        if extclient.Network = network then extclients ++ [extclient] else extclients
      networkExtClientsLoop env network rest ((extclients, none), s1)

/-- Go `GetNetworkExtClients` (logic/extpeers.go): gets the ext clients of
given network. The returned slice is written as the list of its elements. -/
def GetNetworkExtClients (env : Env) (network : GoString) (s : State) :
    (List ExtClient × Option GoError) × State :=
  let allextclients := if env.cacheEnabled then getAllExtClientsFromCache s else []
  if env.cacheEnabled ∧ allextclients.length ≠ 0 then
    ((allextclients.filter (fun extclient => decide (extclient.Network = network)), none), s)
  else
    match FetchRecords env State.extClientTable s with
    | (.error e, s1) =>
      if IsEmptyRecord e then (([], none), s1) else (([], some e), s1)
    | (.ok records, s1) => networkExtClientsLoop env network records.entries (([], none), s1)

/-- Go `wgtypes.PeerConfig`, with the fields `GetExtPeers` sets. `PublicKey`
stands for the parsed key. -/
structure PeerConfig where
  PublicKey : GoString
  ReplaceAllowedIPs : Bool
  AllowedIPs : List IPNet
deriving DecidableEq

/-- Go `models.IDandAddr`. -/
structure IDandAddr where
  ID : GoString
  Name : GoString
  Address : GoString
  IsExtClient : Bool
deriving DecidableEq

/-- Go `models.EgressNetworkRoutes`. -/
structure EgressNetworkRoutes where
  EgressGwAddr : IPNet
  EgressGwAddr6 : IPNet
  NodeAddr : IPNet
  NodeAddr6 : IPNet
  EgressRanges : Option (List GoString)
deriving DecidableEq

/-- Go `models.Acl`, with the fields of an allowed policy entry that the
firewall rules read. -/
structure AclPolicy where
  Proto : GoString
  Port : Option (List GoString)
  bidirectional : Bool
deriving DecidableEq

/-- What the functions of this section get from code that is not among the
sources: the host inventory (`GetHost`), the node inventory
(`GetNetworkNodes`), the default policies (`GetDefaultPolicy(...).Enabled`),
the policy engine (`IsClientNodeAllowed`, `IsPeerAllowed`,
`IsUserAllowedToCommunicate`, `IsNodeAllowedToCommunicate`), the methods
`ConvertToStaticNode`, `AddressIPNet4` and `AddressIPNet6` of an ext-client,
`SortExtClient`, and the libraries: `wgtypes.ParseKey` (`none` on error) with
`Key.String`, `net.ParseIP`, `net.ParseCIDR` (the network, `none` on error)
and whether `IP.To4()` is not nil. In `AclPolicy`, `bidirectional` says that
`AllowedDirection == models.TrafficDirectionBi`. -/
structure PolicyEnv where
  getHost : GoString → Host × Option GoError
  getNetworkNodes : GoString → List Node
  defaultUserPolicyEnabled : GoString → Bool
  defaultDevicePolicyEnabled : GoString → Bool
  isClientNodeAllowed : ExtClient → GoString → Bool
  isPeerAllowed : Node → Node → Bool → Bool
  isUserAllowedToCommunicate : GoString → Node → Bool × List AclPolicy
  isNodeAllowedToCommunicate : Node → Node → Bool → Bool × List AclPolicy
  convertToStaticNode : ExtClient → Node
  addressIPNet4 : ExtClient → IPNet
  addressIPNet6 : ExtClient → IPNet
  sortExtClient : List ExtClient → List ExtClient
  parseKey : GoString → Option GoString
  keyString : GoString → GoString
  parseIP : GoString → NetIP
  parseCIDR : GoString → Option IPNet
  to4 : NetIP → Bool

/-- Go `getExtPeerEgressRoute` (logic/extpeers.go). -/
def getExtPeerEgressRoute (pe : PolicyEnv) (node : Node) (extPeer : ExtClient) :
    List EgressNetworkRoutes :=
  [{ EgressGwAddr := pe.addressIPNet4 extPeer
     EgressGwAddr6 := pe.addressIPNet6 extPeer
     NodeAddr := node.Address
     NodeAddr6 := node.Address6
     EgressRanges := extPeer.ExtraAllowedIPs }]

/-- The tests of the loop of `GetExtPeers` that end an iteration with
`continue`, in their order: false when the ext-client is skipped. -/
def extPeerPasses (pe : PolicyEnv) (host : Host) (node peer : Node) (extPeer : ExtClient) :
    Bool :=
  if ¬ pe.isClientNodeAllowed extPeer peer.ID then false
  else if (if extPeer.RemoteAccessClientID = [] then
        ¬ pe.isPeerAllowed (pe.convertToStaticNode extPeer) peer true
      else ¬ (pe.isUserAllowedToCommunicate extPeer.OwnerID peer).1) then false
  else if (pe.parseKey extPeer.PublicKey).isNone then false
  else if host.PublicKey = extPeer.PublicKey ∨ extPeer.IngressGatewayID ≠ node.ID
      ∨ ¬ extPeer.Enabled then false
  else true

/-- The loop `for _, extraAllowedIP := range extPeer.ExtraAllowedIPs` of
`GetExtPeers`, appending to `allowedips`. -/
def appendExtraAllowedIPs (pe : PolicyEnv) : List GoString → List IPNet → List IPNet
  | [], allowedips => allowedips
  | extraAllowedIP :: rest, allowedips =>
    match pe.parseCIDR extraAllowedIP with
    | some cidr => appendExtraAllowedIPs pe rest (allowedips ++ [cidr])
    | none => appendExtraAllowedIPs pe rest allowedips

/-- The slice `allowedips` that `GetExtPeers` builds for an ext-client. -/
def extPeerAllowedIPs (pe : PolicyEnv) (extPeer : ExtClient) : List IPNet :=
  let allowedips : List IPNet := []
  let allowedips :=
    if extPeer.Address ≠ [] then
      let peeraddr : IPNet := { IP := pe.parseIP extPeer.Address, Mask := cidrMask32 }
      if peeraddr.IP ≠ none ∧ peeraddr.Mask ≠ none then allowedips ++ [peeraddr] else allowedips
    else allowedips
  let allowedips :=
    if extPeer.Address6 ≠ [] then
      let addr6 : IPNet := { IP := pe.parseIP extPeer.Address6, Mask := cidrMask128 }
      if addr6.IP ≠ none ∧ addr6.Mask ≠ none then allowedips ++ [addr6] else allowedips
    else allowedips
  appendExtraAllowedIPs pe (extPeer.ExtraAllowedIPs.getD []) allowedips

/-- The peer entry that `GetExtPeers` appends for an ext-client it does not
skip. -/
def extPeerConfig (pe : PolicyEnv) (extPeer : ExtClient) : PeerConfig :=
  { PublicKey := (pe.parseKey extPeer.PublicKey).getD []
    ReplaceAllowedIPs := true
    AllowedIPs := extPeerAllowedIPs pe extPeer }

/-- The entry of `idsAndAddr` that `GetExtPeers` appends for an ext-client it
does not skip. -/
def extPeerIDandAddr (pe : PolicyEnv) (extPeer : ExtClient) : IDandAddr :=
  let primaryAddr := if extPeer.Address = [] then extPeer.Address6 else extPeer.Address
  { ID := pe.keyString (extPeerConfig pe extPeer).PublicKey
    Name := extPeer.ClientID
    Address := primaryAddr
    IsExtClient := true }

/-- What `GetExtPeers` returns. -/
structure ExtPeers where
  peers : List PeerConfig
  idsAndAddr : List IDandAddr
  egressRoutes : List EgressNetworkRoutes
  err : Option GoError
deriving DecidableEq

/-- The loop `for _, extPeer := range extPeers` of `GetExtPeers`. -/
def extPeersLoop (pe : PolicyEnv) (host : Host) (node peer : Node) :
    List ExtClient → ExtPeers → ExtPeers
  | [], acc => acc
  | extPeer :: rest, acc =>
    if extPeerPasses pe host node peer extPeer then
      extPeersLoop pe host node peer rest
        { acc with
          peers := acc.peers ++ [extPeerConfig pe extPeer]
          idsAndAddr := acc.idsAndAddr ++ [extPeerIDandAddr pe extPeer]
          egressRoutes := acc.egressRoutes ++ getExtPeerEgressRoute pe node extPeer }
    else extPeersLoop pe host node peer rest acc

/-- Go `GetExtPeers` (logic/extpeers.go). -/
def GetExtPeers (pe : PolicyEnv) (env : Env) (node peer : Node) (s : State) :
    ExtPeers × State :=
  match GetNetworkExtClients env node.Network s with
  | ((_, some err), s1) => ({ peers := [], idsAndAddr := [], egressRoutes := [], err := some err }, s1)
  | ((extPeers, none), s1) =>
    match pe.getHost node.HostID with
    | (_, some err) => ({ peers := [], idsAndAddr := [], egressRoutes := [], err := some err }, s1)
    | (host, none) =>
      (extPeersLoop pe host node peer extPeers
        { peers := [], idsAndAddr := [], egressRoutes := [], err := none }, s1)

/-- The allowed-IPs of an ext-client's peer entry as the specification words
them: the IPv4 address as a /32 when `Address` is present and parses, the IPv6
address as a /128 when `Address6` is present and parses, then every entry of
`ExtraAllowedIPs` that parses as a CIDR. -/
def allowedIPsSpec (pe : PolicyEnv) (extPeer : ExtClient) : List IPNet :=
  (if extPeer.Address ≠ [] then
      match pe.parseIP extPeer.Address with
      | some ip => [{ IP := some ip, Mask := cidrMask32 }]
      | none => []
    else []) ++
  (if extPeer.Address6 ≠ [] then
      match pe.parseIP extPeer.Address6 with
      | some ip => [{ IP := some ip, Mask := cidrMask128 }]
      | none => []
    else []) ++
  (extPeer.ExtraAllowedIPs.getD []).filterMap pe.parseCIDR

/-! ## Ingress firewall rules (`GetFwRulesOnIngressGateway`) -/

/-- Go `models.FwRule`. -/
structure FwRule where
  SrcIP : IPNet
  DstIP : IPNet
  AllowedProtocol : GoString
  AllowedPorts : Option (List GoString)
  Allow : Bool
deriving DecidableEq

/-- Modelled from the spec: `GetNetworks` returns the records of the
`networks` table (its source file is not among the sources). -/
def GetNetworks (env : Env) (s : State) : (List Network × Option GoError) × State :=
  match FetchRecords env State.networksTable s with
  | (.error e, s1) => (([], some e), s1)
  | (.ok records, s1) => ((records.entries.map (fun e => e.2), none), s1)

/-- The loop `for i := range currentNetworks` of `GetAllExtClients`: the
clients of a network whose lookup fails are left out. -/
def allExtClientsLoop (env : Env) : List Network → List ExtClient × State → List ExtClient × State
  | [], acc => acc
  | network :: rest, (clients, s) =>
    match GetNetworkExtClients env network.NetID s with
    | ((_, some _), s1) => allExtClientsLoop env rest (clients, s1)
    | ((netClients, none), s1) => allExtClientsLoop env rest (clients ++ netClients, s1)

/-- Go `GetAllExtClients` (logic/extpeers.go): gets all ext clients from
DB. -/
def GetAllExtClients (env : Env) (s : State) : (List ExtClient × Option GoError) × State :=
  match GetNetworks env s with
  | ((_, some err), s1) => if IsEmptyRecord err then (([], none), s1) else (([], some err), s1)
  | ((currentNetworks, none), s1) =>
    let r := allExtClientsLoop env currentNetworks ([], s1)
    ((r.1, none), r.2)

/-- The node that `GetStaticNodesByNetwork`, `GetStaticUserNodesByNetwork` and
`GetStaticNodesByGw` make of an ext-client; the fields not set are zero. -/
def staticNodeOf (extI : ExtClient) : Node :=
  { ID := [], HostID := [], Network := []
    Address := { IP := none, Mask := none }
    Address6 := { IP := none, Mask := none }
    IsStatic := true
    StaticNode := extI
    IsUserNode := decide (extI.RemoteAccessClientID ≠ []) }

/-- Go `GetStaticUserNodesByNetwork` (logic/extpeers.go). -/
def GetStaticUserNodesByNetwork (env : Env) (network : GoString) (s : State) :
    List Node × State :=
  match GetAllExtClients env s with
  | ((_, some _), s1) => ([], s1)
  | ((extClients, none), s1) =>
    ((extClients.filter (fun extI =>
        decide (extI.Network = network) && decide (extI.RemoteAccessClientID ≠ []))).map
      staticNodeOf, s1)

/-- Go `GetStaticNodesByNetwork` (logic/extpeers.go). -/
def GetStaticNodesByNetwork (pe : PolicyEnv) (env : Env) (network : GoString) (onlyWg : Bool)
    (s : State) : List Node × State :=
  match GetAllExtClients env s with
  | ((_, some _), s1) => ([], s1)
  | ((extClients, none), s1) =>
    let extClients := pe.sortExtClient extClients
    ((extClients.filter (fun extI =>
        decide (extI.Network = network) &&
          !(onlyWg && decide (extI.RemoteAccessClientID ≠ [])))).map staticNodeOf, s1)

/-- The rules `GetFwRulesOnIngressGateway` appends for a peer's
`ExtraAllowedIPs`, from the source addresses given: the loop
`for _, additionalAllowedIPNet := range peer.StaticNode.ExtraAllowedIPs`. -/
def extraAllowedRules (pe : PolicyEnv) (src4 src6 : IPNet) : List GoString → List FwRule
  | [] => []
  | additionalAllowedIPNet :: rest =>
    match pe.parseCIDR additionalAllowedIPNet with
    | none => extraAllowedRules pe src4 src6 rest
    | some ipNet =>
      (if pe.to4 ipNet.IP then
        { SrcIP := src4, DstIP := ipNet, AllowedProtocol := [], AllowedPorts := none,
          Allow := true }
      else
        { SrcIP := src6, DstIP := ipNet, AllowedProtocol := [], AllowedPorts := none,
          Allow := true }) :: extraAllowedRules pe src4 src6 rest

/-- The body of the inner loop of the first part of
`GetFwRulesOnIngressGateway`: the rules appended for the user node `userNodeI`
and the node `peer`. -/
def userPeerRules (pe : PolicyEnv) (defaultUserPolicyEnabled : Bool) (userNodeI peer : Node) :
    List FwRule :=
  if peer.IsUserNode then []
  else
    match pe.isUserAllowedToCommunicate userNodeI.StaticNode.OwnerID peer with
    | (false, _) => []
    | (true, allowedPolicies) =>
      if peer.IsStatic then
        (if userNodeI.StaticNode.Address ≠ [] then
          if ¬ defaultUserPolicyEnabled then
            (allowedPolicies.map (fun policy =>
              [{ SrcIP := pe.addressIPNet4 userNodeI.StaticNode
                 DstIP := pe.addressIPNet4 peer.StaticNode
                 AllowedProtocol := policy.Proto
                 AllowedPorts := policy.Port
                 Allow := true },
               { SrcIP := pe.addressIPNet4 peer.StaticNode
                 DstIP := pe.addressIPNet4 userNodeI.StaticNode
                 AllowedProtocol := policy.Proto
                 AllowedPorts := policy.Port
                 Allow := true }])).flatten
          else []
        else []) ++
        (if userNodeI.StaticNode.Address6 ≠ [] then
          if ¬ defaultUserPolicyEnabled then
            (allowedPolicies.map (fun policy =>
              [{ SrcIP := pe.addressIPNet6 userNodeI.StaticNode
                 DstIP := pe.addressIPNet6 peer.StaticNode
                 AllowedProtocol := policy.Proto
                 AllowedPorts := policy.Port
                 Allow := true },
               { SrcIP := pe.addressIPNet6 peer.StaticNode
                 DstIP := pe.addressIPNet6 userNodeI.StaticNode
                 AllowedProtocol := policy.Proto
                 AllowedPorts := policy.Port
                 Allow := true }])).flatten
          else []
        else []) ++
        (if (peer.StaticNode.ExtraAllowedIPs.getD []).length > 0 then
          extraAllowedRules pe (pe.addressIPNet4 userNodeI.StaticNode)
            (pe.addressIPNet6 userNodeI.StaticNode) (peer.StaticNode.ExtraAllowedIPs.getD [])
        else [])
      else
        (if userNodeI.StaticNode.Address ≠ [] then
          if ¬ defaultUserPolicyEnabled then
            allowedPolicies.map (fun policy =>
              { SrcIP := pe.addressIPNet4 userNodeI.StaticNode
                DstIP := { IP := peer.Address.IP, Mask := cidrMask32 }
                AllowedProtocol := policy.Proto
                AllowedPorts := policy.Port
                Allow := true })
          else []
        else []) ++
        (if userNodeI.StaticNode.Address6 ≠ [] then
          if ¬ defaultUserPolicyEnabled then
            allowedPolicies.map (fun policy =>
              { SrcIP := pe.addressIPNet6 userNodeI.StaticNode
                DstIP := { IP := peer.Address6.IP, Mask := cidrMask128 }
                AllowedProtocol := policy.Proto
                AllowedPorts := policy.Port
                Allow := true })
          else []
        else [])

/-- The rules appended for one allowed policy entry in the second part of
`GetFwRulesOnIngressGateway`: the rule from `src` to `dst` and, when the
direction of the entry is `Bi`, the rule back. -/
def devicePolicyRules (src dst : IPNet) (policy : AclPolicy) : List FwRule :=
  { SrcIP := src, DstIP := dst, AllowedProtocol := policy.Proto, AllowedPorts := policy.Port,
    Allow := true } ::
  (if policy.bidirectional then
    [{ SrcIP := dst, DstIP := src, AllowedProtocol := policy.Proto, AllowedPorts := policy.Port,
       Allow := true }]
  else [])

/-- The body of the inner loop of the second part of
`GetFwRulesOnIngressGateway`: the rules appended for the static device node
`nodeI` and the node `peer`. -/
def devicePeerRules (pe : PolicyEnv) (nodeI peer : Node) : List FwRule :=
  if peer.StaticNode.ClientID = nodeI.StaticNode.ClientID ∨ peer.IsUserNode then []
  else
    match pe.isNodeAllowedToCommunicate nodeI peer true with
    | (false, _) => []
    | (true, allowedPolicies) =>
      if peer.IsStatic then
        (if nodeI.StaticNode.Address ≠ [] then
          (allowedPolicies.map (devicePolicyRules (pe.addressIPNet4 nodeI.StaticNode)
            (pe.addressIPNet4 peer.StaticNode))).flatten
        else []) ++
        (if nodeI.StaticNode.Address6 ≠ [] then
          (allowedPolicies.map (devicePolicyRules (pe.addressIPNet6 nodeI.StaticNode)
            (pe.addressIPNet6 peer.StaticNode))).flatten
        else []) ++
        (if (peer.StaticNode.ExtraAllowedIPs.getD []).length > 0 then
          extraAllowedRules pe (pe.addressIPNet4 nodeI.StaticNode)
            (pe.addressIPNet6 nodeI.StaticNode) (peer.StaticNode.ExtraAllowedIPs.getD [])
        else [])
      else
        (if nodeI.StaticNode.Address ≠ [] then
          (allowedPolicies.map (devicePolicyRules (pe.addressIPNet4 nodeI.StaticNode)
            { IP := peer.Address.IP, Mask := cidrMask32 })).flatten
        else []) ++
        (if nodeI.StaticNode.Address6 ≠ [] then
          (allowedPolicies.map (devicePolicyRules (pe.addressIPNet6 nodeI.StaticNode)
            { IP := peer.Address6.IP, Mask := cidrMask128 })).flatten
        else [])

/-- The first part of `GetFwRulesOnIngressGateway`: the loops over
`userNodes` and `nodes`. -/
def userRules (pe : PolicyEnv) (defaultUserPolicyEnabled : Bool) (userNodes nodes : List Node) :
    List FwRule :=
  (userNodes.map (fun userNodeI =>
    (nodes.map (fun peer => userPeerRules pe defaultUserPolicyEnabled userNodeI peer)).flatten)).flatten

/-- The second part of `GetFwRulesOnIngressGateway`: the loops over `nodes`
for the static nodes that are no user nodes. -/
def deviceRules (pe : PolicyEnv) (nodes : List Node) : List FwRule :=
  (nodes.map (fun nodeI =>
    if ¬ nodeI.IsStatic ∨ nodeI.IsUserNode then []
    else (nodes.map (fun peer => devicePeerRules pe nodeI peer)).flatten)).flatten

/-- The slice `nodes` of `GetFwRulesOnIngressGateway`: the nodes of the
network followed by the static nodes of the network that are no user
nodes. -/
def fwNodes (pe : PolicyEnv) (env : Env) (node : Node) (s : State) : List Node × State :=
  let nodes := pe.getNetworkNodes node.Network
  let r := GetStaticNodesByNetwork pe env node.Network true s
  (nodes ++ r.1, r.2)

/-- The slice `userNodes` of `GetFwRulesOnIngressGateway`, read after
`nodes`. -/
def fwUserNodes (pe : PolicyEnv) (env : Env) (node : Node) (s : State) : List Node × State :=
  GetStaticUserNodesByNetwork env node.Network (fwNodes pe env node s).2

/-- Go `GetFwRulesOnIngressGateway` (logic/extpeers.go). -/
def GetFwRulesOnIngressGateway (pe : PolicyEnv) (env : Env) (node : Node) (s : State) :
    List FwRule × State :=
  let defaultUserPolicyEnabled := pe.defaultUserPolicyEnabled node.Network
  let defaultDevicePolicyEnabled := pe.defaultDevicePolicyEnabled node.Network
  let nodes := (fwNodes pe env node s).1
  let userNodes := fwUserNodes pe env node s
  let rules := userRules pe defaultUserPolicyEnabled userNodes.1 nodes
  if defaultDevicePolicyEnabled then (rules, userNodes.2)
  else (rules ++ deviceRules pe nodes, userNodes.2)

/-- A policy entry that allows TCP port 22 in both directions. -/
def sshPolicy : AclPolicy := { Proto := ascii "tcp", Port := some [ascii "22"], bidirectional := true }

/-- A policy environment in which everything is allowed by explicit entries
(both default policies disabled), every key parses, an address parses unless
it is empty, and a string parses as a CIDR when it contains a slash. The host
of every node is `h1`, the network has the device node `N2`. -/
def samplePolicyEnv : PolicyEnv where
  getHost := fun _ => ({ ID := ascii "h1", OS := ascii "linux", PublicKey := ascii "host-key" }, none)
  getNetworkNodes := fun network =>
    [{ ID := ascii "N2", HostID := ascii "h2", Network := network
       Address := { IP := some (ascii "10.0.0.7"), Mask := cidrMask32 }
       Address6 := { IP := none, Mask := none }
       IsStatic := false, IsUserNode := false, StaticNode := zeroExtClient }]
  defaultUserPolicyEnabled := fun _ => false
  defaultDevicePolicyEnabled := fun _ => false
  isClientNodeAllowed := fun _ _ => true
  isPeerAllowed := fun _ _ _ => true
  isUserAllowedToCommunicate := fun _ _ => (true, [sshPolicy])
  isNodeAllowedToCommunicate := fun _ _ _ => (true, [sshPolicy])
  convertToStaticNode := staticNodeOf
  addressIPNet4 := fun c => { IP := if c.Address = [] then none else some c.Address, Mask := cidrMask32 }
  addressIPNet6 := fun c =>
    { IP := if c.Address6 = [] then none else some c.Address6, Mask := cidrMask128 }
  sortExtClient := fun l => l
  parseKey := fun k => some k
  keyString := fun k => k
  parseIP := fun a => if a = [] then none else some a
  parseCIDR := fun a => if (47 : UInt8) ∈ a then some { IP := some a, Mask := none } else none
  to4 := fun _ => true

/-- As `samplePolicyEnv`, with both default policies enabled. -/
def blanketPolicyEnv : PolicyEnv :=
  { samplePolicyEnv with
    defaultUserPolicyEnabled := fun _ => true
    defaultDevicePolicyEnabled := fun _ => true }

/-- The ingress gateway node `N1` of the network `n1`. -/
def gatewayNode : Node :=
  { ID := ascii "N1", HostID := ascii "h1", Network := ascii "n1"
    Address := { IP := some (ascii "10.0.0.1"), Mask := cidrMask32 }
    Address6 := { IP := none, Mask := none }
    IsStatic := false, IsUserNode := false, StaticNode := zeroExtClient }

/-- An environment with the cache off and a driver that never fails. -/
def uncachedEnv : Env := { sampleEnv with cacheEnabled := false }

/-- The ext-client `zeta` of the gateway `N1`, with an extra allowed range. -/
def zetaClient : ExtClient :=
  { sampleClient with
    ClientID := ascii "zeta", PublicKey := ascii "zeta-key", Address := ascii "10.0.0.9"
    ExtraAllowedIPs := some [ascii "192.168.1.0/24", ascii "not-a-cidr"] }

/-- The ext-client `alpha` of the gateway `N1`. -/
def alphaClient : ExtClient :=
  { sampleClient with
    ClientID := ascii "alpha", PublicKey := ascii "alpha-key", Address := ascii "10.0.0.8" }

/-- A disabled ext-client of the gateway `N1`. -/
def disabledClient : ExtClient :=
  { sampleClient with
    ClientID := ascii "off", PublicKey := ascii "off-key", Address := ascii "10.0.0.6"
    Enabled := false }

/-- A state whose `ext_client` table is enumerated in the order `zeta`,
`alpha`, `off`. -/
def zetaFirstState : State :=
  { sampleState with
    extClientTable :=
      AList.insert (ascii "zeta#n1") ⟨zetaClient, none⟩
        (AList.insert (ascii "alpha#n1") ⟨alphaClient, none⟩
          (AList.insert (ascii "off#n1") ⟨disabledClient, none⟩ ∅)) }

/-- The same records as in `zetaFirstState`, enumerated in the order `alpha`,
`zeta`, `off`. -/
def alphaFirstState : State :=
  { sampleState with
    extClientTable :=
      AList.insert (ascii "alpha#n1") ⟨alphaClient, none⟩
        (AList.insert (ascii "zeta#n1") ⟨zetaClient, none⟩
          (AList.insert (ascii "off#n1") ⟨disabledClient, none⟩ ∅)) }

/-- A user ext-client (it has a remote-access client id) of the gateway
`N1`. -/
def userClient : ExtClient :=
  { sampleClient with
    ClientID := ascii "laptop", PublicKey := ascii "laptop-key", Address := ascii "10.0.0.20"
    OwnerID := ascii "alice", RemoteAccessClientID := ascii "rac-1" }

/-- A state whose `ext_client` table holds the user client `laptop` and the
device client `zeta`. -/
def fwState : State :=
  { sampleState with
    extClientTable :=
      AList.insert (ascii "laptop#n1") ⟨userClient, none⟩
        (AList.insert (ascii "zeta#n1") ⟨zetaClient, none⟩ ∅) }

/-- As `samplePolicyEnv`, with the default device policy enabled. -/
def devicePolicyEnv : PolicyEnv :=
  { samplePolicyEnv with defaultDevicePolicyEnabled := fun _ => true }

/-- The device node `N2` of `samplePolicyEnv`. -/
def deviceNode : Node :=
  { ID := ascii "N2", HostID := ascii "h2", Network := ascii "n1"
    Address := { IP := some (ascii "10.0.0.7"), Mask := cidrMask32 }
    Address6 := { IP := none, Mask := none }
    IsStatic := false, IsUserNode := false, StaticNode := zeroExtClient }

/-! ## String-slice helpers (`logic/util.go`) -/

/-- Go `StringDifference` (logic/util.go): returns the elements in `a` that
aren't in `b`. The set `mb` is filled from `b`, then `a` is walked and the
elements not found in `mb` are appended to `diff`. -/
def StringDifference (a b : List GoString) : List GoString :=
  let mb : Finset GoString := b.foldl (fun mb x => insert x mb) ∅
  a.foldl (fun diff x => if x ∉ mb then diff ++ [x] else diff) []

/-- Go `RemoveStringSlice` (logic/util.go): removes an element at given index
`i` from a given slice, as `append(slice[:i], slice[i+1:]...)`. `none` stands
for the run-time panic of the slice expression `slice[i+1:]`, whose low
bound must not exceed the length. -/
def RemoveStringSlice (slice : List GoString) (i : Nat) : Option (List GoString) :=
  if i + 1 ≤ slice.length then some (slice.take i ++ slice.drop (i + 1)) else none

/-! ## Sample inputs for the cache and the toggle -/

/-- The error `json.Unmarshal` returns for a truncated document. -/
def errUnmarshal : GoError := ⟨"unexpected end of JSON input"⟩

/-- A state whose `ext_client` table holds, under the key of `sampleClient`,
a value that `json.Unmarshal` rejects, leaving the ext-client at its zero
value; the ext-client cache is empty. -/
def corruptState : State :=
  { sampleState with
    extClientTable := AList.insert (ascii "road-warrior#n1") ⟨zeroExtClient, some errUnmarshal⟩ ∅ }

/-- An ext-client with both scripts and a tag. -/
def scriptedClient : ExtClient :=
  { sampleClient with PostDown := ascii "echo down\n", Tags := some {ascii "laptops"} }

/-- A publisher environment whose only host has the OS tag `iot`. -/
def loneIotEnv : PublishEnv :=
  { samplePublishEnv 1 with hosts := [{ ID := [0], OS := OS_IoT, PublicKey := [] }] }

/-- A state whose `ext_client` table holds `sampleClient` and a value that
`json.Unmarshal` rejects, enumerated in this order. -/
def corruptLastState : State :=
  { sampleState with
    extClientTable :=
      AList.insert (ascii "road-warrior#n1") ⟨sampleClient, none⟩
        (AList.insert (ascii "broken#n1") ⟨zeroExtClient, some errUnmarshal⟩ ∅) }

/-- The same records as in `corruptLastState`, the undecodable one enumerated
first. -/
def corruptFirstState : State :=
  { sampleState with
    extClientTable :=
      AList.insert (ascii "broken#n1") ⟨zeroExtClient, some errUnmarshal⟩
        (AList.insert (ascii "road-warrior#n1") ⟨sampleClient, none⟩ ∅) }

/-- No address allocated in `s` is missing in `s'`, for any network. -/
def AllocatedKept (s s' : State) : Prop :=
  ∀ network, allocatedIps network s ⊆ allocatedIps network s'

/-- What `CreateExtClient` returns for `unnamedClient` in `sampleState` when
the name generator only yields the name of the stored client. -/
def failedCreate : (ExtClient × Option GoError) × State :=
  (CreateExtClient fullNamespaceEnv unnamedClient sampleState).getD
    ((zeroExtClient, none), sampleState)

/-! ## Random strings (`RandomString`, `encoding/base32`) -/

/-- The alphabet of Go `base32.StdEncoding` (RFC 4648): `A`–`Z`, `2`–`7`. -/
def encodeStd : List UInt8 := ascii "ABCDEFGHIJKLMNOPQRSTUVWXYZ234567"

/-- Go `base32.StdPadding`, the character `=`. -/
def StdPadding : UInt8 := 61

/-- The number of alphabet characters that encode a quantum of `len` bytes:
2, 4, 5, 7 and 8 for 1 to 5 bytes. -/
def quantumChars (len : Nat) : Nat := (len * 8 + 4) / 5

/-- The encoding of one quantum of at most five bytes: the bytes, filled up
with zero bits to 40 bits, are cut into 5-bit groups from the most
significant end; the groups that hold input bits are written with the
alphabet, the rest of the eight places with the padding character. -/
def encodeQuantum (src : List UInt8) : List UInt8 :=
  let v := (src ++ List.replicate (5 - src.length) 0).foldl
    (fun (acc : Nat) (b : UInt8) => acc * 256 + b.toNat) 0
  (List.range (quantumChars src.length)).map
      (fun k => encodeStd.getD (v / 32 ^ (7 - k) % 32) 0)
    ++ List.replicate (8 - quantumChars src.length) StdPadding

/-- Go `base32.StdEncoding.EncodeToString`: the input is encoded five bytes at
a time, the last quantum may be shorter. -/
def EncodeToString : List UInt8 → List UInt8
  | [] => []
  | [a] => encodeQuantum [a]
  | [a, b] => encodeQuantum [a, b]
  | [a, b, c] => encodeQuantum [a, b, c]
  | [a, b, c, d] => encodeQuantum [a, b, c, d]
  | a :: b :: c :: d :: e :: rest => encodeQuantum [a, b, c, d, e] ++ EncodeToString rest

/-- Go `crypto/rand.Read` as `RandomString` sees it: the error it returns and
the byte it puts at each index of the buffer. -/
structure RandReader where
  err : Option GoError
  byte : Nat → UInt8

/-- Go `RandomString` (logic/util.go): returns a random string in a charset.
`length` is a `Nat`, as `make([]byte, length)` needs `length >= 0`; `none`
stands for the run-time panic of the slice expression `[:length]` out of
range. -/
def RandomString (rand : RandReader) (length : Nat) : Option GoString :=
  let randombytes := (List.range length).map rand.byte
  match rand.err with
  | some _ => some []
  | none =>
    let encoded := EncodeToString randombytes
    if length ≤ encoded.length then some (encoded.take length) else none

/-- A random source that succeeds. -/
def sampleRand : RandReader := { err := none, byte := fun i => UInt8.ofNat (i * 37 + 11) }

/-! ## CIDR normalisation (`NormalizeCIDR`, `net`, `net/netip`, `iplib`) -/

/-- Whether a byte is a decimal digit, `'0' <= c && c <= '9'`. -/
def isDigit (c : UInt8) : Bool := decide (48 ≤ c.toNat ∧ c.toNat ≤ 57)

/-- The value of a run of decimal digits, `n = n*10 + int(s[i]-'0')`. -/
def digitsValue (s : GoString) : Nat :=
  s.foldl (fun (n : Nat) (c : UInt8) => n * 10 + (c.toNat - 48)) 0

/-- Go `dtoi` (package `net`) together with the caller's check that it
consumed the whole of `s`: at least one digit, digits only, and a value below
`big = 0xFFFFFF`. -/
def dtoi (s : GoString) : Option Nat :=
  if s = [] ∨ s.all isDigit = false then none
  else if 0xFFFFFF ≤ digitsValue s then none
  else some (digitsValue s)

/-- One field of a dotted-decimal address as `netip.ParseAddr` reads it: at
least one digit, digits only, no leading zero before another digit, and a
value of at most 255. -/
def parseOctet (s : GoString) : Option Nat :=
  if s = [] ∨ s.all isDigit = false then none
  else if 1 < s.length ∧ s.head? = some 48 then none
  else if 255 < digitsValue s then none
  else some (digitsValue s)

/-- Go `netip.ParseAddr` on IPv4 text: exactly four fields separated by `.`;
the address is given by its 32-bit value. -/
def parseIPv4 (s : GoString) : Option Nat :=
  match s.splitOn 46 with
  | [f0, f1, f2, f3] =>
    match parseOctet f0, parseOctet f1, parseOctet f2, parseOctet f3 with
    | some a, some b, some c, some d => some (((a * 256 + b) * 256 + c) * 256 + d)
    | _, _, _, _ => none
  | _ => none

/-- The loop of Go `uitoa`, which writes the decimal digits of `val` from the
last one; `fuel` is the size of its buffer. -/
def uitoaLoop : Nat → Nat → GoString → GoString
  | 0, _, acc => acc
  | fuel + 1, val, acc =>
    if 10 ≤ val then uitoaLoop fuel (val / 10) (UInt8.ofNat (48 + val % 10) :: acc)
    else UInt8.ofNat (48 + val) :: acc

/-- Go `uitoa` (package `net`): the decimal text of `val`, written into a
buffer of 20 bytes. -/
def uitoa (val : Nat) : GoString :=
  if val = 0 then [48] else uitoaLoop 20 val []

/-- Go `IP.String()` of an IPv4 address given by its 32-bit value: the four
bytes in decimal, joined by `.`. -/
def ip4String (a : Nat) : GoString :=
  List.intercalate [46]
    [uitoa (a / 2 ^ 24 % 256), uitoa (a / 2 ^ 16 % 256), uitoa (a / 2 ^ 8 % 256), uitoa (a % 256)]

/-- Go `net.IP` as `NormalizeCIDR` meets it: an IPv4 address (in its 4-byte or
16-byte form), given by its 32-bit value; another 16-byte address, given by
its 128-bit value; or nil. -/
inductive IPAddr where
  | v4 (a : Nat)
  | v6 (a : Nat)
  | nil
deriving DecidableEq

/-- Go `net.IPNet` with a CIDR mask: the address and the number of leading
ones of the mask. -/
structure CIDRNet where
  IP : IPAddr
  ones : Nat
deriving DecidableEq

/-- The parts of `net`, `net/netip` and `iplib` that deal with text and
networks other than IPv4 dotted-decimal ones; they are parameters. -/
structure Net6Lib where
  /-- `netip.ParseAddr` on IPv6 text, giving the 128-bit value. -/
  parseIPv6 : GoString → Option Nat
  /-- `IPNet.String()` of a network whose address is not an IPv4 one. -/
  netString : CIDRNet → GoString
  /-- `iplib.Net6FromStr(s).FirstAddress()`. -/
  net6FirstAddress : GoString → IPAddr
  /-- `iplib.Net4FromStr(s).NetworkAddress()` for a text that is not an IPv4
  CIDR. -/
  net4NetworkAddressOther : GoString → IPAddr

/-- The error `net.ParseCIDR` returns, a `*net.ParseError`. -/
def errParseCIDR : GoError := ⟨"invalid CIDR address"⟩

/-- Go `netip.ParseAddr` as `net.ParseCIDR` uses it: the first of `.`, `:`
and `%` in the text decides between IPv4 and IPv6 syntax; text with none of
them, and a zone, are rejected. -/
def parseAddr (lib : Net6Lib) (s : GoString) : Option IPAddr :=
  match s.find? (fun c => c = 46 ∨ c = 58 ∨ c = 37) with
  | some 46 => (parseIPv4 s).map IPAddr.v4
  | some 58 => if 37 ∈ s then none else (lib.parseIPv6 s).map IPAddr.v6
  | _ => none

/-- Go `Addr.BitLen()`. -/
def BitLen : IPAddr → Nat
  | .v4 _ => 32
  | .v6 _ => 128
  | .nil => 0

/-- Go `IP.Mask(net.CIDRMask(ones, bits))` on the value of an address of
`bits` bits: the low `bits - ones` bits, the host bits, are cleared. -/
def maskValue (bits ones a : Nat) : Nat := a / 2 ^ (bits - ones) * 2 ^ (bits - ones)

/-- Go `IP.Mask` with a CIDR mask of the address's own length. -/
def IPAddr.Mask (ones : Nat) : IPAddr → IPAddr
  | .v4 a => .v4 (maskValue 32 ones a)
  | .v6 a => .v6 (maskValue 128 ones a)
  | .nil => .nil

/-- Go `net.ParseCIDR`: the text is cut at the first `/` into address and
prefix length; it returns the address and the network it implies. -/
def ParseCIDR (lib : Net6Lib) (s : GoString) : Except GoError (IPAddr × CIDRNet) :=
  match s.span (fun c => c ≠ 47) with
  | (_, []) => .error errParseCIDR
  | (addr, _ :: mask) =>
    match parseAddr lib addr with
    | none => .error errParseCIDR
    | some ip =>
      match dtoi mask with
      | none => .error errParseCIDR
      | some n =>
        if BitLen ip < n then .error errParseCIDR
        else .ok (ip, { IP := ip.Mask n, ones := n })

/-- Go `IP.To4()`: the IPv4 address, also of an IPv4-mapped 16-byte address;
`none` stands for nil. -/
def To4 : IPAddr → Option Nat
  | .v4 a => some a
  | .v6 a => if a / 2 ^ 32 = 0xFFFF then some (a % 2 ^ 32) else none
  | .nil => none

/-- Go `IPNet.String()`: address, `/`, prefix length. -/
def CIDRNet.String (lib : Net6Lib) (n : CIDRNet) : GoString :=
  match n.IP with
  | .v4 a => ip4String a ++ [47] ++ uitoa n.ones
  | _ => lib.netString n

/-- The text `a.b.c.d/n` read as an IPv4 CIDR: the 32-bit value of `a.b.c.d`
and the prefix length. -/
def parseCIDR4 (s : GoString) : Option (Nat × Nat) :=
  match s.span (fun c => c ≠ 47) with
  | (_, []) => none
  | (addr, _ :: mask) =>
    match parseIPv4 addr, dtoi mask with
    | some a, some n => if 32 < n then none else some (a, n)
    | _, _ => none

/-- The expression `iplib.Net4FromStr(s).NetworkAddress()`: for an IPv4 CIDR
the address with its host bits cleared. -/
def Net4NetworkAddress (lib : Net6Lib) (s : GoString) : IPAddr :=
  match parseCIDR4 s with
  | some (a, n) => .v4 (maskValue 32 n a)
  | none => lib.net4NetworkAddressOther s

/-- Go `NormalizeCIDR` (logic/util.go): returns the first address of CIDR. -/
def NormalizeCIDR (lib : Net6Lib) (address : GoString) : GoString × Option GoError :=
  match ParseCIDR lib address with
  | .error err => ([], some err)
  | .ok (ip, ipnet) =>
    let ipnet :=
      if To4 ip = none then
        { ipnet with IP := lib.net6FirstAddress (ipnet.String lib) }
      else
        { ipnet with IP := Net4NetworkAddress lib (ipnet.String lib) }
    (ipnet.String lib, none)

/-- A library whose IPv6 side rejects every text. -/
def sampleNet6Lib : Net6Lib where
  parseIPv6 := fun _ => none
  netString := fun _ => ascii "<nil>"
  net6FirstAddress := fun _ => .nil
  net4NetworkAddressOther := fun _ => .nil

/-- What `net.ParseCIDR` makes of the text `10.0.0.7/24`. -/
def sampleCIDR : IPAddr × CIDRNet :=
  (.v4 167772167, { IP := .v4 167772160, ones := 24 })

/-! ## Theorems -/

/-! ### `strings.Replace` on CRLF -/

theorem replaceLoop_nil (old new : GoString) (k : Nat) : replaceLoop old new k [] = [] := by
  cases k <;> rfl

theorem stringsReplace_crlf_cons_cons (rest : GoString) :
    stringsReplace (CR :: LF :: rest) [CR, LF] [LF]
      = LF :: stringsReplace rest [CR, LF] [LF] := by
  simp [stringsReplace, replaceLoop, List.isPrefixOf]

theorem stringsReplace_crlf_cons_of_no_match (b : UInt8) (rest : GoString)
    (h : ¬ [CR, LF] <+: b :: rest) :
    stringsReplace (b :: rest) [CR, LF] [LF]
      = b :: stringsReplace rest [CR, LF] [LF] := by
  have h2 : List.isPrefixOf [CR, LF] (b :: rest) = false := by
    rw [Bool.eq_false_iff]
    intro hp
    exact h (List.isPrefixOf_iff_prefix.mp hp)
  simp only [stringsReplace, replaceLoop, h2]
  simp

/-- Replacing CRLF by LF leaves a string without CRLF unchanged. -/
theorem stringsReplace_crlf_of_crlf_free (s : GoString) (h : ¬ [CR, LF] <:+: s) :
    stringsReplace s [CR, LF] [LF] = s := by
  induction s with
  | nil => rfl
  | cons b rest ih =>
    have hp : ¬ [CR, LF] <+: b :: rest := fun hp => h hp.isInfix
    have hr : ¬ [CR, LF] <:+: rest := fun hr => h (List.infix_cons hr)
    rw [stringsReplace_crlf_cons_of_no_match b rest hp, ih hr]

/-- The output of the CRLF replacement starts with LF exactly when the input
starts with LF or with CRLF. -/
theorem lf_prefix_stringsReplace_crlf (s : GoString) :
    [LF] <+: stringsReplace s [CR, LF] [LF] ↔ ([LF] <+: s ∨ [CR, LF] <+: s) := by
  match s with
  | [] => simp [stringsReplace, replaceLoop]
  | [b] =>
    have hp : ¬ [CR, LF] <+: [b] := by
      intro hp
      have := hp.length_le
      simp at this
    rw [stringsReplace_crlf_cons_of_no_match b [] hp]
    simp [stringsReplace, replaceLoop, hp]
  | b :: c :: rest =>
    by_cases hp : [CR, LF] <+: b :: c :: rest
    · have hb : b = CR ∧ c = LF := by
        simpa [List.cons_prefix_cons, eq_comm] using hp
      rw [hb.1, hb.2, stringsReplace_crlf_cons_cons]
      simp
    · rw [stringsReplace_crlf_cons_of_no_match b (c :: rest) hp]
      simp [hp]

theorem crlf_infix_stringsReplace_aux (n : Nat) :
    ∀ s : GoString, s.length ≤ n →
      ([CR, LF] <:+: stringsReplace s [CR, LF] [LF] ↔ [CR, CR, LF] <:+: s) := by
  induction n with
  | zero =>
    intro s hs
    have : s = [] := List.length_eq_zero.mp (Nat.le_zero.mp hs)
    subst this
    simp [stringsReplace, replaceLoop]
  | succ n ih =>
    intro s hs
    match s, hs with
    | [], _ => simp [stringsReplace, replaceLoop]
    | b :: rest, hs =>
      have hlen : rest.length ≤ n := by simpa using hs
      by_cases hp : [CR, LF] <+: b :: rest
      · obtain ⟨t, ht⟩ : ∃ t, rest = LF :: t ∧ b = CR := by
          match rest, hp with
          | [], hp => simp at hp
          | c :: t, hp =>
            have hb : b = CR ∧ c = LF := by
              simpa [List.cons_prefix_cons, eq_comm] using hp
            exact ⟨t, by rw [hb.2], hb.1⟩
        obtain ⟨hrest, hb⟩ := ht
        subst hrest
        subst hb
        have hlen2 : t.length ≤ n := by
          simp at hlen
          omega
        rw [stringsReplace_crlf_cons_cons, List.infix_cons_iff, ih t hlen2,
          List.infix_cons_iff, List.infix_cons_iff]
        have hne : LF ≠ CR := by decide
        have hne2 : CR ≠ LF := by decide
        simp [List.cons_prefix_cons, hne, hne2]
      · rw [stringsReplace_crlf_cons_of_no_match b rest hp, List.infix_cons_iff,
          ih rest hlen, List.infix_cons_iff, List.cons_prefix_cons,
          lf_prefix_stringsReplace_crlf]
        have key : (CR = b ∧ ([LF] <+: rest ∨ [CR, LF] <+: rest)) ↔
            [CR, CR, LF] <+: b :: rest := by
          constructor
          · rintro ⟨hb, h | h⟩
            · exact absurd (by rw [← hb]; exact (List.cons_prefix_cons.mpr ⟨rfl, h⟩)) hp
            · rw [← hb]; exact List.cons_prefix_cons.mpr ⟨rfl, h⟩
          · intro h
            obtain ⟨hb, h⟩ := List.cons_prefix_cons.mp h
            exact ⟨hb, Or.inr h⟩
        rw [key]

/-- The CRLF replacement leaves a CRLF in its output exactly when the input
holds CR CR LF. -/
theorem crlf_infix_stringsReplace (s : GoString) :
    [CR, LF] <:+: stringsReplace s [CR, LF] [LF] ↔ [CR, CR, LF] <:+: s :=
  crlf_infix_stringsReplace_aux s.length s le_rfl

/-! ### `reflect.DeepEqual` on sets -/

theorem reflectDeepEqual_iff (a b : Option (Finset GoString)) :
    reflectDeepEqual a b = true ↔ a = b := by
  match a, b with
  | none, none => simp [reflectDeepEqual]
  | none, some y => simp [reflectDeepEqual]
  | some x, none => simp [reflectDeepEqual]
  | some x, some y =>
    simp only [reflectDeepEqual, Bool.and_eq_true, decide_eq_true_eq, Option.some.injEq]
    constructor
    · rintro ⟨hc, hs⟩
      exact Finset.eq_of_subset_of_card_le hs (le_of_eq hc.symm)
    · rintro rfl
      exact ⟨rfl, fun _ h => h⟩

/-! ### `UpdateExtClient` -/

theorem UpdateExtClient_PostUp (old : ExtClient) (update : CustomExtClient) :
    (UpdateExtClient old update).PostUp = stringsReplace update.PostUp [CR, LF] [LF] := by
  simp only [UpdateExtClient]

theorem UpdateExtClient_PostDown (old : ExtClient) (update : CustomExtClient) :
    (UpdateExtClient old update).PostDown = stringsReplace update.PostDown [CR, LF] [LF] := by
  simp only [UpdateExtClient]

theorem UpdateExtClient_DeniedACLs (old : ExtClient) (update : CustomExtClient) :
    (UpdateExtClient old update).DeniedACLs =
      if update.DeniedACLs ≠ none ∧ ¬ reflectDeepEqual old.DeniedACLs update.DeniedACLs then
        update.DeniedACLs
      else old.DeniedACLs := by
  simp only [UpdateExtClient]
  split_ifs <;> rfl

/-- C1 (as stated, refuted): for the ext-client `crlfClient`, whose post-up
script ends in CRLF, the update that carries the client's own values does not
return the client unchanged. -/
theorem UpdateExtClient_own_values_changes_crlf :
    UpdateExtClient crlfClient (asCustom crlfClient) ≠ crlfClient := by
  intro h
  have hp := congrArg ExtClient.PostUp h
  revert hp
  decide

/-- C1 (amended): for every ext-client `c` whose PostUp and PostDown hold no
CRLF, `UpdateExtClient c u`, with `u` carrying the own values of `c`, equals
`c` in every field. -/
theorem UpdateExtClient_own_values_noop (c : ExtClient)
    (hUp : ¬ [CR, LF] <:+: c.PostUp) (hDown : ¬ [CR, LF] <:+: c.PostDown) :
    UpdateExtClient c (asCustom c) = c := by
  have h1 := stringsReplace_crlf_of_crlf_free c.PostUp hUp
  have h2 := stringsReplace_crlf_of_crlf_free c.PostDown hDown
  have h3 : reflectDeepEqual c.DeniedACLs c.DeniedACLs = true :=
    (reflectDeepEqual_iff _ _).mpr rfl
  simp [UpdateExtClient, asCustom, h1, h2, h3]

theorem UpdateExtClient_own_values_noop_witness :
    UpdateExtClient sampleClient (asCustom sampleClient) = sampleClient :=
  UpdateExtClient_own_values_noop sampleClient (by decide) (by decide)

/-- C9 (as stated, refuted): updating `sampleClient` with a post-up script
CR CR LF gives a result whose PostUp contains CRLF. -/
theorem UpdateExtClient_PostUp_keeps_crlf :
    [CR, LF] <:+: (UpdateExtClient sampleClient crcrlfUpdate).PostUp := by
  decide

/-- C9 (amended): for every old ext-client and every update, the PostUp and
PostDown of the result are the update's scripts after one left-to-right
replacement of CRLF by LF, and such a script contains CRLF exactly when the
update's script contains CR CR LF. -/
theorem UpdateExtClient_scripts_crlf (old : ExtClient) (update : CustomExtClient) :
    ((UpdateExtClient old update).PostUp = stringsReplace update.PostUp [CR, LF] [LF] ∧
      ([CR, LF] <:+: (UpdateExtClient old update).PostUp ↔
        [CR, CR, LF] <:+: update.PostUp)) ∧
    ((UpdateExtClient old update).PostDown = stringsReplace update.PostDown [CR, LF] [LF] ∧
      ([CR, LF] <:+: (UpdateExtClient old update).PostDown ↔
        [CR, CR, LF] <:+: update.PostDown)) := by
  rw [UpdateExtClient_PostUp, UpdateExtClient_PostDown]
  exact ⟨⟨rfl, crlf_infix_stringsReplace _⟩, ⟨rfl, crlf_infix_stringsReplace _⟩⟩

/-- C10: for every old ext-client and every update, the DeniedACLs of the
result of `UpdateExtClient` is that of `old` when the update's DeniedACLs is
nil, and that of the update otherwise. -/
theorem UpdateExtClient_DeniedACLs_replaced_iff_supplied (old : ExtClient)
    (update : CustomExtClient) :
    (UpdateExtClient old update).DeniedACLs =
      if update.DeniedACLs = none then old.DeniedACLs else update.DeniedACLs := by
  rw [UpdateExtClient_DeniedACLs]
  by_cases hn : update.DeniedACLs = none
  · simp [hn]
  · by_cases he : reflectDeepEqual old.DeniedACLs update.DeniedACLs = true
    · have := (reflectDeepEqual_iff _ _).mp he
      simp [hn, he, this]
    · simp [hn, he]

/-! ### Go maps -/

theorem mapRange_nodupKeys {K V : Type} (m : Option (GoMap K V)) : (mapRange m).NodupKeys := by
  cases m with
  | none => exact List.nodupKeys_nil
  | some a => exact a.nodupKeys

theorem mapIndex_eq_dlookup {K V : Type} [DecidableEq K] (m : Option (GoMap K V)) (k : K) :
    mapIndex m k = List.dlookup k (mapRange m) := by
  cases m <;> rfl

theorem mapLen_eq_length {K V : Type} (m : Option (GoMap K V)) :
    mapLen m = (mapRange m).length := by
  cases m <;> rfl

/-- Two key-distinct entry lists have the same length and the second maps
every entry of the first to its value exactly when they agree at every key. -/
theorem dlookup_ext_iff_length_and_forall {K V : Type} [DecidableEq K]
    (l₁ l₂ : List (Sigma fun _ : K => V)) (nd₁ : l₁.NodupKeys) (nd₂ : l₂.NodupKeys) :
    (l₁.length = l₂.length ∧ ∀ e ∈ l₁, List.dlookup e.1 l₂ = some e.2) ↔
      ∀ k, List.dlookup k l₁ = List.dlookup k l₂ := by
  constructor
  · rintro ⟨hlen, hall⟩ k
    have hsub : l₁.keys ⊆ l₂.keys := by
      intro a ha
      obtain ⟨b, hb⟩ := List.exists_of_mem_keys ha
      have := hall _ hb
      exact List.dlookup_isSome.mp (by simp [this])
    have hperm : l₁.keys.Perm l₂.keys := by
      apply (List.subperm_of_subset nd₁ hsub).perm_of_length_le
      simp [List.keys, hlen]
    cases h : List.dlookup k l₁ with
    | some v =>
      have hm := List.of_mem_dlookup h
      exact (hall _ hm).symm
    | none =>
      have hk : k ∉ l₁.keys := List.dlookup_eq_none.mp h
      have hk2 : k ∉ l₂.keys := fun hc => hk (hperm.mem_iff.mpr hc)
      exact (List.dlookup_eq_none.mpr hk2).symm
  · intro h
    constructor
    · have hperm : l₁.keys.Perm l₂.keys := by
        apply (List.perm_ext_iff_of_nodup nd₁ nd₂).mpr
        intro a
        rw [← List.dlookup_isSome, ← List.dlookup_isSome, h a]
      have := hperm.length_eq
      simpa [List.keys] using this
    · intro e he
      rw [← h e.1]
      exact List.mem_dlookup nd₁ he

/-! ### `isServerStatusChanged` -/

theorem failoverChanged_eq_false_iff (current : Option (GoMap GoString Bool))
    (l : List (Sigma fun _ : GoString => Bool)) :
    failoverChanged current l = false ↔ ∀ e ∈ l, mapIndex current e.1 = some e.2 := by
  induction l with
  | nil => simp [failoverChanged]
  | cons e rest ih =>
    obtain ⟨k, v⟩ := e
    simp only [failoverChanged, List.mem_cons, forall_eq_or_imp]
    cases h : mapIndex current k with
    | none => simp
    | some v1 =>
      by_cases hv : v = v1
      · simp [hv, ih]
      · simp [hv]
        intro hc
        exact absurd hc.symm hv

/-- The Failover part of `isServerStatusChanged` finds no change exactly when
the two maps have the same keys and the same value at each key. -/
theorem failover_unchanged_iff (cached current : Option (GoMap GoString Bool)) :
    (mapLen cached = mapLen current ∧
        failoverChanged current (mapRange cached) = false) ↔
      ∀ k, mapIndex cached k = mapIndex current k := by
  rw [failoverChanged_eq_false_iff, mapLen_eq_length, mapLen_eq_length]
  simp only [mapIndex_eq_dlookup]
  exact dlookup_ext_iff_length_and_forall _ _ (mapRange_nodupKeys _) (mapRange_nodupKeys _)

/-- C3: `isServerStatusChanged cached current` is false exactly when the two
statuses agree on DB, Broker, IsBrokerConnOpen, LicenseError, IsPro, the
instant of TrialEndDate and IsOnTrialLicense and their Failover maps have the
same keys with the same value at each key; so any difference in one of these,
a key present only in the current Failover map included, gives true. -/
theorem isServerStatusChanged_eq_false_iff (cached current : ServerStatus) :
    isServerStatusChanged cached current = false ↔
      (cached.DB = current.DB ∧ cached.Broker = current.Broker ∧
        cached.IsBrokerConnOpen = current.IsBrokerConnOpen ∧
        cached.LicenseError = current.LicenseError ∧ cached.IsPro = current.IsPro ∧
        cached.TrialEndDate.unixNano = current.TrialEndDate.unixNano ∧
        cached.IsOnTrialLicense = current.IsOnTrialLicense ∧
        ∀ k, mapIndex cached.Failover k = mapIndex current.Failover k) := by
  rw [← failover_unchanged_iff]
  unfold isServerStatusChanged
  by_cases h1 : cached.DB = current.DB <;>
  by_cases h2 : cached.Broker = current.Broker <;>
  by_cases h3 : cached.IsBrokerConnOpen = current.IsBrokerConnOpen <;>
  by_cases h4 : cached.LicenseError = current.LicenseError <;>
  by_cases h5 : cached.IsPro = current.IsPro <;>
  by_cases h6 : cached.TrialEndDate.unixNano = current.TrialEndDate.unixNano <;>
  by_cases h7 : cached.IsOnTrialLicense = current.IsOnTrialLicense <;>
  by_cases h8 : mapLen cached.Failover = mapLen current.Failover <;>
  simp [h1, h2, h3, h4, h5, h6, h7, h8, Time.Equal]

/-! ### Batching of the bulk publishers -/

/-- With enough fuel the loop over the full batches runs to its end: from
`i = k * batch` it makes the batches `k, k+1, ..., div-1`. -/
theorem fullBatches_eq (batch div : Nat) (hb : 0 < batch) :
    ∀ fuel k, div - k ≤ fuel →
      fullBatches batch div fuel (k * batch)
        = (List.range' k (div - k)).map (fullBatchAt batch) := by
  intro fuel
  induction fuel with
  | zero =>
    intro k hk
    have : div - k = 0 := Nat.le_zero.mp hk
    simp [fullBatches, this]
  | succ fuel ih =>
    intro k hk
    by_cases hlt : k < div
    · have h1 : k * batch < div * batch := Nat.mul_lt_mul_of_pos_right hlt hb
      have h2 : k * batch + batch = (k + 1) * batch := by ring
      have h3 : div - k = (div - (k + 1)) + 1 := by omega
      rw [fullBatches, if_pos h1, h2, ih (k + 1) (by omega), h3, List.range'_succ]
      simp [fullBatchAt]
    · have h1 : ¬ k * batch < div * batch := by
        intro hc
        exact hlt (Nat.lt_of_mul_lt_mul_right hc)
      have h3 : div - k = 0 := by omega
      rw [fullBatches, if_neg h1, h3]
      simp

theorem flatten_fullBatchAt (batch : Nat) :
    ∀ len k, (((List.range' k len).map (fullBatchAt batch)).map Batch.dispatched).flatten
      = List.range' (k * batch) (len * batch) := by
  intro len
  induction len with
  | zero => intro k; simp
  | succ len ih =>
    intro k
    have h1 : (List.range batch).map (fun j => k * batch + j) = List.range' (k * batch) batch := by
      rw [List.range'_eq_map_range]
    have h2 : (len + 1) * batch = batch + len * batch := by ring
    have h3 : (k + 1) * batch = k * batch + batch := by ring
    rw [List.range'_succ, List.map_cons, List.map_cons, List.flatten_cons, ih (k + 1), h2,
      ← List.range'_append_1, h3]
    simp [fullBatchAt, h1]
    ring

/-- Closed form of the batching for at least `batchSize` hosts. -/
theorem publishBatches_of_div_pos (n : Nat) (h : 20 ≤ n) :
    publishBatches n =
      (List.range' 0 (n / 20)).map (fullBatchAt 20) ++
        (if n % 20 ≠ 0 then
          [{ registered := n - n / 20 * 20,
             dispatched := List.range' (n / 20 * 20) (n - n / 20 * 20) }]
        else []) := by
  have hd : n / 20 ≠ 0 := by omega
  have hf := fullBatches_eq 20 (n / 20) (by decide) (n + 1) 0 (by omega)
  simp only [Nat.zero_mul, Nat.sub_zero] at hf
  simp only [publishBatches, batchSize, hd, if_false, hf]

theorem publishBatches_of_div_zero (n : Nat) (h : n < 20) :
    publishBatches n = [{ registered := n, dispatched := List.range n }] := by
  have hd : n / 20 = 0 := by omega
  simp [publishBatches, batchSize, hd]

/-- The batches, one after another, dispatch the host indices `0, ..., n-1`
in order. -/
theorem publishBatches_flatten (n : Nat) :
    ((publishBatches n).map Batch.dispatched).flatten = List.range n := by
  by_cases h : n < 20
  · simp [publishBatches_of_div_zero n h]
  · rw [publishBatches_of_div_pos n (by omega), List.map_append, List.flatten_append,
      flatten_fullBatchAt, List.range_eq_range']
    by_cases hm : n % 20 = 0
    · have : n / 20 * 20 = n := by omega
      simp [hm, this]
    · have h2 : (n - n / 20 * 20) + n / 20 * 20 = n := by omega
      have h3 := List.range'_append_1 0 (n / 20 * 20) (n - n / 20 * 20)
      rw [Nat.zero_add, h2] at h3
      simp only [hm, ne_eq, not_false_eq_true, if_true, List.map_cons, List.map_nil,
        List.flatten_cons, List.flatten_nil, List.append_nil, Nat.zero_mul]
      exact h3

theorem publishBatches_length (n : Nat) (h : 1 ≤ n) :
    (publishBatches n).length = (n + 19) / 20 := by
  by_cases h20 : n < 20
  · rw [publishBatches_of_div_zero n h20]
    simp
    omega
  · rw [publishBatches_of_div_pos n (by omega)]
    by_cases hm : n % 20 = 0
    · simp [hm]
      omega
    · simp [hm]
      omega

/-- Every batch holds at most `batchSize` hosts and registers with the wait
group as many tasks as it starts. -/
theorem publishBatches_batch (n : Nat) (b : Batch) (hb : b ∈ publishBatches n) :
    b.dispatched.length ≤ 20 ∧ b.registered = b.dispatched.length := by
  by_cases h20 : n < 20
  · rw [publishBatches_of_div_zero n h20] at hb
    simp at hb
    subst hb
    simp
    omega
  · rw [publishBatches_of_div_pos n (by omega)] at hb
    rcases List.mem_append.mp hb with hb | hb
    · obtain ⟨q, _, rfl⟩ := List.mem_map.mp hb
      simp [fullBatchAt]
    · by_cases hm : n % 20 = 0
      · simp [hm] at hb
      · simp [hm] at hb
        subst hb
        simp
        omega

/-- In a list of lists whose concatenation has no duplicates, an element of the
concatenation lies in exactly one of the lists. -/
theorem countP_mem_of_nodup_flatten (i : Nat) :
    ∀ L : List (List Nat), L.flatten.Nodup → i ∈ L.flatten →
      L.countP (fun l => decide (i ∈ l)) = 1 := by
  intro L
  induction L with
  | nil => intro _ h; simp at h
  | cons l L ih =>
    intro hnd hi
    rw [List.flatten_cons] at hnd hi
    have hdis := List.nodup_append.mp hnd
    by_cases hl : i ∈ l
    · have hnot : i ∉ L.flatten := fun hc => hdis.2.2 hl hc
      have hz : L.countP (fun l => decide (i ∈ l)) = 0 := by
        rw [List.countP_eq_zero]
        intro l' hl'
        simp only [decide_eq_true_eq]
        exact fun hc => hnot (List.mem_flatten.mpr ⟨l', hl', hc⟩)
      rw [List.countP_cons_of_pos _ _ (by simpa using hl), hz]
    · have hi2 : i ∈ L.flatten := by
        rcases List.mem_append.mp hi with h | h
        · exact absurd h hl
        · exact h
      rw [List.countP_cons_of_neg _ _ (by simpa using hl)]
      exact ih hdis.2.1 hi2

theorem publishBatches_countP (n i : Nat) (hi : i < n) :
    (publishBatches n).countP (fun b => decide (i ∈ b.dispatched)) = 1 := by
  have h := countP_mem_of_nodup_flatten i ((publishBatches n).map Batch.dispatched)
    (by rw [publishBatches_flatten]; exact List.nodup_range n)
    (by rw [publishBatches_flatten]; exact List.mem_range.mpr hi)
  rw [List.countP_map] at h
  exact h

theorem PublishPeerUpdate_batches_eq (env : PublishEnv)
    (hmq : env.isMessageQueueBackend = true) (hh : env.hostsErr = none)
    (hn : env.nodesErr = none) :
    (PublishPeerUpdate env).batches = publishBatches env.hosts.length := by
  simp [PublishPeerUpdate, hmq, hh, hn]

/-- C4: when `PublishPeerUpdate` runs over a loaded inventory of `n ≥ 1`
hosts, whatever the outcome of each host's publish: every batch holds at most
20 hosts and is joined on exactly the tasks it started, the batches dispatch
the host indices `0..n-1` consecutively, every index in exactly one batch,
and there are `ceil(n/20)` batches; 21 hosts give batches of 20 and 1, and
40 hosts two batches of 20. -/
theorem PublishPeerUpdate_batches (env : PublishEnv)
    (hmq : env.isMessageQueueBackend = true) (hh : env.hostsErr = none)
    (hn : env.nodesErr = none) (hlen : 1 ≤ env.hosts.length) :
    (∀ b ∈ (PublishPeerUpdate env).batches,
        b.dispatched.length ≤ 20 ∧ b.registered = b.dispatched.length) ∧
    ((PublishPeerUpdate env).batches.map Batch.dispatched).flatten
        = List.range env.hosts.length ∧
    (∀ i, i < env.hosts.length →
        (PublishPeerUpdate env).batches.countP (fun b => decide (i ∈ b.dispatched)) = 1) ∧
    (PublishPeerUpdate env).batches.length = (env.hosts.length + 19) / 20 ∧
    (env.hosts.length = 21 →
        (PublishPeerUpdate env).batches.map (fun b => b.dispatched.length) = [20, 1]) ∧
    (env.hosts.length = 40 →
        (PublishPeerUpdate env).batches.map (fun b => b.dispatched.length) = [20, 20]) := by
  rw [PublishPeerUpdate_batches_eq env hmq hh hn]
  refine ⟨fun b hb => publishBatches_batch _ b hb, publishBatches_flatten _,
    fun i hi => publishBatches_countP _ i hi, publishBatches_length _ hlen, ?_, ?_⟩
  · intro h
    rw [h]
    decide
  · intro h
    rw [h]
    decide

theorem PublishPeerUpdate_batches_witness :
    (∀ b ∈ (PublishPeerUpdate (samplePublishEnv 21)).batches,
        b.dispatched.length ≤ 20 ∧ b.registered = b.dispatched.length) ∧
    ((PublishPeerUpdate (samplePublishEnv 21)).batches.map Batch.dispatched).flatten
        = List.range (samplePublishEnv 21).hosts.length ∧
    (∀ i, i < (samplePublishEnv 21).hosts.length →
        (PublishPeerUpdate (samplePublishEnv 21)).batches.countP
          (fun b => decide (i ∈ b.dispatched)) = 1) ∧
    (PublishPeerUpdate (samplePublishEnv 21)).batches.length
        = ((samplePublishEnv 21).hosts.length + 19) / 20 ∧
    ((samplePublishEnv 21).hosts.length = 21 →
        (PublishPeerUpdate (samplePublishEnv 21)).batches.map
          (fun b => b.dispatched.length) = [20, 1]) ∧
    ((samplePublishEnv 21).hosts.length = 40 →
        (PublishPeerUpdate (samplePublishEnv 21)).batches.map
          (fun b => b.dispatched.length) = [20, 20]) :=
  PublishPeerUpdate_batches (samplePublishEnv 21) rfl rfl rfl (by decide)

/-! ### `GetExtClient` and `GenerateNodeName` -/

theorem dbCall_tables (env : Env) (s : State) :
    (dbCall env s).2.extClientTable = s.extClientTable ∧
    (dbCall env s).2.networksTable = s.networksTable ∧
    (dbCall env s).2.aclsTable = s.aclsTable ∧
    (dbCall env s).2.extClientCacheMap = s.extClientCacheMap ∧
    (dbCall env s).2.allocatedIpMap = s.allocatedIpMap :=
  ⟨rfl, rfl, rfl, rfl, rfl⟩

/-- A fetch changes nothing but the count of driver calls. -/
theorem FetchRecord_tables {V : Type} (env : Env) (table : State → GoMap GoString V)
    (key : GoString) (s : State) :
    (FetchRecord env table key s).2 = { s with dbOps := s.dbOps + 1 } := by
  unfold FetchRecord dbCall
  cases env.dbFault s.dbOps with
  | some e => rfl
  | none =>
    simp only
    split
    · rfl
    · split <;> rfl

/-- A lookup of an ext-client never writes the `ext_client` table. -/
theorem GetExtClient_extClientTable (env : Env) (clientid network : GoString) (s : State) :
    (GetExtClient env clientid network s).2.extClientTable = s.extClientTable := by
  unfold GetExtClient
  split
  · rfl
  · split
    · rfl
    · have hf := FetchRecord_tables env State.extClientTable ‹GoString› s
      split
      · rename_i heq
        rw [heq] at hf
        simp only at hf
        rw [hf]
      · rename_i heq
        rw [heq] at hf
        simp only at hf
        rw [hf]
        split <;> rfl

/-- The loop of `GenerateNodeName` returns when it has fuel for the draws that
are left. It then has drawn at most 11 names in all (or none, if it was
entered past the limit), has not written the `ext_client` table, and returns
either an error with an empty name or the last name drawn, which is at most
15 bytes long and for which the lookup that led to the final state failed. -/
theorem generateNodeNameLoop_spec (env : Env) (network : GoString) :
    ∀ fuel cnt s, 11 ≤ cnt + fuel →
      ∃ g s', generateNodeNameLoop env network (fuel + 1) cnt s = some (g, s') ∧
        cnt ≤ g.draws ∧ (g.draws ≤ 11 ∨ g.draws = cnt) ∧
        s'.extClientTable = s.extClientTable ∧
        ((g.err ≠ none ∧ g.name = []) ∨
          (g.err = none ∧ g.name.length ≤ 15 ∧ 0 < g.draws ∧
            g.name = env.generate (g.draws - 1) ∧
            ∃ s0 c e, GetExtClient env g.name network s0 = ((c, some e), s') ∧
              s0.extClientTable = s.extClientTable)) := by
  intro fuel
  induction fuel with
  | zero =>
    intro cnt s h
    have hc : cnt > 10 := by omega
    exact ⟨{ name := [], err := some errNameGen, draws := cnt }, s,
      by simp [generateNodeNameLoop, hc], le_refl _, Or.inr rfl, rfl, Or.inl ⟨by simp, rfl⟩⟩
  | succ fuel ih =>
    intro cnt s h
    by_cases hc : cnt > 10
    · exact ⟨{ name := [], err := some errNameGen, draws := cnt }, s,
        by simp [generateNodeNameLoop, hc], le_refl _, Or.inr rfl, rfl, Or.inl ⟨by simp, rfl⟩⟩
    · by_cases hl : (env.generate cnt).length > 15
      · obtain ⟨g, s', hg, h1, h2, h3, h4⟩ := ih (cnt + 1) s (by omega)
        refine ⟨g, s', ?_, by omega, ?_, h3, h4⟩
        · rw [generateNodeNameLoop]
          simp only [hc, if_false, hl, if_true]
          exact hg
        · rcases h2 with h2 | h2
          · exact Or.inl h2
          · exact Or.inl (by omega)
      · rcases hget : GetExtClient env (env.generate cnt) network s with ⟨⟨c, e⟩, s1⟩
        have htab : s1.extClientTable = s.extClientTable := by
          have := GetExtClient_extClientTable env (env.generate cnt) network s
          rw [hget] at this
          exact this
        cases e with
        | none =>
          obtain ⟨g, s', hg, h1, h2, h3, h4⟩ := ih (cnt + 1) s1 (by omega)
          refine ⟨g, s', ?_, by omega, ?_, h3.trans htab, ?_⟩
          · rw [generateNodeNameLoop]
            simp only [hc, if_false, hl, hget]
            exact hg
          · rcases h2 with h2 | h2
            · exact Or.inl h2
            · exact Or.inl (by omega)
          · rcases h4 with h4 | ⟨h5, h6, h7, h8, s0, c0, e0, h9, h10⟩
            · exact Or.inl h4
            · exact Or.inr ⟨h5, h6, h7, h8, s0, c0, e0, h9, h10.trans htab⟩
        | some e =>
          refine ⟨{ name := env.generate cnt, err := none, draws := cnt + 1 }, s1, ?_,
            by simp, Or.inl (by simp; omega), htab, Or.inr ⟨rfl, ?_, by simp, by simp, ?_⟩⟩
          · rw [generateNodeNameLoop]
            simp only [hc, if_false, hl, hget]
          · simp only
            omega
          · exact ⟨s, c, e, hget, rfl⟩

/-- `GenerateNodeName` always returns, and it has then drawn at most 11
names. -/
theorem GenerateNodeName_total (env : Env) (network : GoString) (s : State) :
    ∃ g s', GenerateNodeName env network s = some (g, s') ∧ g.draws ≤ 11 := by
  obtain ⟨g, s', hg, _, h2, _⟩ := generateNodeNameLoop_spec env network 11 0 s (by omega)
  refine ⟨g, s', hg, ?_⟩
  rcases h2 with h2 | h2 <;> omega

/-- If every lookup of a candidate name succeeds in every state of a set that
holds the entry state and is closed under these lookups, the loop of
`GenerateNodeName`, given the fuel for the draws left, ends with the
exhaustion error after its eleventh draw. -/
theorem generateNodeNameLoop_exhausted (env : Env) (network : GoString) (I : State → Prop)
    (hI : ∀ i s', I s' → i ≤ 10 →
      (GetExtClient env (env.generate i) network s').1.2 = none ∧
        I (GetExtClient env (env.generate i) network s').2) :
    ∀ fuel cnt s, I s → cnt ≤ 11 → 11 ≤ cnt + fuel →
      ∃ s', generateNodeNameLoop env network (fuel + 1) cnt s =
        some ({ name := [], err := some errNameGen, draws := 11 }, s') ∧ I s' := by
  intro fuel
  induction fuel with
  | zero =>
    intro cnt s hs h1 h2
    have hc : cnt = 11 := by omega
    subst hc
    exact ⟨s, by simp [generateNodeNameLoop], hs⟩
  | succ fuel ih =>
    intro cnt s hs h1 h2
    by_cases hc : cnt > 10
    · have hc2 : cnt = 11 := by omega
      subst hc2
      exact ⟨s, by simp [generateNodeNameLoop], hs⟩
    · by_cases hl : (env.generate cnt).length > 15
      · obtain ⟨s', hg, hs'⟩ := ih (cnt + 1) s hs (by omega) (by omega)
        refine ⟨s', ?_, hs'⟩
        rw [generateNodeNameLoop]
        simp only [hc, if_false, hl, if_true]
        exact hg
      · obtain ⟨hnone, hnext⟩ := hI cnt s hs (by omega)
        rcases hget : GetExtClient env (env.generate cnt) network s with ⟨⟨c, e⟩, s1⟩
        rw [hget] at hnone hnext
        simp only at hnone hnext
        subst hnone
        obtain ⟨s', hg, hs'⟩ := ih (cnt + 1) s1 hnext (by omega) (by omega)
        refine ⟨s', ?_, hs'⟩
        rw [generateNodeNameLoop]
        simp only [hc, if_false, hl, hget]
        exact hg

/-- C5 (the code draws one name more than the claim allows): with a name
generator whose names are all longer than 15 bytes, `GenerateNodeName` draws
11 candidate names before it returns the exhaustion error. -/
theorem GenerateNodeName_draws_eleven :
    (GenerateNodeName longNamesEnv (ascii "n1") sampleState).map (fun r => (r.1.err, r.1.draws))
      = some (some errNameGen, 11) := by
  decide

/-- C6: for every network, name generator and entry state, if the lookup
`GetExtClient` succeeds for every candidate name in every state the run can
be in (a set `I` of states that holds the entry state and is closed under
these lookups), `GenerateNodeName` returns, and it returns the exhaustion
error with an empty name. -/
theorem GenerateNodeName_full_namespace (env : Env) (network : GoString) (s : State)
    (I : State → Prop) (h0 : I s)
    (hI : ∀ i s', I s' → i ≤ 10 →
      (GetExtClient env (env.generate i) network s').1.2 = none ∧
        I (GetExtClient env (env.generate i) network s').2) :
    ∃ s', GenerateNodeName env network s =
      some ({ name := [], err := some errNameGen, draws := 11 }, s') := by
  obtain ⟨s', hs', _⟩ :=
    generateNodeNameLoop_exhausted env network I hI 11 0 s h0 (by omega) (by omega)
  exact ⟨s', hs'⟩

theorem GenerateNodeName_full_namespace_witness :
    ∃ s', GenerateNodeName fullNamespaceEnv (ascii "n1") cachedState =
      some ({ name := [], err := some errNameGen, draws := 11 }, s') :=
  GenerateNodeName_full_namespace fullNamespaceEnv (ascii "n1") cachedState
    (fun s' => s' = cachedState) rfl
    (fun _ s' hs _ => by subst hs; exact ⟨rfl, rfl⟩)

/-- C7: whenever `GenerateNodeName` returns a name without error, the name is
at most 15 bytes long and the lookup `GetExtClient` of that name in the
network failed when the name was chosen: it failed in a state whose
`ext_client` table is the one of the entry state and left the state that
`GenerateNodeName` returns. -/
theorem GenerateNodeName_name_ok (env : Env) (network : GoString) (s s' : State) (g : NameGen)
    (h : GenerateNodeName env network s = some (g, s')) (herr : g.err = none) :
    g.name.length ≤ 15 ∧
      ∃ s0 c e, GetExtClient env g.name network s0 = ((c, some e), s') ∧
        s0.extClientTable = s.extClientTable := by
  obtain ⟨g1, s1, hg, _, _, _, h4⟩ := generateNodeNameLoop_spec env network 11 0 s (by omega)
  have heq : (g1, s1) = (g, s') := by
    have : some (g1, s1) = some (g, s') := by rw [← hg]; exact h
    exact Option.some.inj this
  obtain ⟨rfl, rfl⟩ := Prod.mk.inj heq
  rcases h4 with ⟨h5, _⟩ | ⟨_, h6, _, _, h9⟩
  · exact absurd herr h5
  · exact ⟨h6, h9⟩

theorem GenerateNodeName_name_ok_witness :
    (ascii "misty-river").length ≤ 15 ∧
      ∃ s0 c e, GetExtClient sampleEnv (ascii "misty-river") (ascii "n1") s0
          = ((c, some e), { sampleState with dbOps := 1 }) ∧
        s0.extClientTable = sampleState.extClientTable :=
  GenerateNodeName_name_ok sampleEnv (ascii "n1") sampleState { sampleState with dbOps := 1 }
    { name := ascii "misty-river", err := none, draws := 1 } rfl rfl

/-! ### ACL cleanup -/

/-- The row loop keeps every row and takes `id` out of it. -/
theorem lookup_deleteFromRows (id k : AclID) (m : ACLContainer) :
    (deleteFromRows id m).lookup k = (m.lookup k).map (AList.erase id) := by
  show List.dlookup k (m.entries.map
      (fun e => (⟨e.1, AList.erase id e.2⟩ : Sigma fun _ : AclID => ACL)))
    = (List.dlookup k m.entries).map (AList.erase id)
  exact List.dlookup_map₂ (f := fun _ row => AList.erase id row) k

/-- After the row loop and the deletion of the outer row, the matrix has no
row keyed by `id` and no row that contains `id`. -/
theorem cleaned_matrix (id : AclID) (m : ACLContainer) :
    ((deleteFromRows id m).erase id).lookup id = none ∧
      ∀ k row, ((deleteFromRows id m).erase id).lookup k = some row →
        row.lookup id = none := by
  refine ⟨AList.lookup_erase _ _, ?_⟩
  intro k row h
  by_cases hk : k = id
  · subst hk
    rw [AList.lookup_erase] at h
    cases h
  · rw [AList.lookup_erase_ne hk, lookup_deleteFromRows] at h
    cases hm : m.lookup k with
    | none => rw [hm] at h; cases h
    | some r =>
      rw [hm] at h
      simp only [Option.map_some', Option.some.injEq] at h
      subst h
      exact AList.lookup_erase _ _

/-- A successful `Save` stores the given matrix under the container id. -/
theorem ACLContainer_Save_ok (env : Env) (m : ACLContainer) (containerID : GoString)
    (s s' : State) (h : ACLContainer_Save env m containerID s = (none, s')) :
    s'.aclsTable.lookup containerID = some m := by
  unfold ACLContainer_Save at h
  split at h
  · cases h
  · obtain ⟨_, rfl⟩ := Prod.mk.inj h
    exact AList.lookup_insert _

/-- C2: for every ext-client `c` and every state (so every ACL matrix stored
for `c.Network`), if `DeleteExtClientAndCleanup c` returns without error, the
matrix saved for `c.Network` has no outer row keyed by `c.ClientID` and no
row whose inner map contains `c.ClientID`. -/
theorem DeleteExtClientAndCleanup_acls (env : Env) (c : ExtClient) (s s' : State)
    (h : DeleteExtClientAndCleanup env c s = (none, s')) :
    ∃ m, s'.aclsTable.lookup c.Network = some m ∧ m.lookup c.ClientID = none ∧
      ∀ k row, m.lookup k = some row → row.lookup c.ClientID = none := by
  unfold DeleteExtClientAndCleanup at h
  split at h
  · cases h
  · split at h
    · cases h
    · rename_i networkAcls s2 _
      simp only at h
      split at h
      · cases h
      · rename_i s3 hsave
        obtain ⟨_, rfl⟩ := Prod.mk.inj h
        have hm := ACLContainer_Save_ok env _ _ _ _ hsave
        exact ⟨_, hm, (cleaned_matrix c.ClientID networkAcls).1,
          (cleaned_matrix c.ClientID networkAcls).2⟩

theorem DeleteExtClientAndCleanup_acls_witness :
    ∃ m, (DeleteExtClientAndCleanup sampleEnv sampleClient sampleState).2.aclsTable.lookup
        sampleClient.Network = some m ∧ m.lookup sampleClient.ClientID = none ∧
      ∀ k row, m.lookup k = some row → row.lookup sampleClient.ClientID = none :=
  DeleteExtClientAndCleanup_acls sampleEnv sampleClient sampleState
    (DeleteExtClientAndCleanup sampleEnv sampleClient sampleState).2 rfl

/-! ### `SaveExtClient` and `CreateExtClient` -/

theorem insertNetworkRecord_extClientTable (env : Env) (key : GoString) (value : Network)
    (s : State) :
    (insertNetworkRecord env key value s).2.extClientTable = s.extClientTable := by
  unfold insertNetworkRecord dbCall
  cases env.dbFault s.dbOps <;> rfl

theorem SetNetworkNodesLastModified_extClientTable (env : Env) (networkName : GoString)
    (s : State) :
    (SetNetworkNodesLastModified env networkName s).2.extClientTable = s.extClientTable := by
  unfold SetNetworkNodesLastModified GetNetwork
  have hf := FetchRecord_tables env State.networksTable networkName s
  split
  · rename_i heq
    rw [heq] at hf
    simp only at hf
    rw [hf]
  · rename_i heq
    rw [heq] at hf
    simp only at hf
    rw [insertNetworkRecord_extClientTable, hf]

/-- A successful `SaveExtClient` leaves the ext-client, as a decodable value,
in the `ext_client` table under its record key. -/
theorem SaveExtClient_ok (env : Env) (c : ExtClient) (s s' : State)
    (h : SaveExtClient env c s = (none, s')) :
    ∃ key, GetRecordKey c.ClientID c.Network = .ok key ∧
      s'.extClientTable.lookup key = some ⟨c, none⟩ := by
  unfold SaveExtClient at h
  split at h
  · cases h
  · rename_i key hkey
    refine ⟨key, hkey, ?_⟩
    split at h
    · cases h
    · rename_i s1 hins
      have h1 : s1.extClientTable.lookup key = some ⟨c, none⟩ := by
        unfold insertExtClientRecord at hins
        split at hins
        · cases hins
        · obtain ⟨_, rfl⟩ := Prod.mk.inj hins
          exact AList.lookup_insert _
      have h2 := SetNetworkNodesLastModified_extClientTable env c.Network
      simp only at h
      have h3 := congrArg Prod.snd h
      simp only at h3
      rw [← h3, h2, ← h1]
      split_ifs <;> rfl

theorem createKeys_ClientID (env : Env) (c c1 : ExtClient) (h : createKeys env c = .ok c1) :
    c1.ClientID = c.ClientID := by
  unfold createKeys at h
  split_ifs at h
  · split at h
    · cases h
    · cases h; rfl
  · cases h; rfl
  · cases h; rfl

theorem createExtraAllowedIPs_ClientID (c : ExtClient) :
    (createExtraAllowedIPs c).ClientID = c.ClientID := by
  unfold createExtraAllowedIPs
  split_ifs <;> rfl

theorem createAddress_ClientID (env : Env) (n : Network) (c c1 : ExtClient) (s s1 : State)
    (h : createAddress env n c s = (.ok c1, s1)) : c1.ClientID = c.ClientID := by
  unfold createAddress at h
  split_ifs at h
  · split at h
    · cases h
    · cases h; rfl
  · cases h; rfl
  · cases h; rfl

theorem createAddress6_ClientID (env : Env) (n : Network) (c c1 : ExtClient) (s s1 : State)
    (h : createAddress6 env n c s = (.ok c1, s1)) : c1.ClientID = c.ClientID := by
  unfold createAddress6 at h
  split_ifs at h
  · split at h
    · cases h
    · cases h; rfl
  · cases h; rfl
  · cases h; rfl

/-- A name that `GenerateNodeName` returns without error has at most 15
bytes. -/
theorem GenerateNodeName_length (env : Env) (network : GoString) (s s' : State) (g : NameGen)
    (h : GenerateNodeName env network s = some (g, s')) (herr : g.err = none) :
    g.name.length ≤ 15 := by
  obtain ⟨g1, s1, hg, _, _, _, h4⟩ := generateNodeNameLoop_spec env network 11 0 s (by omega)
  have heq : (g1, s1) = (g, s') := by
    have : some (g1, s1) = some (g, s') := by rw [← hg]; exact h
    exact Option.some.inj this
  obtain ⟨rfl, rfl⟩ := Prod.mk.inj heq
  rcases h4 with ⟨h5, _⟩ | ⟨_, h6, _⟩
  · exact absurd herr h5
  · exact h6

theorem createClientID_ok (env : Env) (c c1 : ExtClient) (s s1 : State)
    (h : createClientID env c s = some ((c1, none), s1)) :
    (c.ClientID = [] → c1.ClientID.length ≤ 15) ∧ (c.ClientID ≠ [] → c1.ClientID = c.ClientID) := by
  unfold createClientID at h
  split_ifs at h with hid
  · split at h
    · cases h
    · rename_i g s2 hg
      simp only [Option.some.injEq, Prod.mk.injEq] at h
      obtain ⟨⟨rfl, herr⟩, rfl⟩ := h
      exact ⟨fun _ => GenerateNodeName_length env _ _ _ g hg herr, fun hne => absurd hid hne⟩
  · simp only [Option.some.injEq, Prod.mk.injEq] at h
    obtain ⟨⟨rfl, _⟩, rfl⟩ := h
    exact ⟨fun he => absurd he hid, fun _ => rfl⟩

/-- C8 (as stated, refuted): `CreateExtClient` for `longIdClient`, whose
caller-supplied ClientID has 16 bytes, returns without error and the
ext-client saved under its record key has a ClientID of 16 bytes. -/
theorem CreateExtClient_saves_long_ClientID :
    (CreateExtClient sampleEnv longIdClient sampleState).bind
      (fun r => (r.2.extClientTable.lookup (ascii "sixteen-bytes-id#n1")).map
        (fun v => (r.1.2, v.unmarshalErr, v.client.ClientID.length)))
      = some (none, none, 16) := by
  decide

/-- C8 (amended): for every input ext-client, after `CreateExtClient` returns
without error the ext-client is saved under its record key; if the input had
no ClientID the saved ClientID (the generated name) is at most 15 bytes long,
and a caller-supplied ClientID is saved as given. -/
theorem CreateExtClient_saved_ClientID (env : Env) (c c' : ExtClient) (s s' : State)
    (h : CreateExtClient env c s = some ((c', none), s')) :
    (c.ClientID = [] → c'.ClientID.length ≤ 15) ∧
    (c.ClientID ≠ [] → c'.ClientID = c.ClientID) ∧
    ∃ key, GetRecordKey c'.ClientID c'.Network = .ok key ∧
      s'.extClientTable.lookup key = some ⟨c', none⟩ := by
  unfold CreateExtClient at h
  split at h
  · cases h
  · rename_i c1 hkeys
    simp only at h
    split at h
    · cases h
    · rename_i parentNetwork s1 _
      split at h
      · cases h
      · rename_i c2 s2 haddr
        split at h
        · cases h
        · rename_i c3 s3 haddr6
          split at h
          · cases h
          · cases h
          · rename_i c4 s4 hname
            simp only [Option.some.injEq, Prod.mk.injEq] at h
            obtain ⟨⟨rfl, herr⟩, hs⟩ := h
            have hsave : SaveExtClient env { c4 with LastModified := env.now } s4 = (none, s') := by
              rw [← herr, ← hs]
            have hid : c3.ClientID = c.ClientID := by
              rw [createAddress6_ClientID env _ _ _ _ _ haddr6,
                createAddress_ClientID env _ _ _ _ _ haddr, createExtraAllowedIPs_ClientID,
                createKeys_ClientID env _ _ hkeys]
            obtain ⟨h1, h2⟩ := createClientID_ok env c3 c4 s3 s4 hname
            refine ⟨fun he => h1 (hid.trans he), fun hne => ?_, SaveExtClient_ok env _ s4 s' hsave⟩
            exact (h2 (fun hc => hne (hid.symm.trans hc))).trans hid

theorem CreateExtClient_saved_ClientID_witness :
    (unnamedClient.ClientID = [] → createdSample.1.1.ClientID.length ≤ 15) ∧
    (unnamedClient.ClientID ≠ [] → createdSample.1.1.ClientID = unnamedClient.ClientID) ∧
    ∃ key, GetRecordKey createdSample.1.1.ClientID createdSample.1.1.Network = .ok key ∧
      createdSample.2.extClientTable.lookup key = some ⟨createdSample.1.1, none⟩ :=
  CreateExtClient_saved_ClientID sampleEnv unnamedClient createdSample.1.1 sampleState
    createdSample.2 rfl

/-! ### `DeleteExtClient` and `ToggleExtClientConnectivity` -/

theorem allocatedIps_RemoveIpFromAllocatedIpMap (network ip : GoString) (s : State) :
    allocatedIps network (RemoveIpFromAllocatedIpMap network ip s)
      = (allocatedIps network s).erase ip := by
  unfold RemoveIpFromAllocatedIpMap allocatedIps
  cases h : s.allocatedIpMap.lookup network with
  | none => simp [h]
  | some ips => simp [AList.lookup_insert]

theorem deleteExtClientRecord_ok (env : Env) (key : GoString) (s s' : State)
    (h : deleteExtClientRecord env key s = (none, s')) :
    s'.extClientTable.lookup key = none ∧ s'.extClientCacheMap = s.extClientCacheMap ∧
      s'.allocatedIpMap = s.allocatedIpMap := by
  unfold deleteExtClientRecord dbCall at h
  split at h
  · cases h
  · rename_i s1 heq
    obtain ⟨_, rfl⟩ := Prod.mk.inj h
    obtain ⟨_, rfl⟩ := Prod.mk.inj heq
    exact ⟨AList.lookup_erase _ _, rfl, rfl⟩

/-- What a successful `DeleteExtClient` leaves: for the key of the client and
the ext-client that the lookup returned, no record under the key, no cache
entry under the key when the cache is on, and neither address of the client in
the allocated set of the network. -/
theorem DeleteExtClient_ok (env : Env) (network clientid : GoString) (s s' : State)
    (h : DeleteExtClient env network clientid s = (none, s')) :
    ∃ key c s1, GetRecordKey clientid network = .ok key ∧
      GetExtClient env clientid network s = ((c, none), s1) ∧
      s'.extClientTable.lookup key = none ∧
      (env.cacheEnabled = true → s'.extClientCacheMap.lookup key = none) ∧
      (c.Address ≠ [] → c.Address ∉ allocatedIps network s') ∧
      (c.Address6 ≠ [] → c.Address6 ∉ allocatedIps network s') := by
  unfold DeleteExtClient at h
  split at h
  · cases h
  · rename_i key hkey
    split at h
    · cases h
    · rename_i c s1 hget
      split at h
      · cases h
      · rename_i s2 hdel
        obtain ⟨hd1, hd2, hd3⟩ := deleteExtClientRecord_ok env key s1 s2 hdel
        simp only at h
        obtain ⟨_, rfl⟩ := Prod.mk.inj h
        refine ⟨key, c, s1, hkey, hget, ?_, ?_, ?_, ?_⟩
        · rw [← hd1]
          split_ifs <;> simp [deleteExtClientFromCache, RemoveIpFromAllocatedIpMap] <;>
            (repeat' split) <;> rfl
        · intro hc
          simp [hc, deleteExtClientFromCache]
        · intro ha
          have hall : ∀ t : State, allocatedIps network
              (if env.cacheEnabled = true then deleteExtClientFromCache key t else t)
              = allocatedIps network t := by
            intro t; split_ifs <;> rfl
          rw [hall]
          by_cases h6 : c.Address6 = []
          · simp [h6, ha, allocatedIps_RemoveIpFromAllocatedIpMap]
          · simp [h6, ha, allocatedIps_RemoveIpFromAllocatedIpMap]
        · intro h6
          have hall : ∀ t : State, allocatedIps network
              (if env.cacheEnabled = true then deleteExtClientFromCache key t else t)
              = allocatedIps network t := by
            intro t; split_ifs <;> rfl
          rw [hall]
          simp [h6, allocatedIps_RemoveIpFromAllocatedIpMap]

theorem UpdateExtClient_Enabled (old : ExtClient) (update : CustomExtClient) :
    (UpdateExtClient old update).Enabled = update.Enabled := by
  simp only [UpdateExtClient]
  split_ifs <;> first | rfl | simp_all

theorem UpdateExtClient_ClientID (old : ExtClient) (update : CustomExtClient) :
    (UpdateExtClient old update).ClientID = update.ClientID := by
  simp only [UpdateExtClient]
  split_ifs <;> rfl

theorem UpdateExtClient_Network (old : ExtClient) (update : CustomExtClient) :
    (UpdateExtClient old update).Network = old.Network := by
  simp only [UpdateExtClient]
  split_ifs <;> rfl

/-- C20: after `DeleteExtClient(network, clientid)` returns without error, for
the record key of the client and the ext-client `c` that the lookup
returned: the store holds no record under the key, the ext-client cache, when
enabled, holds no entry under the key, and neither the Address nor the
Address6 of `c` (when it has one) is in the allocated-IP set of the
network. -/
theorem DeleteExtClient_releases (env : Env) (network clientid : GoString) (s s' : State)
    (h : DeleteExtClient env network clientid s = (none, s')) :
    ∃ key c s1, GetRecordKey clientid network = .ok key ∧
      GetExtClient env clientid network s = ((c, none), s1) ∧
      s'.extClientTable.lookup key = none ∧
      (env.cacheEnabled = true → s'.extClientCacheMap.lookup key = none) ∧
      (c.Address ≠ [] → c.Address ∉ allocatedIps network s') ∧
      (c.Address6 ≠ [] → c.Address6 ∉ allocatedIps network s') :=
  DeleteExtClient_ok env network clientid s s' h

theorem DeleteExtClient_releases_witness :
    ∃ key c s1, GetRecordKey (ascii "road-warrior") (ascii "n1") = .ok key ∧
      GetExtClient sampleEnv (ascii "road-warrior") (ascii "n1") dualStackState
        = ((c, none), s1) ∧
      (DeleteExtClient sampleEnv (ascii "n1") (ascii "road-warrior")
        dualStackState).2.extClientTable.lookup key = none ∧
      (sampleEnv.cacheEnabled = true →
        (DeleteExtClient sampleEnv (ascii "n1") (ascii "road-warrior")
          dualStackState).2.extClientCacheMap.lookup key = none) ∧
      (c.Address ≠ [] → c.Address ∉ allocatedIps (ascii "n1")
        (DeleteExtClient sampleEnv (ascii "n1") (ascii "road-warrior") dualStackState).2) ∧
      (c.Address6 ≠ [] → c.Address6 ∉ allocatedIps (ascii "n1")
        (DeleteExtClient sampleEnv (ascii "n1") (ascii "road-warrior") dualStackState).2) :=
  DeleteExtClient_releases sampleEnv (ascii "n1") (ascii "road-warrior") dualStackState
    (DeleteExtClient sampleEnv (ascii "n1") (ascii "road-warrior") dualStackState).2 rfl

/-- C11: for every ext-client `c` and every flag `e`, when
`ToggleExtClientConnectivity(c, e)` returns without error, the returned client
has `Enabled = e` and the ClientID and Network of `c`; the record under the
key of `(ClientID, Network)` was deleted (the state between the delete and the
save holds none) and the returned client is the record stored under that key
at the end. -/
theorem ToggleExtClientConnectivity_ok (env : Env) (c c' : ExtClient) (e : Bool)
    (s s' : State) (h : ToggleExtClientConnectivity env c e s = ((c', none), s')) :
    c'.Enabled = e ∧ c'.ClientID = c.ClientID ∧ c'.Network = c.Network ∧
    ∃ key s1, GetRecordKey c.ClientID c.Network = .ok key ∧
      DeleteExtClient env c.Network c.ClientID s = (none, s1) ∧
      s1.extClientTable.lookup key = none ∧
      SaveExtClient env c' s1 = (none, s') ∧
      s'.extClientTable.lookup key = some ⟨c', none⟩ := by
  unfold ToggleExtClientConnectivity at h
  simp only at h
  split at h
  · cases h
  · rename_i s1 hdel
    split at h
    · cases h
    · rename_i s2 hsave
      simp only [Prod.mk.injEq, and_true] at h
      obtain ⟨hc, hs⟩ := h
      subst hs
      have h1 : c'.Enabled = e := by rw [← hc, UpdateExtClient_Enabled]
      have h2 : c'.ClientID = c.ClientID := by rw [← hc, UpdateExtClient_ClientID]
      have h3 : c'.Network = c.Network := by rw [← hc, UpdateExtClient_Network]
      rw [hc] at hsave
      obtain ⟨key, _, _, hkey, _, hnone, _⟩ := DeleteExtClient_ok env _ _ s s1 hdel
      obtain ⟨key', hkey', hrec⟩ := SaveExtClient_ok env c' s1 s2 hsave
      rw [h2, h3, hkey] at hkey'
      cases hkey'
      exact ⟨h1, h2, h3, key, s1, hkey, hdel, hnone, hsave, hrec⟩

theorem ToggleExtClientConnectivity_ok_witness :
    toggledSample.1.1.Enabled = false ∧ toggledSample.1.1.ClientID = sampleClient.ClientID ∧
    toggledSample.1.1.Network = sampleClient.Network ∧
    ∃ key s1, GetRecordKey sampleClient.ClientID sampleClient.Network = .ok key ∧
      DeleteExtClient sampleEnv sampleClient.Network sampleClient.ClientID sampleState
        = (none, s1) ∧
      s1.extClientTable.lookup key = none ∧
      SaveExtClient sampleEnv toggledSample.1.1 s1 = (none, toggledSample.2) ∧
      toggledSample.2.extClientTable.lookup key = some ⟨toggledSample.1.1, none⟩ :=
  ToggleExtClientConnectivity_ok sampleEnv sampleClient toggledSample.1.1 false sampleState
    toggledSample.2 rfl

/-! ### Calls and return value of the bulk publishers -/

/-- When every goroutine makes its invocation and every batch registers as
many tasks as it starts, all batches are joined and the invocations are
those of the dispatched hosts, in order. -/
theorem runBatches_of_all (task : Nat → Option PublishCall) (call : Nat → PublishCall)
    (htask : ∀ i, task i = some (call i)) :
    ∀ L : List Batch, (∀ b ∈ L, b.registered = b.dispatched.length) →
      runBatches task L =
        { calls := (L.map Batch.dispatched).flatten.map call, joined := true } := by
  intro L
  induction L with
  | nil => intro _; rfl
  | cons b rest ih =>
    intro hreg
    have hfm : b.dispatched.filterMap task = b.dispatched.map call := by
      have : task = some ∘ call := funext htask
      rw [this, List.filterMap_eq_map]
    have hlen : (b.dispatched.filterMap task).length = b.registered := by
      rw [hfm, List.length_map, hreg b (List.mem_cons_self _ _)]
    rw [runBatches]
    simp only [hlen, if_true]
    rw [ih (fun b' hb' => hreg b' (List.mem_cons_of_mem _ hb')), hfm]
    simp

/-- `PublishDeletedNodePeerUpdate` over a loaded inventory invokes the
single-host publish once for every host index, in order, with the deleted
node, no deleted clients and `replacePeers = false`, and joins every batch. -/
theorem PublishDeletedNodePeerUpdate_calls (env : PublishEnv) (delNode : Node)
    (hmq : env.isMessageQueueBackend = true) (hh : env.hostsErr = none)
    (hn : env.nodesErr = none) :
    PublishDeletedNodePeerUpdate env delNode =
      { calls := (List.range env.hosts.length).map (fun i =>
          { host := i, deletedNode := some delNode, deletedClients := none,
            replacePeers := false }),
        joined := true } := by
  simp only [PublishDeletedNodePeerUpdate, hmq, hh, hn, Option.isSome_none, not_true_eq_false,
    if_false, Bool.false_eq_true]
  rw [runBatches_of_all _ _ (fun _ => rfl) _ (fun b hb => (publishBatches_batch _ b hb).2),
    publishBatches_flatten]

/-- C17 (the code stops short of the claim): with 21 hosts of which host 0
has the OS tag `iot`, `PublishDeletedClientPeerUpdate` invokes the single-host
publish for the hosts 1 to 19 only. The first batch registers 20 tasks and
gets 19 completion signals, so its `wg.Wait()` never returns and host 20,
which is not `iot`, is never published. -/
theorem PublishDeletedClientPeerUpdate_skips_after_iot :
    ((PublishDeletedClientPeerUpdate iotPublishEnv sampleClient).calls.map PublishCall.host
        = List.range' 1 19) ∧
      (PublishDeletedClientPeerUpdate iotPublishEnv sampleClient).joined = false ∧
      (iotPublishEnv.hosts.get? 20).map Host.OS = some (ascii "linux") := by
  decide

/-- C18 (the code returns the error the claim excludes): with one host whose
publish fails, the inventories loaded without error, `PublishPeerUpdate`
returns the error of that publish. -/
theorem PublishPeerUpdate_returns_publish_error :
    failingPublishEnv.hostsErr = none ∧ failingPublishEnv.nodesErr = none ∧
      PublishPeerUpdate_err failingPublishEnv (fun l => l) = some ⟨"connection timeout"⟩ := by
  decide

/-! ### `serverStatusUpdate` -/

/-- A status never differs from itself. -/
theorem isServerStatusChanged_self (st : ServerStatus) : isServerStatusChanged st st = false := by
  have h := (failover_unchanged_iff st.Failover st.Failover).mpr (fun _ => rfl)
  simp [isServerStatusChanged, Time.Equal, h.2]

/-- C19 (as stated, refuted): a server that sees neither its database nor its
broker builds a status equal to the zero-valued cache; two consecutive
`serverStatusUpdate` calls from the initial cache then return without error
and publish no message at all. -/
theorem serverStatusUpdate_zero_status_publishes_nothing :
    (serverStatusUpdate disconnectedInputs initialStatusState).1 = none ∧
    (serverStatusUpdate disconnectedInputs initialStatusState).2.published.length = 0 ∧
    (serverStatusUpdate disconnectedInputs
      (serverStatusUpdate disconnectedInputs initialStatusState).2).1 = none ∧
    (serverStatusUpdate disconnectedInputs
      (serverStatusUpdate disconnectedInputs initialStatusState).2).2.published.length = 0 := by
  decide

/-- C19 (amended): starting from the zero-valued cache, if the status built
from the inputs differs from the zero-valued status in a tracked field, the
encoding succeeds, the broker client is connected and the publish completes
in time without error, then of two consecutive `serverStatusUpdate` calls with
these inputs the first publishes the status and stores it in the cache and the
second publishes nothing: exactly one message is published. -/
theorem serverStatusUpdate_twice (inp : StatusInputs)
    (hchg : isServerStatusChanged zeroServerStatus (currentServerStatus inp) = true)
    (hmar : inp.marshalErr = none) (hconn : inp.mqclientConnected = true)
    (hwait : inp.tokenWaitOk = true) (htok : inp.tokenErr = none) :
    serverStatusUpdate inp initialStatusState =
      (none, { serverStatusCache := currentServerStatus inp,
               published := [currentServerStatus inp] }) ∧
    serverStatusUpdate inp (serverStatusUpdate inp initialStatusState).2 =
      (none, { serverStatusCache := currentServerStatus inp,
               published := [currentServerStatus inp] }) := by
  have h1 : serverStatusUpdate inp initialStatusState =
      (none, { serverStatusCache := currentServerStatus inp,
               published := [currentServerStatus inp] }) := by
    simp [serverStatusUpdate, initialStatusState, hchg, hmar, hconn, hwait, htok]
  refine ⟨h1, ?_⟩
  rw [h1]
  simp [serverStatusUpdate, isServerStatusChanged_self]

theorem serverStatusUpdate_twice_witness :
    serverStatusUpdate healthyInputs initialStatusState =
      (none, { serverStatusCache := currentServerStatus healthyInputs,
               published := [currentServerStatus healthyInputs] }) ∧
    serverStatusUpdate healthyInputs (serverStatusUpdate healthyInputs initialStatusState).2 =
      (none, { serverStatusCache := currentServerStatus healthyInputs,
               published := [currentServerStatus healthyInputs] }) :=
  serverStatusUpdate_twice healthyInputs (by decide) rfl rfl rfl rfl

/-! ### `GetNetworkExtClients` and `GetExtPeers` -/

/-- The record loop of `GetNetworkExtClients` only appends clients of the
requested network. -/
theorem networkExtClientsLoop_Network (env : Env) (network : GoString) :
    ∀ (records : List (Sigma fun _ : GoString => ExtClientRecord))
      (acc : (List ExtClient × Option GoError) × State),
      (∀ x ∈ acc.1.1, x.Network = network) →
      ∀ x ∈ (networkExtClientsLoop env network records acc).1.1, x.Network = network := by
  intro records
  induction records with
  | nil => intro acc hacc; exact hacc
  | cons r rest ih =>
    intro acc hacc
    obtain ⟨⟨extclients, err⟩, s⟩ := acc
    obtain ⟨k, value⟩ := r
    rw [networkExtClientsLoop]
    split
    · exact ih _ hacc
    · apply ih
      intro x hx
      simp only at hx
      split_ifs at hx with hnet
      · rcases List.mem_append.mp hx with h | h
        · exact hacc x h
        · rw [List.mem_singleton.mp h]; exact hnet
      · exact hacc x hx

/-- Every ext-client that `GetNetworkExtClients` returns belongs to the
requested network. -/
theorem GetNetworkExtClients_Network (env : Env) (network : GoString) (s : State) :
    ∀ x ∈ (GetNetworkExtClients env network s).1.1, x.Network = network := by
  unfold GetNetworkExtClients
  simp only
  split_ifs
  all_goals first
    | (intro x hx; exact of_decide_eq_true (List.mem_filter.mp hx).2)
    | (split
       · split_ifs <;> (intro x hx; simp at hx)
       · exact networkExtClientsLoop_Network env network _ _ (fun x hx => by simp at hx))

/-- The loop of `GetExtPeers` appends, for the ext-clients that pass its
tests and in their order, one peer entry, one id entry and the egress
routes. -/
theorem extPeersLoop_eq (pe : PolicyEnv) (host : Host) (node peer : Node) :
    ∀ (l : List ExtClient) (acc : ExtPeers),
      extPeersLoop pe host node peer l acc =
        { peers := acc.peers ++ (l.filter (extPeerPasses pe host node peer)).map (extPeerConfig pe)
          idsAndAddr := acc.idsAndAddr ++
            (l.filter (extPeerPasses pe host node peer)).map (extPeerIDandAddr pe)
          egressRoutes := acc.egressRoutes ++
            ((l.filter (extPeerPasses pe host node peer)).map
              (getExtPeerEgressRoute pe node)).flatten
          err := acc.err } := by
  intro l
  induction l with
  | nil => intro acc; simp [extPeersLoop]
  | cons x rest ih =>
    intro acc
    rw [extPeersLoop]
    by_cases hp : extPeerPasses pe host node peer x = true
    · simp [hp, ih, List.filter_cons]
    · simp [hp, ih, List.filter_cons]

/-- An ext-client that passes the tests of `GetExtPeers` is enabled, is pinned
to the node, has a key that parses and that is not the key of the host. -/
theorem extPeerPasses_true (pe : PolicyEnv) (host : Host) (node peer : Node) (x : ExtClient)
    (h : extPeerPasses pe host node peer x = true) :
    x.Enabled = true ∧ x.IngressGatewayID = node.ID ∧ x.PublicKey ≠ host.PublicKey ∧
      (pe.parseKey x.PublicKey).isSome = true := by
  have key : ¬ (host.PublicKey = x.PublicKey ∨ x.IngressGatewayID ≠ node.ID ∨ ¬ x.Enabled = true) ∧
      ¬ (pe.parseKey x.PublicKey).isNone = true := by
    unfold extPeerPasses at h
    split_ifs at h <;>
      exact ⟨‹¬ (host.PublicKey = x.PublicKey ∨ x.IngressGatewayID ≠ node.ID ∨
        ¬ x.Enabled = true)›, ‹¬ (pe.parseKey x.PublicKey).isNone = true›⟩
  obtain ⟨h4, h3⟩ := key
  refine ⟨?_, ?_, ?_, ?_⟩
  · by_contra hc; exact h4 (Or.inr (Or.inr hc))
  · by_contra hc; exact h4 (Or.inr (Or.inl hc))
  · intro hc; exact h4 (Or.inl hc.symm)
  · cases hk : pe.parseKey x.PublicKey with
    | none => simp [hk] at h3
    | some k => rfl

/-- The peers of `GetExtPeers` when the ext-clients and the host load: one
entry for each ext-client that passes the tests, in the order of the list
that `GetNetworkExtClients` returns. -/
theorem GetExtPeers_peers_eq (pe : PolicyEnv) (env : Env) (node peer : Node) (s : State)
    (h1 : (GetNetworkExtClients env node.Network s).1.2 = none)
    (h2 : (pe.getHost node.HostID).2 = none) :
    (GetExtPeers pe env node peer s).1.peers =
      ((GetNetworkExtClients env node.Network s).1.1.filter
        (extPeerPasses pe (pe.getHost node.HostID).1 node peer)).map (extPeerConfig pe) := by
  unfold GetExtPeers
  rcases hg : GetNetworkExtClients env node.Network s with ⟨⟨clients, e⟩, s1⟩
  rw [hg] at h1
  simp only at h1
  subst h1
  rcases hh : pe.getHost node.HostID with ⟨host, e2⟩
  rw [hh] at h2
  simp only at h2
  subst h2
  simp [extPeersLoop_eq]

/-- When the ext-clients or the host fail to load, `GetExtPeers` returns no
peer. -/
theorem GetExtPeers_peers_of_error (pe : PolicyEnv) (env : Env) (node peer : Node) (s : State)
    (h : (GetNetworkExtClients env node.Network s).1.2 ≠ none ∨
      (pe.getHost node.HostID).2 ≠ none) :
    (GetExtPeers pe env node peer s).1.peers = [] := by
  unfold GetExtPeers
  rcases hg : GetNetworkExtClients env node.Network s with ⟨⟨clients, e⟩, s1⟩
  rw [hg] at h
  cases e with
  | some e => rfl
  | none =>
    rcases hh : pe.getHost node.HostID with ⟨host, e2⟩
    rw [hh] at h
    cases e2 with
    | some e2 => rfl
    | none => simp at h

theorem appendExtraAllowedIPs_eq (pe : PolicyEnv) :
    ∀ (l : List GoString) (acc : List IPNet),
      appendExtraAllowedIPs pe l acc = acc ++ l.filterMap pe.parseCIDR := by
  intro l
  induction l with
  | nil => intro acc; simp [appendExtraAllowedIPs]
  | cons a rest ih =>
    intro acc
    rw [appendExtraAllowedIPs]
    cases h : pe.parseCIDR a with
    | none => simp [ih, List.filterMap_cons, h]
    | some cidr => simp [ih, List.filterMap_cons, h]

/-- The slice `allowedips` built by `GetExtPeers` is the list the
specification words. -/
theorem extPeerAllowedIPs_eq_spec (pe : PolicyEnv) (x : ExtClient) :
    extPeerAllowedIPs pe x = allowedIPsSpec pe x := by
  unfold extPeerAllowedIPs allowedIPsSpec
  simp only [appendExtraAllowedIPs_eq]
  by_cases h4 : x.Address = [] <;> by_cases h6 : x.Address6 = [] <;>
    cases hp4 : pe.parseIP x.Address <;> cases hp6 : pe.parseIP x.Address6 <;>
    simp [h4, h6, hp4, hp6, cidrMask32, cidrMask128]

/-- C14: every peer entry that `GetExtPeers(node, peer)` returns is the entry
of an ext-client that `GetNetworkExtClients` returned for the node's network,
that belongs to this network, is enabled, has the node's ID as
IngressGatewayID and a public key that differs from the public key of the
node's host; so an ext-client with `Enabled = false` yields no entry. -/
theorem GetExtPeers_entry_source (pe : PolicyEnv) (env : Env) (node peer : Node) (s : State)
    (p : PeerConfig) (hp : p ∈ (GetExtPeers pe env node peer s).1.peers) :
    ∃ x ∈ (GetNetworkExtClients env node.Network s).1.1,
      x.Network = node.Network ∧ x.Enabled = true ∧ x.IngressGatewayID = node.ID ∧
      x.PublicKey ≠ (pe.getHost node.HostID).1.PublicKey ∧ p = extPeerConfig pe x := by
  by_cases herr : (GetNetworkExtClients env node.Network s).1.2 ≠ none ∨
      (pe.getHost node.HostID).2 ≠ none
  · rw [GetExtPeers_peers_of_error pe env node peer s herr] at hp
    cases hp
  · have h1 : (GetNetworkExtClients env node.Network s).1.2 = none := by
      by_contra hc; exact herr (Or.inl hc)
    have h2 : (pe.getHost node.HostID).2 = none := by
      by_contra hc; exact herr (Or.inr hc)
    rw [GetExtPeers_peers_eq pe env node peer s h1 h2] at hp
    obtain ⟨x, hx, rfl⟩ := List.mem_map.mp hp
    obtain ⟨hmem, hpass⟩ := List.mem_filter.mp hx
    obtain ⟨he, hi, hk, _⟩ := extPeerPasses_true pe _ node peer x hpass
    exact ⟨x, hmem, GetNetworkExtClients_Network env node.Network s x hmem, he, hi, hk, rfl⟩

theorem GetExtPeers_entry_source_witness :
    ∃ x ∈ (GetNetworkExtClients uncachedEnv gatewayNode.Network zetaFirstState).1.1,
      x.Network = gatewayNode.Network ∧ x.Enabled = true ∧
      x.IngressGatewayID = gatewayNode.ID ∧
      x.PublicKey ≠ (samplePolicyEnv.getHost gatewayNode.HostID).1.PublicKey ∧
      extPeerConfig samplePolicyEnv zetaClient = extPeerConfig samplePolicyEnv x :=
  GetExtPeers_entry_source samplePolicyEnv uncachedEnv gatewayNode gatewayNode zetaFirstState
    (extPeerConfig samplePolicyEnv zetaClient) (by decide)

/-- C15: when the ext-clients and the host load, `GetExtPeers` returns exactly
one peer entry for each ext-client that passes its tests, in their order; the
entry has `ReplaceAllowedIPs` set and its allowed-IPs are, in order, the IPv4
address as a /32 when `Address` is present and parses, the IPv6 address as a
/128 when `Address6` is present and parses, then the entries of
`ExtraAllowedIPs` that parse as a CIDR. -/
theorem GetExtPeers_allowedIPs (pe : PolicyEnv) (env : Env) (node peer : Node) (s : State)
    (h1 : (GetNetworkExtClients env node.Network s).1.2 = none)
    (h2 : (pe.getHost node.HostID).2 = none) :
    (GetExtPeers pe env node peer s).1.peers =
      ((GetNetworkExtClients env node.Network s).1.1.filter
        (extPeerPasses pe (pe.getHost node.HostID).1 node peer)).map
        (fun x =>
          { PublicKey := (pe.parseKey x.PublicKey).getD []
            ReplaceAllowedIPs := true
            AllowedIPs := allowedIPsSpec pe x }) := by
  rw [GetExtPeers_peers_eq pe env node peer s h1 h2]
  apply List.map_congr_left
  intro x _
  simp [extPeerConfig, extPeerAllowedIPs_eq_spec]

theorem GetExtPeers_allowedIPs_witness :
    (GetExtPeers samplePolicyEnv uncachedEnv gatewayNode gatewayNode zetaFirstState).1.peers =
      ((GetNetworkExtClients uncachedEnv gatewayNode.Network zetaFirstState).1.1.filter
        (extPeerPasses samplePolicyEnv (samplePolicyEnv.getHost gatewayNode.HostID).1
          gatewayNode gatewayNode)).map
        (fun x =>
          { PublicKey := (samplePolicyEnv.parseKey x.PublicKey).getD []
            ReplaceAllowedIPs := true
            AllowedIPs := allowedIPsSpec samplePolicyEnv x }) :=
  GetExtPeers_allowedIPs samplePolicyEnv uncachedEnv gatewayNode gatewayNode zetaFirstState
    rfl rfl

/-- C16 (the code does not sort): two states hold the same ext-client records
and differ only in the order in which the store enumerates them; for the
first `GetExtPeers` returns the peers of `zeta`, then `alpha`, which is not
ascending, and for the second the peers of `alpha`, then `zeta`: the two peer
lists differ. -/
theorem GetExtPeers_follows_enumeration_order :
    zetaFirstState.extClientTable.entries.Perm alphaFirstState.extClientTable.entries ∧
    (GetExtPeers samplePolicyEnv uncachedEnv gatewayNode gatewayNode
        zetaFirstState).1.idsAndAddr.map IDandAddr.Name = [ascii "zeta", ascii "alpha"] ∧
    (GetExtPeers samplePolicyEnv uncachedEnv gatewayNode gatewayNode
        alphaFirstState).1.idsAndAddr.map IDandAddr.Name = [ascii "alpha", ascii "zeta"] ∧
    (GetExtPeers samplePolicyEnv uncachedEnv gatewayNode gatewayNode zetaFirstState).1.peers ≠
      (GetExtPeers samplePolicyEnv uncachedEnv gatewayNode gatewayNode
        alphaFirstState).1.peers := by
  decide

/-! ### `GetFwRulesOnIngressGateway` -/

/-- A rule made for a peer's `ExtraAllowedIPs` carries no protocol and no
ports, and its destination is one of these entries, parsed. -/
theorem mem_extraAllowedRules (pe : PolicyEnv) (src4 src6 : IPNet) (r : FwRule) :
    ∀ l : List GoString, r ∈ extraAllowedRules pe src4 src6 l →
      r.AllowedProtocol = [] ∧ r.AllowedPorts = none ∧
        ∃ a ∈ l, pe.parseCIDR a = some r.DstIP := by
  intro l
  induction l with
  | nil => intro h; simp [extraAllowedRules] at h
  | cons a rest ih =>
    intro h
    rw [extraAllowedRules] at h
    cases hc : pe.parseCIDR a with
    | none =>
      rw [hc] at h
      obtain ⟨h1, h2, b, hb, h3⟩ := ih h
      exact ⟨h1, h2, b, List.mem_cons_of_mem _ hb, h3⟩
    | some ipNet =>
      rw [hc] at h
      simp only at h
      rcases List.mem_cons.mp h with h | h
      · refine ⟨?_, ?_, a, List.mem_cons_self _ _, ?_⟩
        · rw [h]; split_ifs <;> rfl
        · rw [h]; split_ifs <;> rfl
        · rw [hc, h]; split_ifs <;> rfl
      · obtain ⟨h1, h2, b, hb, h3⟩ := ih h
        exact ⟨h1, h2, b, List.mem_cons_of_mem _ hb, h3⟩

/-- With the default user policy enabled, the rules of a user node and a peer
are at most the rules for the extra allowed ranges of a static peer. -/
theorem mem_userPeerRules_of_enabled (pe : PolicyEnv) (u p : Node) (r : FwRule)
    (h : r ∈ userPeerRules pe true u p) :
    r.AllowedProtocol = [] ∧ r.AllowedPorts = none ∧ p.IsStatic = true ∧ p.IsUserNode = false ∧
      ∃ a ∈ p.StaticNode.ExtraAllowedIPs.getD [], pe.parseCIDR a = some r.DstIP := by
  unfold userPeerRules at h
  by_cases hu : p.IsUserNode = true
  · simp [hu] at h
  · rcases hallow : pe.isUserAllowedToCommunicate u.StaticNode.OwnerID p with ⟨ok, pols⟩
    rw [hallow] at h
    cases ok with
    | false => simp [hu] at h
    | true =>
      by_cases hs : p.IsStatic = true
      · simp only [hu, hs, if_true, if_false, not_true_eq_false, ite_self, List.nil_append,
          Bool.false_eq_true] at h
        split_ifs at h
        · obtain ⟨h1, h2, h3⟩ := mem_extraAllowedRules pe _ _ r _ h
          exact ⟨h1, h2, hs, by simpa using hu, h3⟩
        · cases h
      · simp [hu, hs] at h

theorem mem_userRules (pe : PolicyEnv) (en : Bool) (userNodes nodes : List Node) (r : FwRule) :
    r ∈ userRules pe en userNodes nodes ↔
      ∃ u ∈ userNodes, ∃ p ∈ nodes, r ∈ userPeerRules pe en u p := by
  simp only [userRules, List.mem_flatten, List.mem_map]
  constructor
  · rintro ⟨l, ⟨u, hu, rfl⟩, hr⟩
    obtain ⟨l2, hl2, hr2⟩ := List.mem_flatten.mp hr
    obtain ⟨p, hp, rfl⟩ := List.mem_map.mp hl2
    exact ⟨u, hu, p, hp, hr2⟩
  · rintro ⟨u, hu, p, hp, hr⟩
    exact ⟨_, ⟨u, hu, rfl⟩, List.mem_flatten.mpr ⟨_, List.mem_map.mpr ⟨p, hp, rfl⟩, hr⟩⟩

/-- The rules of the first part are among the rules returned. -/
theorem userRules_subset_GetFwRulesOnIngressGateway (pe : PolicyEnv) (env : Env) (node : Node)
    (s : State) (r : FwRule)
    (h : r ∈ userRules pe (pe.defaultUserPolicyEnabled node.Network)
      (fwUserNodes pe env node s).1 (fwNodes pe env node s).1) :
    r ∈ (GetFwRulesOnIngressGateway pe env node s).1 := by
  unfold GetFwRulesOnIngressGateway
  simp only
  split_ifs
  · exact h
  · exact List.mem_append_left _ h

theorem userPeerRules_static (pe : PolicyEnv) (u p : Node) (policies : List AclPolicy)
    (policy : AclPolicy) (h4 : u.StaticNode.Address ≠ []) (hnu : p.IsUserNode = false)
    (hs : p.IsStatic = true)
    (hallow : pe.isUserAllowedToCommunicate u.StaticNode.OwnerID p = (true, policies))
    (hpol : policy ∈ policies) :
    ({ SrcIP := pe.addressIPNet4 u.StaticNode, DstIP := pe.addressIPNet4 p.StaticNode,
       AllowedProtocol := policy.Proto, AllowedPorts := policy.Port, Allow := true } : FwRule)
        ∈ userPeerRules pe false u p ∧
    ({ SrcIP := pe.addressIPNet4 p.StaticNode, DstIP := pe.addressIPNet4 u.StaticNode,
       AllowedProtocol := policy.Proto, AllowedPorts := policy.Port, Allow := true } : FwRule)
        ∈ userPeerRules pe false u p := by
  unfold userPeerRules
  rw [hallow]
  simp only [hnu, hs, h4, if_true, if_false, ne_eq, not_false_eq_true, Bool.false_eq_true]
  constructor
  · apply List.mem_append_left
    apply List.mem_append_left
    exact List.mem_flatten.mpr ⟨_, List.mem_map.mpr ⟨policy, hpol, rfl⟩, List.mem_cons_self _ _⟩
  · apply List.mem_append_left
    apply List.mem_append_left
    exact List.mem_flatten.mpr ⟨_, List.mem_map.mpr ⟨policy, hpol, rfl⟩,
      List.mem_cons_of_mem _ (List.mem_cons_self _ _)⟩

theorem userPeerRules_node (pe : PolicyEnv) (u p : Node) (policies : List AclPolicy)
    (policy : AclPolicy) (h4 : u.StaticNode.Address ≠ []) (hnu : p.IsUserNode = false)
    (hs : p.IsStatic = false)
    (hallow : pe.isUserAllowedToCommunicate u.StaticNode.OwnerID p = (true, policies))
    (hpol : policy ∈ policies) :
    ({ SrcIP := pe.addressIPNet4 u.StaticNode,
       DstIP := { IP := p.Address.IP, Mask := cidrMask32 },
       AllowedProtocol := policy.Proto, AllowedPorts := policy.Port, Allow := true } : FwRule)
        ∈ userPeerRules pe false u p := by
  unfold userPeerRules
  rw [hallow]
  simp only [hnu, hs, h4, if_true, if_false, ne_eq, not_false_eq_true, Bool.false_eq_true]
  apply List.mem_append_left
  exact List.mem_map.mpr ⟨policy, hpol, rfl⟩

/-- C12 (as stated, refuted): with both default policies enabled the rule
list for the gateway holds a rule whose source is the address of the user
ext-client `laptop`, made for an extra allowed range of the static peer
`zeta`; and with only the default device policy enabled the list holds the
reverse rule of the user part, whose source is the address of the device
ext-client `zeta`. -/
theorem GetFwRulesOnIngressGateway_rules_despite_default_policies :
    blanketPolicyEnv.defaultUserPolicyEnabled gatewayNode.Network = true ∧
    blanketPolicyEnv.defaultDevicePolicyEnabled gatewayNode.Network = true ∧
    (GetFwRulesOnIngressGateway blanketPolicyEnv uncachedEnv gatewayNode fwState).1 =
      [{ SrcIP := blanketPolicyEnv.addressIPNet4 userClient
         DstIP := { IP := some (ascii "192.168.1.0/24"), Mask := none }
         AllowedProtocol := [], AllowedPorts := none, Allow := true }] ∧
    devicePolicyEnv.defaultDevicePolicyEnabled gatewayNode.Network = true ∧
    ({ SrcIP := devicePolicyEnv.addressIPNet4 zetaClient
       DstIP := devicePolicyEnv.addressIPNet4 userClient
       AllowedProtocol := ascii "tcp", AllowedPorts := some [ascii "22"], Allow := true } : FwRule)
      ∈ (GetFwRulesOnIngressGateway devicePolicyEnv uncachedEnv gatewayNode fwState).1 := by
  decide

/-- C12 (amended): when the default device policy is enabled,
`GetFwRulesOnIngressGateway` returns the rules of its first part only, the one
for the user ext-clients, and none for a device ext-client paired with a
peer; when the default user policy is enabled, that first part holds no rule
made from a policy entry: each of its rules carries no protocol and no ports
and has as destination a parsed `ExtraAllowedIPs` entry of a static peer that
is no user node. -/
theorem GetFwRulesOnIngressGateway_default_policies (pe : PolicyEnv) (env : Env) (node : Node)
    (s : State) :
    (pe.defaultDevicePolicyEnabled node.Network = true →
      (GetFwRulesOnIngressGateway pe env node s).1 =
        userRules pe (pe.defaultUserPolicyEnabled node.Network)
          (fwUserNodes pe env node s).1 (fwNodes pe env node s).1) ∧
    (pe.defaultUserPolicyEnabled node.Network = true →
      ∀ r ∈ userRules pe (pe.defaultUserPolicyEnabled node.Network)
          (fwUserNodes pe env node s).1 (fwNodes pe env node s).1,
        r.AllowedProtocol = [] ∧ r.AllowedPorts = none ∧
          ∃ p ∈ (fwNodes pe env node s).1, p.IsStatic = true ∧ p.IsUserNode = false ∧
            ∃ a ∈ p.StaticNode.ExtraAllowedIPs.getD [], pe.parseCIDR a = some r.DstIP) := by
  constructor
  · intro hdev
    simp [GetFwRulesOnIngressGateway, hdev]
  · intro huser r hr
    rw [huser] at hr
    obtain ⟨u, _, p, hp, hrp⟩ := (mem_userRules pe true _ _ r).mp hr
    obtain ⟨h1, h2, h3, h4, h5⟩ := mem_userPeerRules_of_enabled pe u p r hrp
    exact ⟨h1, h2, p, hp, h3, h4, h5⟩

theorem GetFwRulesOnIngressGateway_default_policies_witness :
    (GetFwRulesOnIngressGateway blanketPolicyEnv uncachedEnv gatewayNode fwState).1 =
        userRules blanketPolicyEnv (blanketPolicyEnv.defaultUserPolicyEnabled gatewayNode.Network)
          (fwUserNodes blanketPolicyEnv uncachedEnv gatewayNode fwState).1
          (fwNodes blanketPolicyEnv uncachedEnv gatewayNode fwState).1 :=
  (GetFwRulesOnIngressGateway_default_policies blanketPolicyEnv uncachedEnv gatewayNode
    fwState).1 rfl

/-- C13 (as stated, refuted): with the default user policy disabled, the user
ext-client `laptop` has an IPv4 address, the device node `N2` is a peer that
is no user node and that `IsUserAllowedToCommunicate` permits with one
entry; the rules hold the forward rule from `laptop` to `N2` and not the
reverse rule from `N2` to `laptop`. -/
theorem GetFwRulesOnIngressGateway_no_reverse_rule_for_node :
    devicePolicyEnv.defaultUserPolicyEnabled gatewayNode.Network = false ∧
    staticNodeOf userClient ∈ (fwUserNodes devicePolicyEnv uncachedEnv gatewayNode fwState).1 ∧
    userClient.Address ≠ [] ∧
    deviceNode ∈ (fwNodes devicePolicyEnv uncachedEnv gatewayNode fwState).1 ∧
    deviceNode.IsUserNode = false ∧
    devicePolicyEnv.isUserAllowedToCommunicate userClient.OwnerID deviceNode
      = (true, [sshPolicy]) ∧
    ({ SrcIP := devicePolicyEnv.addressIPNet4 userClient
       DstIP := { IP := deviceNode.Address.IP, Mask := cidrMask32 }
       AllowedProtocol := sshPolicy.Proto, AllowedPorts := sshPolicy.Port, Allow := true }
        : FwRule)
      ∈ (GetFwRulesOnIngressGateway devicePolicyEnv uncachedEnv gatewayNode fwState).1 ∧
    ({ SrcIP := { IP := deviceNode.Address.IP, Mask := cidrMask32 }
       DstIP := devicePolicyEnv.addressIPNet4 userClient
       AllowedProtocol := sshPolicy.Proto, AllowedPorts := sshPolicy.Port, Allow := true }
        : FwRule)
      ∉ (GetFwRulesOnIngressGateway devicePolicyEnv uncachedEnv gatewayNode fwState).1 := by
  decide

/-- C13 (amended): with the default user policy disabled, for every user
ext-client `u` that has an IPv4 address, every peer `p` that is no user node
and that `IsUserAllowedToCommunicate` permits, and every allowed policy entry,
the rules returned by `GetFwRulesOnIngressGateway` contain the forward rule
from `u` to `p` with the protocol and ports of the entry, and, when `p` is a
static node, the reverse rule from `p` to `u` as well. -/
theorem GetFwRulesOnIngressGateway_user_rules (pe : PolicyEnv) (env : Env) (node : Node)
    (s : State) (u p : Node) (policies : List AclPolicy) (policy : AclPolicy)
    (huser : pe.defaultUserPolicyEnabled node.Network = false)
    (hu : u ∈ (fwUserNodes pe env node s).1) (h4 : u.StaticNode.Address ≠ [])
    (hp : p ∈ (fwNodes pe env node s).1) (hnu : p.IsUserNode = false)
    (hallow : pe.isUserAllowedToCommunicate u.StaticNode.OwnerID p = (true, policies))
    (hpol : policy ∈ policies) :
    (p.IsStatic = true →
      ({ SrcIP := pe.addressIPNet4 u.StaticNode, DstIP := pe.addressIPNet4 p.StaticNode,
         AllowedProtocol := policy.Proto, AllowedPorts := policy.Port, Allow := true } : FwRule)
          ∈ (GetFwRulesOnIngressGateway pe env node s).1 ∧
      ({ SrcIP := pe.addressIPNet4 p.StaticNode, DstIP := pe.addressIPNet4 u.StaticNode,
         AllowedProtocol := policy.Proto, AllowedPorts := policy.Port, Allow := true } : FwRule)
          ∈ (GetFwRulesOnIngressGateway pe env node s).1) ∧
    (p.IsStatic = false →
      ({ SrcIP := pe.addressIPNet4 u.StaticNode,
         DstIP := { IP := p.Address.IP, Mask := cidrMask32 },
         AllowedProtocol := policy.Proto, AllowedPorts := policy.Port, Allow := true } : FwRule)
          ∈ (GetFwRulesOnIngressGateway pe env node s).1) := by
  have hin : ∀ r, r ∈ userPeerRules pe false u p →
      r ∈ (GetFwRulesOnIngressGateway pe env node s).1 := by
    intro r hr
    apply userRules_subset_GetFwRulesOnIngressGateway
    rw [huser]
    exact (mem_userRules pe false _ _ r).mpr ⟨u, hu, p, hp, hr⟩
  constructor
  · intro hs
    obtain ⟨h1, h2⟩ := userPeerRules_static pe u p policies policy h4 hnu hs hallow hpol
    exact ⟨hin _ h1, hin _ h2⟩
  · intro hs
    cases hst : p.IsStatic with
    | true => rw [hst] at hs; cases hs
    | false => exact hin _ (userPeerRules_node pe u p policies policy h4 hnu hst hallow hpol)

theorem GetFwRulesOnIngressGateway_user_rules_witness :
    ((staticNodeOf zetaClient).IsStatic = true →
      ({ SrcIP := samplePolicyEnv.addressIPNet4 (staticNodeOf userClient).StaticNode
         DstIP := samplePolicyEnv.addressIPNet4 (staticNodeOf zetaClient).StaticNode
         AllowedProtocol := sshPolicy.Proto, AllowedPorts := sshPolicy.Port, Allow := true }
          : FwRule)
          ∈ (GetFwRulesOnIngressGateway samplePolicyEnv uncachedEnv gatewayNode fwState).1 ∧
      ({ SrcIP := samplePolicyEnv.addressIPNet4 (staticNodeOf zetaClient).StaticNode
         DstIP := samplePolicyEnv.addressIPNet4 (staticNodeOf userClient).StaticNode
         AllowedProtocol := sshPolicy.Proto, AllowedPorts := sshPolicy.Port, Allow := true }
          : FwRule)
          ∈ (GetFwRulesOnIngressGateway samplePolicyEnv uncachedEnv gatewayNode fwState).1) ∧
    ((staticNodeOf zetaClient).IsStatic = false →
      ({ SrcIP := samplePolicyEnv.addressIPNet4 (staticNodeOf userClient).StaticNode
         DstIP := { IP := (staticNodeOf zetaClient).Address.IP, Mask := cidrMask32 }
         AllowedProtocol := sshPolicy.Proto, AllowedPorts := sshPolicy.Port, Allow := true }
          : FwRule)
          ∈ (GetFwRulesOnIngressGateway samplePolicyEnv uncachedEnv gatewayNode fwState).1) :=
  GetFwRulesOnIngressGateway_user_rules samplePolicyEnv uncachedEnv gatewayNode fwState
    (staticNodeOf userClient) (staticNodeOf zetaClient) [sshPolicy] sshPolicy rfl
    (by decide) (by decide) (by decide) rfl rfl (by decide)


/-! ### `StringDifference`, `RemoveStringSlice` -/

/-- The set built from `b` holds the elements of `b` and those it started
with. -/
theorem mem_foldl_insert (b : List GoString) (init : Finset GoString) (x : GoString) :
    x ∈ b.foldl (fun mb y => insert y mb) init ↔ x ∈ init ∨ x ∈ b := by
  induction b generalizing init with
  | nil => simp
  | cons y b ih =>
    rw [List.foldl_cons, ih]
    simp only [Finset.mem_insert, List.mem_cons]
    tauto

/-- The walk over `a` appends the elements that pass the test, in order. -/
theorem foldl_append_if (p : GoString → Prop) [DecidablePred p] (a diff : List GoString) :
    a.foldl (fun diff x => if p x then diff ++ [x] else diff) diff
      = diff ++ a.filter (fun x => decide (p x)) := by
  induction a generalizing diff with
  | nil => simp
  | cons x a ih =>
    rw [List.foldl_cons, ih]
    by_cases hp : p x
    · simp [hp, List.filter_cons]
    · simp [hp, List.filter_cons]

/-- C21: `StringDifference(a, b)` is `a` filtered by non-membership in `b`,
with the order and the duplicates of `a`; it is empty exactly when every
element of `a` occurs in `b`. -/
theorem StringDifference_eq_filter (a b : List GoString) :
    StringDifference a b = a.filter (fun x => decide (x ∉ b)) ∧
      (StringDifference a b = [] ↔ ∀ x ∈ a, x ∈ b) := by
  have h : StringDifference a b = a.filter (fun x => decide (x ∉ b)) := by
    unfold StringDifference
    simp only
    rw [foldl_append_if, List.nil_append]
    congr 1
    funext x
    simp [mem_foldl_insert]
  refine ⟨h, ?_⟩
  rw [h, List.filter_eq_nil_iff]
  simp

/-- C22: for an index `i` within the slice, `RemoveStringSlice(s, i)` returns
the list of length `len(s) - 1` made of `s[0..i)` followed by `s(i..len)`,
which is `s` with the element at index `i` erased. -/
theorem RemoveStringSlice_eq_eraseIdx (s : List GoString) (i : Nat) (hi : i < s.length) :
    RemoveStringSlice s i = some (s.take i ++ s.drop (i + 1)) ∧
      s.take i ++ s.drop (i + 1) = s.eraseIdx i ∧
      (s.take i ++ s.drop (i + 1)).length = s.length - 1 ∧
      (∀ j, j < i → (s.take i ++ s.drop (i + 1)).get? j = s.get? j) ∧
      (∀ j, i ≤ j → (s.take i ++ s.drop (i + 1)).get? j = s.get? (j + 1)) := by
  have he : s.take i ++ s.drop (i + 1) = s.eraseIdx i := (List.eraseIdx_eq_take_drop_succ s i).symm
  refine ⟨?_, he, ?_, ?_, ?_⟩
  · simp [RemoveStringSlice, Nat.succ_le_of_lt hi]
  · rw [he, List.length_eraseIdx]
    simp [hi]
  · intro j hj
    rw [he]
    simp [List.getElem?_eraseIdx, hj]
  · intro j hj
    rw [he]
    simp [List.getElem?_eraseIdx, Nat.not_lt.mpr hj]

theorem RemoveStringSlice_eq_eraseIdx_witness :
    RemoveStringSlice [ascii "a", ascii "b", ascii "c"] 1 = some [ascii "a", ascii "c"] := by
  have h := (RemoveStringSlice_eq_eraseIdx [ascii "a", ascii "b", ascii "c"] 1 (by decide)).1
  simpa using h


/-! ### Frame of `UpdateExtClient`, `ToggleExtClientConnectivity` and the cache of `GetExtClient` -/

/-- The public key after an update: the update's, if it is non-empty and
differs from the old one, else the old one. -/
theorem UpdateExtClient_PublicKey (old : ExtClient) (update : CustomExtClient) :
    (UpdateExtClient old update).PublicKey =
      if update.PublicKey ≠ [] ∧ old.PublicKey ≠ update.PublicKey then update.PublicKey
      else old.PublicKey := by
  simp only [UpdateExtClient]
  split_ifs <;> rfl

/-- The tags after an update are the update's. -/
theorem UpdateExtClient_Tags (old : ExtClient) (update : CustomExtClient) :
    (UpdateExtClient old update).Tags = update.Tags := by
  simp only [UpdateExtClient]

/-- C24: the result of `UpdateExtClient` agrees with `old` on `Network`,
`Address`, `Address6`, `PrivateKey`, `IngressGatewayID`, `LastModified`,
`OwnerID` and `RemoteAccessClientID` (every field other than ClientID,
PublicKey, DNS, Enabled, ExtraAllowedIPs, DeniedACLs, PostUp, PostDown and
Tags), whatever the update carries, and an update with an empty `PublicKey`
keeps the public key of `old`. -/
theorem UpdateExtClient_frame (old : ExtClient) (update : CustomExtClient) :
    (UpdateExtClient old update).Network = old.Network ∧
      (UpdateExtClient old update).Address = old.Address ∧
      (UpdateExtClient old update).Address6 = old.Address6 ∧
      (UpdateExtClient old update).PrivateKey = old.PrivateKey ∧
      (UpdateExtClient old update).IngressGatewayID = old.IngressGatewayID ∧
      (UpdateExtClient old update).LastModified = old.LastModified ∧
      (UpdateExtClient old update).OwnerID = old.OwnerID ∧
      (UpdateExtClient old update).RemoteAccessClientID = old.RemoteAccessClientID ∧
      (UpdateExtClient old { update with PublicKey := [] }).PublicKey = old.PublicKey := by
  have hk : (UpdateExtClient old { update with PublicKey := [] }).PublicKey = old.PublicKey := by
    rw [UpdateExtClient_PublicKey]
    simp
  refine ⟨UpdateExtClient_Network old update, ?_, ?_, ?_, ?_, ?_, ?_, ?_, hk⟩ <;>
    (simp only [UpdateExtClient]; split_ifs <;> rfl)

/-- C25 (the code caches what it could not decode): with the cache on and
empty, a lookup of a record that `json.Unmarshal` rejects returns the decode
error and yet puts the zero-valued ext-client into the cache under the key;
the same lookup repeated, the store unchanged, returns that ext-client
without error. -/
theorem GetExtClient_caches_undecoded :
    (GetExtClient sampleEnv (ascii "road-warrior") (ascii "n1") corruptState).1
        = (zeroExtClient, some errUnmarshal) ∧
      corruptState.extClientCacheMap.lookup (ascii "road-warrior#n1") = none ∧
      (GetExtClient sampleEnv (ascii "road-warrior") (ascii "n1")
          corruptState).2.extClientCacheMap.lookup (ascii "road-warrior#n1")
        = some zeroExtClient ∧
      (GetExtClient sampleEnv (ascii "road-warrior") (ascii "n1")
          corruptState).2.extClientTable.entries
        = corruptState.extClientTable.entries ∧
      (GetExtClient sampleEnv (ascii "road-warrior") (ascii "n1")
          (GetExtClient sampleEnv (ascii "road-warrior") (ascii "n1") corruptState).2).1
        = (zeroExtClient, none) := by
  decide

/-- C26 (the code resets three more fields): whatever the ext-client, the flag
and the state, the client `ToggleExtClientConnectivity` returns has an empty
`PostUp`, an empty `PostDown` and nil `Tags`; for `scriptedClient`, which has
both scripts and a tag, all three differ from the client passed in. -/
theorem ToggleExtClientConnectivity_clears_scripts :
    (∀ (env : Env) (client : ExtClient) (enable : Bool) (s : State),
      (ToggleExtClientConnectivity env client enable s).1.1.PostUp = [] ∧
      (ToggleExtClientConnectivity env client enable s).1.1.PostDown = [] ∧
      (ToggleExtClientConnectivity env client enable s).1.1.Tags = none) ∧
      scriptedClient.PostUp ≠ [] ∧ scriptedClient.PostDown ≠ [] ∧ scriptedClient.Tags ≠ none ∧
      (ToggleExtClientConnectivity sampleEnv scriptedClient true sampleState).1.1
        = { scriptedClient with PostUp := [], PostDown := [], Tags := none } := by
  refine ⟨?_, by decide, by decide, by decide, by decide⟩
  intro env client enable s
  have hc : ∀ u : CustomExtClient,
      (ToggleExtClientConnectivity env client enable s).1.1 = UpdateExtClient client u →
      u.PostUp = [] → u.PostDown = [] → u.Tags = none →
      (UpdateExtClient client u).PostUp = [] ∧ (UpdateExtClient client u).PostDown = [] ∧
        (UpdateExtClient client u).Tags = none := by
    intro u _ h1 h2 h3
    rw [UpdateExtClient_PostUp, UpdateExtClient_PostDown, UpdateExtClient_Tags, h1, h2, h3]
    exact ⟨by decide, by decide, rfl⟩
  have hr : (ToggleExtClientConnectivity env client enable s).1.1 =
      UpdateExtClient client
        { Enabled := enable, ClientID := client.ClientID, PublicKey := client.PublicKey,
          DNS := client.DNS, ExtraAllowedIPs := client.ExtraAllowedIPs,
          DeniedACLs := client.DeniedACLs, RemoteAccessClientID := client.RemoteAccessClientID,
          PostUp := [], PostDown := [], Tags := none } := by
    unfold ToggleExtClientConnectivity
    simp only
    split
    · rfl
    · split <;> rfl
  rw [hr]
  exact hc _ hr rfl rfl rfl


/-! ### The batch joins of `PublishDeletedClientPeerUpdate` -/

/-- If all batches are joined, every batch got as many completion signals as
it registered tasks. -/
theorem runBatches_joined (task : Nat → Option PublishCall) :
    ∀ L : List Batch, (runBatches task L).joined = true →
      ∀ b ∈ L, (b.dispatched.filterMap task).length = b.registered := by
  intro L
  induction L with
  | nil => intro _ b hb; cases hb
  | cons b0 rest ih =>
    intro hj b hb
    unfold runBatches at hj
    simp only at hj
    by_cases hlen : (b0.dispatched.filterMap task).length = b0.registered
    · rw [if_pos hlen] at hj
      rcases List.mem_cons.mp hb with rfl | hb
      · exact hlen
      · exact ih hj b hb
    · rw [if_neg hlen] at hj
      cases hj

/-- A task that makes no invocation leaves its batch one signal short. -/
theorem filterMap_length_lt (task : Nat → Option PublishCall) (i : Nat) :
    ∀ l : List Nat, i ∈ l → task i = none → (l.filterMap task).length < l.length := by
  intro l
  induction l with
  | nil => intro h; cases h
  | cons j l ih =>
    intro hmem hnone
    have hle : (l.filterMap task).length ≤ l.length := List.length_filterMap_le task l
    rcases List.mem_cons.mp hmem with rfl | hmem
    · rw [List.filterMap_cons_none hnone, List.length_cons]
      omega
    · have := ih hmem hnone
      cases hj : task j with
      | none => rw [List.filterMap_cons_none hj, List.length_cons]; omega
      | some c => rw [List.filterMap_cons_some hj, List.length_cons, List.length_cons]; omega

/-- With any host of OS tag `iot` in the inventory, some batch of
`PublishDeletedClientPeerUpdate` gets fewer completion signals than it
registered, and the publisher does not get past its joins. -/
theorem PublishDeletedClientPeerUpdate_not_joined (env : PublishEnv) (delClient : ExtClient)
    (hmq : env.isMessageQueueBackend = true) (hh : env.hostsErr = none)
    (hn : env.nodesErr = none) (i : Nat) (host : Host) (hi : env.hosts.get? i = some host)
    (hos : host.OS = OS_IoT) :
    (∃ b ∈ publishBatches env.hosts.length,
        (b.dispatched.filterMap (deletedClientTask env.hosts delClient)).length < b.registered) ∧
      (PublishDeletedClientPeerUpdate env delClient).joined = false := by
  have hlt : i < env.hosts.length := by
    rcases Nat.lt_or_ge i env.hosts.length with h | h
    · exact h
    · rw [List.get?_eq_none.mpr h] at hi
      cases hi
  have htask : deletedClientTask env.hosts delClient i = none := by
    unfold deletedClientTask
    rw [hi]
    simp [hos]
  have hmem : i ∈ ((publishBatches env.hosts.length).map Batch.dispatched).flatten := by
    rw [publishBatches_flatten]
    exact List.mem_range.mpr hlt
  obtain ⟨l, hl, hil⟩ := List.mem_flatten.mp hmem
  obtain ⟨b, hb, rfl⟩ := List.mem_map.mp hl
  have hshort : (b.dispatched.filterMap (deletedClientTask env.hosts delClient)).length
      < b.registered := by
    rw [(publishBatches_batch _ b hb).2]
    exact filterMap_length_lt _ i _ hil htask
  refine ⟨⟨b, hb, hshort⟩, ?_⟩
  have hrun : PublishDeletedClientPeerUpdate env delClient =
      runBatches (deletedClientTask env.hosts delClient) (publishBatches env.hosts.length) := by
    simp [PublishDeletedClientPeerUpdate, hmq, hh, hn]
  rw [hrun]
  cases hj : (runBatches (deletedClientTask env.hosts delClient)
      (publishBatches env.hosts.length)).joined with
  | false => rfl
  | true =>
    have := runBatches_joined _ _ hj b hb
    omega

/-- C27 (the join does not complete): with a single host, of OS tag `iot`,
the one batch of `PublishDeletedClientPeerUpdate` registers one task with the
wait group and gets no completion signal, so its `wg.Wait()` does not
return. -/
theorem PublishDeletedClientPeerUpdate_iot_blocks :
    (publishBatches loneIotEnv.hosts.length).map (fun b =>
        (b.registered,
          (b.dispatched.filterMap (deletedClientTask loneIotEnv.hosts sampleClient)).length))
      = [(1, 0)] ∧
      (PublishDeletedClientPeerUpdate loneIotEnv sampleClient).joined = false :=
  ⟨by decide,
    (PublishDeletedClientPeerUpdate_not_joined loneIotEnv sampleClient rfl rfl rfl 0
      { ID := [0], OS := OS_IoT, PublicKey := [] } rfl rfl).2⟩

/-! ### `GetNetworkExtClients` and the order of enumeration -/

/-- C28 (the returned error follows the enumeration order): with the cache
off and the fetch successful, a table of `sampleClient` and an undecodable
record yields the list `[sampleClient]` either way, but the decode error is
returned when the undecodable record is enumerated last and nil when it is
enumerated first. -/
theorem GetNetworkExtClients_returns_last_decode_error :
    corruptLastState.extClientTable.entries.Perm corruptFirstState.extClientTable.entries ∧
      (GetNetworkExtClients uncachedEnv (ascii "n1") corruptLastState).1
        = ([sampleClient], some errUnmarshal) ∧
      (GetNetworkExtClients uncachedEnv (ascii "n1") corruptFirstState).1
        = ([sampleClient], none) := by
  decide


/-! ### `CreateExtClient` and the allocated addresses -/

theorem AllocatedKept.refl (s : State) : AllocatedKept s s := fun _ => Finset.Subset.refl _

theorem AllocatedKept.trans {s1 s2 s3 : State} (h12 : AllocatedKept s1 s2)
    (h23 : AllocatedKept s2 s3) : AllocatedKept s1 s3 :=
  fun n => Finset.Subset.trans (h12 n) (h23 n)

theorem AllocatedKept.of_eq {s s' : State} (h : s'.allocatedIpMap = s.allocatedIpMap) :
    AllocatedKept s s' := by
  intro n
  unfold allocatedIps
  rw [h]

theorem AddIpToAllocatedIpMap_kept (m ip : GoString) (s : State) :
    AllocatedKept s (AddIpToAllocatedIpMap m ip s) := by
  intro n
  by_cases h : n = m
  · subst h
    have : allocatedIps n (AddIpToAllocatedIpMap n ip s) = insert ip (allocatedIps n s) := by
      simp [AddIpToAllocatedIpMap, allocatedIps, AList.lookup_insert]
    rw [this]
    exact Finset.subset_insert _ _
  · have : allocatedIps n (AddIpToAllocatedIpMap m ip s) = allocatedIps n s := by
      simp [AddIpToAllocatedIpMap, allocatedIps, AList.lookup_insert_ne h]
    rw [this]

theorem mem_AddIpToAllocatedIpMap (m ip : GoString) (s : State) :
    ip ∈ allocatedIps m (AddIpToAllocatedIpMap m ip s) := by
  have : allocatedIps m (AddIpToAllocatedIpMap m ip s) = insert ip (allocatedIps m s) := by
    simp [AddIpToAllocatedIpMap, allocatedIps, AList.lookup_insert]
  rw [this]
  exact Finset.mem_insert_self _ _

theorem FetchRecord_kept {V : Type} (env : Env) (table : State → GoMap GoString V)
    (key : GoString) (s : State) : AllocatedKept s (FetchRecord env table key s).2 := by
  rw [FetchRecord_tables]
  exact AllocatedKept.of_eq rfl

theorem allocate_kept (env : Env) (network cidr : GoString) (reserve : Bool) (s : State) :
    AllocatedKept s (allocate env network cidr reserve s).2 := by
  unfold allocate
  split
  · exact AllocatedKept.refl s
  · cases reserve
    · exact AllocatedKept.refl s
    · exact AddIpToAllocatedIpMap_kept _ _ _

theorem allocate_reserved (env : Env) (network cidr a : GoString) (s s1 : State)
    (h : allocate env network cidr true s = (.ok a, s1)) : a ∈ allocatedIps network s1 := by
  unfold allocate at h
  split at h
  · cases h
  · simp only [if_true, Prod.mk.injEq, Except.ok.injEq] at h
    obtain ⟨rfl, rfl⟩ := h
    exact mem_AddIpToAllocatedIpMap _ _ _

theorem UniqueAddress_kept (env : Env) (networkName : GoString) (reserve : Bool) (s : State) :
    AllocatedKept s (UniqueAddress env networkName reserve s).2 := by
  unfold UniqueAddress GetNetwork
  have hf := FetchRecord_kept env State.networksTable networkName s
  split
  · rename_i heq
    rw [heq] at hf
    exact hf
  · rename_i heq
    rw [heq] at hf
    exact hf.trans (allocate_kept _ _ _ _ _)

theorem UniqueAddress_reserved (env : Env) (networkName a : GoString) (s s1 : State)
    (h : UniqueAddress env networkName true s = (.ok a, s1)) :
    a ∈ allocatedIps networkName s1 := by
  unfold UniqueAddress at h
  split at h
  · cases h
  · exact allocate_reserved env _ _ _ _ _ h

theorem UniqueAddress6_kept (env : Env) (networkName : GoString) (reserve : Bool) (s : State) :
    AllocatedKept s (UniqueAddress6 env networkName reserve s).2 := by
  unfold UniqueAddress6 GetNetwork
  have hf := FetchRecord_kept env State.networksTable networkName s
  split
  · rename_i heq
    rw [heq] at hf
    exact hf
  · rename_i heq
    rw [heq] at hf
    exact hf.trans (allocate_kept _ _ _ _ _)


theorem GetExtClient_allocatedIpMap (env : Env) (clientid network : GoString) (s : State) :
    (GetExtClient env clientid network s).2.allocatedIpMap = s.allocatedIpMap := by
  unfold GetExtClient
  split
  · rfl
  · split
    · rfl
    · have hf := FetchRecord_tables env State.extClientTable ‹GoString› s
      split
      · rename_i heq
        rw [heq] at hf
        simp only at hf
        rw [hf]
      · rename_i heq
        rw [heq] at hf
        simp only at hf
        rw [hf]
        split <;> rfl

theorem generateNodeNameLoop_allocatedIpMap (env : Env) (network : GoString) :
    ∀ fuel cnt s g s', generateNodeNameLoop env network fuel cnt s = some (g, s') →
      s'.allocatedIpMap = s.allocatedIpMap := by
  intro fuel
  induction fuel with
  | zero =>
    intro cnt s g s' h
    simp [generateNodeNameLoop] at h
  | succ fuel ih =>
    intro cnt s g s' h
    rw [generateNodeNameLoop] at h
    by_cases hc : cnt > 10
    · simp only [hc, if_true, Option.some.injEq, Prod.mk.injEq] at h
      rw [← h.2]
    · simp only [hc, if_false] at h
      by_cases hl : (env.generate cnt).length > 15
      · simp only [hl, if_true] at h
        exact ih _ _ _ _ h
      · simp only [hl, if_false] at h
        have hmap := GetExtClient_allocatedIpMap env (env.generate cnt) network s
        rcases hget : GetExtClient env (env.generate cnt) network s with ⟨⟨c, e⟩, s1⟩
        rw [hget] at hmap h
        cases e with
        | none =>
          simp only at h
          exact (ih _ _ _ _ h).trans hmap
        | some e =>
          simp only [Option.some.injEq, Prod.mk.injEq] at h
          rw [← h.2]
          exact hmap

theorem createKeys_Address (env : Env) (c c1 : ExtClient) (h : createKeys env c = .ok c1) :
    c1.Network = c.Network ∧ c1.Address = c.Address := by
  unfold createKeys at h
  split_ifs at h
  · split at h
    · cases h
    · cases h; exact ⟨rfl, rfl⟩
  · cases h; exact ⟨rfl, rfl⟩
  · cases h; exact ⟨rfl, rfl⟩

theorem createExtraAllowedIPs_Address (c : ExtClient) :
    (createExtraAllowedIPs c).Network = c.Network ∧
      (createExtraAllowedIPs c).Address = c.Address := by
  unfold createExtraAllowedIPs
  split_ifs <;> exact ⟨rfl, rfl⟩

/-- The IPv4 block releases nothing; the address it sets, if any, is in the
allocated set of the network when the block ends. -/
theorem createAddress_kept (env : Env) (n : Network) (c : ExtClient) (s : State) :
    AllocatedKept s (createAddress env n c s).2 ∧
      ∀ c1, (createAddress env n c s).1 = .ok c1 →
        c1.Network = c.Network ∧
          (c1.Address = c.Address ∨
            c1.Address ∈ allocatedIps c.Network (createAddress env n c s).2) := by
  unfold createAddress
  split_ifs with h1 h2
  · have hk := UniqueAddress_kept env c.Network true s
    rcases hu : UniqueAddress env c.Network true s with ⟨r, s1⟩
    rw [hu] at hk
    cases r with
    | error e =>
      refine ⟨hk, ?_⟩
      intro c1 hc
      cases hc
    | ok a =>
      refine ⟨hk, ?_⟩
      intro c1 hc
      simp only [Except.ok.injEq] at hc
      subst hc
      exact ⟨rfl, Or.inr (UniqueAddress_reserved env _ _ _ _ hu)⟩
  · refine ⟨AllocatedKept.refl s, ?_⟩
    intro c1 hc
    simp only [Except.ok.injEq] at hc
    subst hc
    exact ⟨rfl, Or.inl rfl⟩
  · refine ⟨AllocatedKept.refl s, ?_⟩
    intro c1 hc
    simp only [Except.ok.injEq] at hc
    subst hc
    exact ⟨rfl, Or.inl rfl⟩

/-- The IPv6 block releases nothing and leaves the IPv4 address alone. -/
theorem createAddress6_kept (env : Env) (n : Network) (c : ExtClient) (s : State) :
    AllocatedKept s (createAddress6 env n c s).2 ∧
      ∀ c1, (createAddress6 env n c s).1 = .ok c1 →
        c1.Network = c.Network ∧ c1.Address = c.Address := by
  unfold createAddress6
  split_ifs with h1 h2
  · have hk := UniqueAddress6_kept env c.Network true s
    rcases hu : UniqueAddress6 env c.Network true s with ⟨r, s1⟩
    rw [hu] at hk
    cases r with
    | error e =>
      refine ⟨hk, ?_⟩
      intro c1 hc
      cases hc
    | ok a =>
      refine ⟨hk, ?_⟩
      intro c1 hc
      simp only [Except.ok.injEq] at hc
      subst hc
      exact ⟨rfl, rfl⟩
  · refine ⟨AllocatedKept.refl s, ?_⟩
    intro c1 hc
    simp only [Except.ok.injEq] at hc
    subst hc
    exact ⟨rfl, rfl⟩
  · refine ⟨AllocatedKept.refl s, ?_⟩
    intro c1 hc
    simp only [Except.ok.injEq] at hc
    subst hc
    exact ⟨rfl, rfl⟩

/-- The name block does not touch the allocator and leaves network and
address of the ext-client alone. -/
theorem createClientID_kept (env : Env) (c c1 : ExtClient) (e : Option GoError) (s s1 : State)
    (h : createClientID env c s = some ((c1, e), s1)) :
    s1.allocatedIpMap = s.allocatedIpMap ∧ c1.Network = c.Network ∧ c1.Address = c.Address := by
  unfold createClientID at h
  split_ifs at h with hid
  · split at h
    · cases h
    · rename_i g s2 hg
      simp only [Option.some.injEq, Prod.mk.injEq] at h
      obtain ⟨⟨rfl, _⟩, rfl⟩ := h
      exact ⟨generateNodeNameLoop_allocatedIpMap env _ _ _ _ _ _ hg, rfl, rfl⟩
  · simp only [Option.some.injEq, Prod.mk.injEq] at h
    obtain ⟨⟨rfl, _⟩, rfl⟩ := h
    exact ⟨rfl, rfl, rfl⟩

theorem insertExtClientRecord_allocatedIpMap (env : Env) (key : GoString)
    (value : ExtClientRecord) (s : State) :
    (insertExtClientRecord env key value s).2.allocatedIpMap = s.allocatedIpMap := by
  unfold insertExtClientRecord dbCall
  split
  · rename_i heq
    obtain ⟨_, rfl⟩ := Prod.mk.inj heq
    rfl
  · rename_i heq
    obtain ⟨_, rfl⟩ := Prod.mk.inj heq
    rfl

theorem SetNetworkNodesLastModified_allocatedIpMap (env : Env) (networkName : GoString)
    (s : State) :
    (SetNetworkNodesLastModified env networkName s).2.allocatedIpMap = s.allocatedIpMap := by
  unfold SetNetworkNodesLastModified GetNetwork
  have hf := FetchRecord_tables env State.networksTable networkName s
  simp only
  split
  · rename_i heq
    rw [heq] at hf
    simp only at hf
    rw [hf]
  · rename_i heq
    rw [heq] at hf
    simp only at hf
    unfold insertNetworkRecord dbCall
    split
    · rename_i heq2
      obtain ⟨_, rfl⟩ := Prod.mk.inj heq2
      rw [hf]
    · rename_i heq2
      obtain ⟨_, rfl⟩ := Prod.mk.inj heq2
      rw [hf]


/-- Saving an ext-client releases no address. -/
theorem SaveExtClient_kept (env : Env) (c : ExtClient) (s : State) :
    AllocatedKept s (SaveExtClient env c s).2 := by
  unfold SaveExtClient
  split
  · exact AllocatedKept.refl s
  · rename_i key _
    have hins := insertExtClientRecord_allocatedIpMap env key ⟨c, none⟩ s
    rcases hi : insertExtClientRecord env key ⟨c, none⟩ s with ⟨r, s1⟩
    rw [hi] at hins
    cases r with
    | some e => exact AllocatedKept.of_eq hins
    | none =>
      simp only
      refine (AllocatedKept.of_eq hins).trans ?_
      refine AllocatedKept.trans ?_
        (AllocatedKept.of_eq (SetNetworkNodesLastModified_allocatedIpMap env c.Network _))
      have hcache : AllocatedKept s1
          (if env.cacheEnabled then storeExtClientInCache key c s1 else s1) := by
        split_ifs
        · exact AllocatedKept.of_eq rfl
        · exact AllocatedKept.refl s1
      refine hcache.trans ?_
      generalize (if env.cacheEnabled then storeExtClientInCache key c s1 else s1) = s2
      split_ifs
      · exact (AddIpToAllocatedIpMap_kept _ _ _).trans (AddIpToAllocatedIpMap_kept _ _ _)
      · exact AddIpToAllocatedIpMap_kept _ _ _
      · exact AddIpToAllocatedIpMap_kept _ _ _
      · exact AllocatedKept.refl _
      · exact AllocatedKept.refl _

/-- Whatever `CreateExtClient` returns, it has released no address, and the
IPv4 address it has set on an ext-client that came without one is in the
allocated set of the network. -/
theorem CreateExtClient_kept (env : Env) (c c' : ExtClient) (err : Option GoError)
    (s s' : State) (h : CreateExtClient env c s = some ((c', err), s')) :
    AllocatedKept s s' ∧
      (c.Address = [] → c'.Address ≠ [] → c'.Address ∈ allocatedIps c.Network s') := by
  unfold CreateExtClient at h
  split at h
  · simp only [Option.some.injEq, Prod.mk.injEq] at h
    obtain ⟨⟨rfl, _⟩, rfl⟩ := h
    exact ⟨AllocatedKept.refl s, fun h0 h1 => absurd h0 h1⟩
  · rename_i c1 hkeys
    obtain ⟨hn1, ha1⟩ := createKeys_Address env c c1 hkeys
    obtain ⟨hn1b, ha1b⟩ := createExtraAllowedIPs_Address c1
    simp only at h
    have hk1 := FetchRecord_kept env State.networksTable (createExtraAllowedIPs c1).Network s
    unfold GetNetwork at h
    split at h
    · rename_i e s1 hget
      rw [hget] at hk1
      simp only [Option.some.injEq, Prod.mk.injEq] at h
      obtain ⟨⟨rfl, _⟩, rfl⟩ := h
      exact ⟨hk1, fun h0 h1 => absurd (ha1b.trans (ha1.trans h0)) h1⟩
    · rename_i parentNetwork s1 hget
      rw [hget] at hk1
      obtain ⟨hk2, hc2⟩ := createAddress_kept env parentNetwork (createExtraAllowedIPs c1) s1
      split at h
      · rename_i e s2 haddr
        rw [haddr] at hk2
        simp only [Option.some.injEq, Prod.mk.injEq] at h
        obtain ⟨⟨rfl, _⟩, rfl⟩ := h
        exact ⟨hk1.trans hk2, fun h0 h1 => absurd (ha1b.trans (ha1.trans h0)) h1⟩
      · rename_i c2 s2 haddr
        rw [haddr] at hk2 hc2
        obtain ⟨hn2, ha2⟩ := hc2 c2 rfl
        have hnet2 : c2.Network = c.Network := hn2.trans (hn1b.trans hn1)
        have hmem2 : c.Address = [] → c2.Address ≠ [] → c2.Address ∈ allocatedIps c.Network s2 := by
          intro h0 hne
          rcases ha2 with ha2 | ha2
          · exact absurd (ha2.trans (ha1b.trans (ha1.trans h0))) hne
          · rw [hn1b, hn1] at ha2
            exact ha2
        obtain ⟨hk3, hc3⟩ := createAddress6_kept env parentNetwork c2 s2
        split at h
        · rename_i e s3 haddr6
          rw [haddr6] at hk3
          simp only [Option.some.injEq, Prod.mk.injEq] at h
          obtain ⟨⟨rfl, _⟩, rfl⟩ := h
          exact ⟨(hk1.trans hk2).trans hk3, fun h0 h1 => hk3 _ (hmem2 h0 h1)⟩
        · rename_i c3 s3 haddr6
          rw [haddr6] at hk3 hc3
          obtain ⟨hn3, ha3⟩ := hc3 c3 rfl
          have hmem3 : c.Address = [] → c3.Address ≠ [] →
              c3.Address ∈ allocatedIps c.Network s3 := by
            intro h0 hne
            rw [ha3] at hne ⊢
            exact hk3 _ (hmem2 h0 hne)
          split at h
          · cases h
          · rename_i c4 e s4 hname
            obtain ⟨hm4, hn4, ha4⟩ := createClientID_kept env c3 c4 _ s3 s4 hname
            have hk4 : AllocatedKept s3 s4 := AllocatedKept.of_eq hm4
            simp only [Option.some.injEq, Prod.mk.injEq] at h
            obtain ⟨⟨rfl, _⟩, rfl⟩ := h
            refine ⟨((hk1.trans hk2).trans hk3).trans hk4, fun h0 h1 => ?_⟩
            rw [ha4] at h1 ⊢
            exact hk4 _ (hmem3 h0 h1)
          · rename_i c4 s4 hname
            obtain ⟨hm4, hn4, ha4⟩ := createClientID_kept env c3 c4 _ s3 s4 hname
            have hk4 : AllocatedKept s3 s4 := AllocatedKept.of_eq hm4
            have hk5 := SaveExtClient_kept env { c4 with LastModified := env.now } s4
            simp only [Option.some.injEq, Prod.mk.injEq] at h
            obtain ⟨⟨rfl, _⟩, rfl⟩ := h
            refine ⟨(((hk1.trans hk2).trans hk3).trans hk4).trans hk5, fun h0 h1 => ?_⟩
            have h1' : c4.Address ≠ [] := h1
            have hmem4 : c4.Address ∈ allocatedIps c.Network s4 := by
              rw [ha4] at h1' ⊢
              exact hk4 _ (hmem3 h0 h1')
            exact hk5 _ hmem4

/-- C29 (as stated, refuted): the creation of `unnamedClient` in `sampleState`
with a name generator that only yields the taken name returns an error after
the address `10.0.0.3` was reserved; the address was not in the set of `n1`
before the call and is in it afterwards. -/
theorem CreateExtClient_error_keeps_reservation :
    CreateExtClient fullNamespaceEnv unnamedClient sampleState = some failedCreate ∧
      failedCreate.1.2 = some errNameGen ∧
      ascii "10.0.0.3" ∉ allocatedIps (ascii "n1") sampleState ∧
      ascii "10.0.0.3" ∈ allocatedIps (ascii "n1") failedCreate.2 :=
  ⟨rfl, by decide, by decide, by decide⟩

/-- C29 (amended): if `CreateExtClient` returns an error, no address has been
released (every address allocated before the call, on any network, is
allocated after it), and the IPv4 address that the failed creation set on an
ext-client which came without one remains in the allocated set of its
network. -/
theorem CreateExtClient_error_releases_nothing (env : Env) (c c' : ExtClient) (e : GoError)
    (s s' : State) (h : CreateExtClient env c s = some ((c', some e), s')) :
    (∀ network, allocatedIps network s ⊆ allocatedIps network s') ∧
      (c.Address = [] → c'.Address ≠ [] → c'.Address ∈ allocatedIps c.Network s') :=
  CreateExtClient_kept env c c' (some e) s s' h

theorem CreateExtClient_error_releases_nothing_witness :
    (∀ network, allocatedIps network sampleState ⊆ allocatedIps network failedCreate.2) ∧
      (unnamedClient.Address = [] → failedCreate.1.1.Address ≠ [] →
        failedCreate.1.1.Address ∈ allocatedIps unnamedClient.Network failedCreate.2) :=
  CreateExtClient_error_releases_nothing fullNamespaceEnv unnamedClient failedCreate.1.1
    errNameGen sampleState failedCreate.2 rfl


/-! ### `RandomString` -/

set_option maxRecDepth 100000 in
/-- The encoder agrees with the test vectors of RFC 4648. -/
theorem EncodeToString_rfc4648 :
    EncodeToString (ascii "") = ascii "" ∧
      EncodeToString (ascii "f") = ascii "MY======" ∧
      EncodeToString (ascii "fo") = ascii "MZXQ====" ∧
      EncodeToString (ascii "foo") = ascii "MZXW6===" ∧
      EncodeToString (ascii "foob") = ascii "MZXW6YQ=" ∧
      EncodeToString (ascii "fooba") = ascii "MZXW6YTB" ∧
      EncodeToString (ascii "foobar") = ascii "MZXW6YTBOI======" := by
  decide


/-- The alphabet holds the letters `A`–`Z` and the digits `2`–`7`, and not the
padding character. -/
theorem encodeStd_chars :
    ∀ c ∈ encodeStd, c ≠ StdPadding ∧
      ((65 ≤ c.toNat ∧ c.toNat ≤ 90) ∨ (50 ≤ c.toNat ∧ c.toNat ≤ 55)) := by
  decide

theorem encodeStd_getD_mem (i : Nat) : encodeStd.getD (i % 32) 0 ∈ encodeStd := by
  have hlen : encodeStd.length = 32 := rfl
  have hi : i % 32 < encodeStd.length := by rw [hlen]; exact Nat.mod_lt _ (by norm_num)
  rw [List.getD_eq_getElem _ _ hi]
  exact List.getElem_mem _

/-- A quantum is written as `quantumChars` alphabet characters followed by
padding. -/
theorem encodeQuantum_split (src : List UInt8) :
    ∃ data pad, encodeQuantum src = data ++ pad ∧ data.length = quantumChars src.length ∧
      (∀ c ∈ data, c ∈ encodeStd) ∧
      pad = List.replicate (8 - quantumChars src.length) StdPadding := by
  refine ⟨_, _, rfl, by simp, ?_, rfl⟩
  intro c hc
  obtain ⟨k, _, rfl⟩ := List.mem_map.mp hc
  exact encodeStd_getD_mem _

/-- The encoding of `src` is `(8 * len + 4) / 5` alphabet characters, some of
them followed by padding characters. -/
theorem EncodeToString_split :
    ∀ (n : Nat) (src : List UInt8), src.length = n →
      ∃ data pad, EncodeToString src = data ++ pad ∧ data.length = (src.length * 8 + 4) / 5 ∧
        (∀ c ∈ data, c ∈ encodeStd) ∧ (∀ c ∈ pad, c = StdPadding) := by
  intro n
  induction n using Nat.strong_induction_on with
  | _ n ih =>
    intro src hlen
    have hq : ∀ q : List UInt8, ∃ data pad, encodeQuantum q = data ++ pad ∧
        data.length = (q.length * 8 + 4) / 5 ∧
        (∀ c ∈ data, c ∈ encodeStd) ∧ (∀ c ∈ pad, c = StdPadding) := by
      intro q
      obtain ⟨data, pad, h1, h2, h3, h4⟩ := encodeQuantum_split q
      refine ⟨data, pad, h1, h2, h3, ?_⟩
      intro c hc
      rw [h4] at hc
      exact List.eq_of_mem_replicate hc
    match src, hlen with
    | [], _ => exact ⟨[], [], rfl, rfl, by simp, by simp⟩
    | [a], _ => exact hq [a]
    | [a, b], _ => exact hq [a, b]
    | [a, b, c], _ => exact hq [a, b, c]
    | [a, b, c, d], _ => exact hq [a, b, c, d]
    | a :: b :: c :: d :: e :: rest, hlen =>
      obtain ⟨data, pad, h1, h2, h3, h4⟩ :=
        ih rest.length (by rw [← hlen]; simp only [List.length_cons]; omega) rest rfl
      obtain ⟨q, qp, hq1, hq2, hq3, hq4⟩ := encodeQuantum_split [a, b, c, d, e]
      have hqc : quantumChars [a, b, c, d, e].length = 8 := by
        simp [quantumChars]
      have hqp : qp = [] := by
        rw [hq4, hqc]
        rfl
      have hq2' : q.length = 8 := hq2.trans hqc
      refine ⟨q ++ data, pad, ?_, ?_, ?_, h4⟩
      · show encodeQuantum [a, b, c, d, e] ++ EncodeToString rest = _
        rw [hq1, hqp, h1, List.append_nil, List.append_assoc]
      · rw [List.length_append, h2, hq2']
        simp only [List.length_cons]
        omega
      · intro x hx
        rcases List.mem_append.mp hx with hx | hx
        · exact hq3 x hx
        · exact h3 x hx

/-- C30: when the random source succeeds, `RandomString(n)` returns (the slice
to `n` is within the encoding, which has at least `n` characters) a string of
exactly `n` characters, each of them in the base32 alphabet, that is one of
`A`–`Z` and `2`–`7`, and none the padding character `=`. -/
theorem RandomString_ok (rand : RandReader) (n : Nat) (hrand : rand.err = none) :
    n ≤ (EncodeToString ((List.range n).map rand.byte)).length ∧
      ∃ str, RandomString rand n = some str ∧ str.length = n ∧
        ∀ c ∈ str, c ∈ encodeStd ∧ c ≠ StdPadding ∧
          ((65 ≤ c.toNat ∧ c.toNat ≤ 90) ∨ (50 ≤ c.toNat ∧ c.toNat ≤ 55)) := by
  obtain ⟨data, pad, h1, h2, h3, _⟩ :=
    EncodeToString_split n ((List.range n).map rand.byte) (by simp)
  have hlen : ((List.range n).map rand.byte).length = n := by simp
  rw [hlen] at h2
  have hn : n ≤ data.length := by omega
  have hle : n ≤ (EncodeToString ((List.range n).map rand.byte)).length := by
    rw [h1, List.length_append]
    omega
  refine ⟨hle, (EncodeToString ((List.range n).map rand.byte)).take n, ?_, ?_, ?_⟩
  · simp only [RandomString, hrand]
    rw [if_pos hle]
  · rw [List.length_take]
    omega
  · intro c hc
    rw [h1, List.take_append_of_le_length hn] at hc
    have hmem := h3 c (List.mem_of_mem_take hc)
    exact ⟨hmem, encodeStd_chars c hmem⟩

theorem RandomString_ok_witness :
    7 ≤ (EncodeToString ((List.range 7).map sampleRand.byte)).length ∧
      ∃ str, RandomString sampleRand 7 = some str ∧ str.length = 7 ∧
        ∀ c ∈ str, c ∈ encodeStd ∧ c ≠ StdPadding ∧
          ((65 ≤ c.toNat ∧ c.toNat ≤ 90) ∨ (50 ≤ c.toNat ∧ c.toNat ≤ 55)) :=
  RandomString_ok sampleRand 7 rfl


/-! ### `NormalizeCIDR` -/


set_option maxRecDepth 100000 in
/-- The model of `NormalizeCIDR` on some texts. -/
theorem NormalizeCIDR_samples :
    NormalizeCIDR sampleNet6Lib (ascii "10.0.0.7/24") = (ascii "10.0.0.0/24", none) ∧
      NormalizeCIDR sampleNet6Lib (ascii "192.168.77.130/25")
        = (ascii "192.168.77.128/25", none) ∧
      NormalizeCIDR sampleNet6Lib (ascii "192.168.77.130/025")
        = (ascii "192.168.77.128/25", none) ∧
      NormalizeCIDR sampleNet6Lib (ascii "255.255.255.255/0") = (ascii "0.0.0.0/0", none) ∧
      NormalizeCIDR sampleNet6Lib (ascii "1.2.3.4/32") = (ascii "1.2.3.4/32", none) ∧
      NormalizeCIDR sampleNet6Lib (ascii "1.2.3.4/33") = ([], some errParseCIDR) ∧
      NormalizeCIDR sampleNet6Lib (ascii "1.2.3/24") = ([], some errParseCIDR) ∧
      NormalizeCIDR sampleNet6Lib (ascii "01.2.3.4/24") = ([], some errParseCIDR) ∧
      NormalizeCIDR sampleNet6Lib (ascii "1.2.3.4") = ([], some errParseCIDR) := by
  decide

set_option maxRecDepth 100000 in
/-- The decimal text of a byte is read back as that byte, and has none of the
separators in it. -/
theorem uitoa_octet :
    ∀ n, n < 256 → parseOctet (uitoa n) = some n ∧
      ∀ c ∈ uitoa n, c ≠ 47 ∧ c ≠ 46 ∧ c ≠ 58 ∧ c ≠ 37 := by
  decide

set_option maxRecDepth 100000 in
/-- The decimal text of a prefix length is read back as that length. -/
theorem uitoa_ones : ∀ n, n < 33 → dtoi (uitoa n) = some n := by
  decide

/-- The cut at the first `/`. -/
theorem span_slash (l r : GoString) (h : ∀ c ∈ l, c ≠ 47) :
    (l ++ 47 :: r).span (fun c => c ≠ 47) = (l, 47 :: r) := by
  have hp : ∀ c ∈ l, (fun c : UInt8 => decide (c ≠ 47)) c = true := by
    intro c hc
    simpa using h c hc
  rw [List.span_eq_take_drop, List.takeWhile_append_of_pos hp, List.dropWhile_append_of_pos hp]
  simp


/-- The text of an IPv4 address, field by field. -/
theorem ip4String_eq (a : Nat) :
    ip4String a = uitoa (a / 2 ^ 24 % 256) ++ 46 :: (uitoa (a / 2 ^ 16 % 256) ++ 46 ::
      (uitoa (a / 2 ^ 8 % 256) ++ 46 :: uitoa (a % 256))) := by
  simp [ip4String, List.intercalate, List.intersperse, List.flatten]

theorem ip4String_no_slash (a : Nat) : ∀ c ∈ ip4String a, c ≠ 47 := by
  intro c hc
  rw [ip4String_eq] at hc
  have h0 := (uitoa_octet (a / 2 ^ 24 % 256) (Nat.mod_lt _ (by norm_num))).2 c
  have h1 := (uitoa_octet (a / 2 ^ 16 % 256) (Nat.mod_lt _ (by norm_num))).2 c
  have h2 := (uitoa_octet (a / 2 ^ 8 % 256) (Nat.mod_lt _ (by norm_num))).2 c
  have h3 := (uitoa_octet (a % 256) (Nat.mod_lt _ (by norm_num))).2 c
  simp only [List.mem_append, List.mem_cons] at hc
  rcases hc with hc | rfl | hc | rfl | hc | rfl | hc
  · exact (h0 hc).1
  · decide
  · exact (h1 hc).1
  · decide
  · exact (h2 hc).1
  · decide
  · exact (h3 hc).1

/-- The text of an IPv4 address is read back as that address. -/
theorem parseIPv4_ip4String (a : Nat) (ha : a < 2 ^ 32) : parseIPv4 (ip4String a) = some a := by
  have h0 := uitoa_octet (a / 2 ^ 24 % 256) (Nat.mod_lt _ (by norm_num))
  have h1 := uitoa_octet (a / 2 ^ 16 % 256) (Nat.mod_lt _ (by norm_num))
  have h2 := uitoa_octet (a / 2 ^ 8 % 256) (Nat.mod_lt _ (by norm_num))
  have h3 := uitoa_octet (a % 256) (Nat.mod_lt _ (by norm_num))
  have hsplit : (ip4String a).splitOn 46 =
      [uitoa (a / 2 ^ 24 % 256), uitoa (a / 2 ^ 16 % 256), uitoa (a / 2 ^ 8 % 256),
        uitoa (a % 256)] := by
    unfold ip4String
    apply List.splitOn_intercalate
    · intro l hl hmem
      simp only [List.mem_cons, List.mem_singleton, List.not_mem_nil, or_false] at hl
      rcases hl with rfl | rfl | rfl | rfl
      · exact (h0.2 _ hmem).2.1 rfl
      · exact (h1.2 _ hmem).2.1 rfl
      · exact (h2.2 _ hmem).2.1 rfl
      · exact (h3.2 _ hmem).2.1 rfl
    · simp
  unfold parseIPv4
  rw [hsplit]
  simp only [h0.1, h1.1, h2.1, h3.1, Option.some.injEq]
  norm_num at ha ⊢
  omega

/-- The first separator in the text of an IPv4 address is a dot. -/
theorem find_ip4String (a : Nat) :
    (ip4String a).find? (fun c => c = 46 ∨ c = 58 ∨ c = 37) = some 46 := by
  have h0 := (uitoa_octet (a / 2 ^ 24 % 256) (Nat.mod_lt _ (by norm_num))).2
  rw [ip4String_eq, List.find?_append]
  have hnone : (uitoa (a / 2 ^ 24 % 256)).find? (fun c => c = 46 ∨ c = 58 ∨ c = 37) = none := by
    rw [List.find?_eq_none]
    intro c hc
    have := h0 c hc
    simp [this.2.1, this.2.2.1, this.2.2.2]
  rw [hnone]
  simp

/-- What `parseIPv4` accepts is a 32-bit value. -/
theorem parseIPv4_lt (s : GoString) (a : Nat) (h : parseIPv4 s = some a) : a < 2 ^ 32 := by
  have hoct : ∀ f n, parseOctet f = some n → n ≤ 255 := by
    intro f n hf
    unfold parseOctet at hf
    split_ifs at hf
    simp only [Option.some.injEq] at hf
    omega
  unfold parseIPv4 at h
  split at h
  · rename_i f0 f1 f2 f3 _
    split at h
    · rename_i o0 o1 o2 o3 e0 e1 e2 e3
      have := hoct _ _ e0
      have := hoct _ _ e1
      have := hoct _ _ e2
      have := hoct _ _ e3
      simp only [Option.some.injEq] at h
      norm_num
      omega
    · cases h
  · cases h


/-- Clearing the host bits does not raise the value, clears them indeed,
keeps the network bits and changes nothing when done again. -/
theorem maskValue_spec (bits ones a : Nat) :
    maskValue bits ones a ≤ a ∧ maskValue bits ones a % 2 ^ (bits - ones) = 0 ∧
      maskValue bits ones a / 2 ^ (bits - ones) = a / 2 ^ (bits - ones) ∧
      maskValue bits ones (maskValue bits ones a) = maskValue bits ones a := by
  have hpos : 0 < 2 ^ (bits - ones) := Nat.two_pow_pos _
  have hdiv : a / 2 ^ (bits - ones) * 2 ^ (bits - ones) / 2 ^ (bits - ones)
      = a / 2 ^ (bits - ones) := Nat.mul_div_cancel _ hpos
  refine ⟨Nat.div_mul_le_self _ _, Nat.mul_mod_left _ _, hdiv, ?_⟩
  unfold maskValue
  rw [hdiv]

/-- The text of an IPv4 network is read back as that network. -/
theorem ParseCIDR_String (lib : Net6Lib) (a n : Nat) (ha : a < 2 ^ 32) (hn : n ≤ 32) :
    ParseCIDR lib (ip4String a ++ [47] ++ uitoa n)
        = .ok (.v4 a, { IP := .v4 (maskValue 32 n a), ones := n }) ∧
      parseCIDR4 (ip4String a ++ [47] ++ uitoa n) = some (a, n) := by
  have hspan : (ip4String a ++ [47] ++ uitoa n).span (fun c => c ≠ 47)
      = (ip4String a, 47 :: uitoa n) := by
    rw [List.append_assoc]
    exact span_slash _ _ (ip4String_no_slash a)
  have hd : dtoi (uitoa n) = some n := uitoa_ones n (by omega)
  have hp : parseIPv4 (ip4String a) = some a := parseIPv4_ip4String a ha
  constructor
  · unfold ParseCIDR
    rw [hspan]
    simp only [parseAddr, find_ip4String, hp, Option.map_some', hd, BitLen]
    rw [if_neg (by omega)]
    rfl
  · unfold parseCIDR4
    rw [hspan]
    simp only [hp, hd]
    rw [if_neg (by omega)]

/-- What `ParseCIDR` returns with an IPv4 address: the address is a 32-bit
value, the prefix length is at most 32 and the network holds the address with
its host bits cleared. -/
theorem ParseCIDR_v4 (lib : Net6Lib) (s : GoString) (a : Nat) (ipnet : CIDRNet)
    (h : ParseCIDR lib s = .ok (.v4 a, ipnet)) :
    a < 2 ^ 32 ∧ ipnet.ones ≤ 32 ∧ ipnet.IP = .v4 (maskValue 32 ipnet.ones a) ∧
      parseCIDR4 s = some (a, ipnet.ones) := by
  unfold ParseCIDR at h
  split at h
  · cases h
  · rename_i addr c mask hspan
    split at h
    · cases h
    · rename_i ip hip
      split at h
      · cases h
      · rename_i n hd
        split_ifs at h with hbits
        simp only [Except.ok.injEq, Prod.mk.injEq] at h
        obtain ⟨rfl, rfl⟩ := h
        have hbits' : n ≤ 32 := by
          simp only [BitLen] at hbits
          omega
        unfold parseAddr at hip
        split at hip
        · cases hp : parseIPv4 addr with
          | none => rw [hp] at hip; cases hip
          | some a' =>
            rw [hp] at hip
            simp only [Option.map_some', Option.some.injEq, IPAddr.v4.injEq] at hip
            subst hip
            refine ⟨parseIPv4_lt addr a' hp, hbits', rfl, ?_⟩
            unfold parseCIDR4
            rw [hspan]
            simp only [hp, hd]
            rw [if_neg (by omega)]
        · split_ifs at hip
          cases hp : lib.parseIPv6 addr with
          | none => rw [hp] at hip; cases hip
          | some a' => rw [hp] at hip; cases hip
        · cases hip

/-- `NormalizeCIDR` on a text that `ParseCIDR` reads as an IPv4 network. -/
theorem NormalizeCIDR_of_v4 (lib : Net6Lib) (s : GoString) (a n : Nat)
    (ha : a < 2 ^ 32) (hn : n ≤ 32)
    (h : ParseCIDR lib s = .ok (.v4 a, { IP := .v4 (maskValue 32 n a), ones := n })) :
    NormalizeCIDR lib s = (ip4String (maskValue 32 n a) ++ [47] ++ uitoa n, none) := by
  obtain ⟨hle, _, _, hidem⟩ := maskValue_spec 32 n a
  have hm : maskValue 32 n a < 2 ^ 32 := Nat.lt_of_le_of_lt hle ha
  have hnet : Net4NetworkAddress lib (ip4String (maskValue 32 n a) ++ [47] ++ uitoa n)
      = .v4 (maskValue 32 n a) := by
    unfold Net4NetworkAddress
    rw [(ParseCIDR_String lib _ n hm hn).2]
    simp only
    rw [hidem]
  unfold NormalizeCIDR
  rw [h]
  simp only [To4, CIDRNet.String]
  rw [if_neg (by simp)]
  simp only
  rw [hnet]


/-- C23: for a text that `ParseCIDR` reads as an IPv4 CIDR, with address `a`
and prefix length `n` (`n = ipnet.ones`), `NormalizeCIDR` returns without
error the text of `a` with its host bits cleared, `/` and the same `n`; that
text reads as the network address and `n`, and `NormalizeCIDR` returns it
unchanged. For every text that `ParseCIDR` rejects, `NormalizeCIDR` returns
the error and the empty string. -/
theorem NormalizeCIDR_ipv4 (lib : Net6Lib) (s : GoString) (a : Nat) (ipnet : CIDRNet)
    (h : ParseCIDR lib s = .ok (.v4 a, ipnet)) :
    parseCIDR4 s = some (a, ipnet.ones) ∧
      NormalizeCIDR lib s
        = (ip4String (maskValue 32 ipnet.ones a) ++ [47] ++ uitoa ipnet.ones, none) ∧
      maskValue 32 ipnet.ones a % 2 ^ (32 - ipnet.ones) = 0 ∧
      maskValue 32 ipnet.ones a / 2 ^ (32 - ipnet.ones) = a / 2 ^ (32 - ipnet.ones) ∧
      parseCIDR4 (ip4String (maskValue 32 ipnet.ones a) ++ [47] ++ uitoa ipnet.ones)
        = some (maskValue 32 ipnet.ones a, ipnet.ones) ∧
      NormalizeCIDR lib (ip4String (maskValue 32 ipnet.ones a) ++ [47] ++ uitoa ipnet.ones)
        = (ip4String (maskValue 32 ipnet.ones a) ++ [47] ++ uitoa ipnet.ones, none) ∧
      ∀ s' e, ParseCIDR lib s' = .error e → NormalizeCIDR lib s' = ([], some e) := by
  obtain ⟨ha, hn, hip, hp4⟩ := ParseCIDR_v4 lib s a ipnet h
  obtain ⟨hle, hmod, hdiv, hidem⟩ := maskValue_spec 32 ipnet.ones a
  have hm : maskValue 32 ipnet.ones a < 2 ^ 32 := Nat.lt_of_le_of_lt hle ha
  have hnet : ipnet = { IP := .v4 (maskValue 32 ipnet.ones a), ones := ipnet.ones } := by
    cases ipnet
    simp only at hip
    rw [hip]
  have h1 := NormalizeCIDR_of_v4 lib s a ipnet.ones ha hn (by rw [← hnet]; exact h)
  obtain ⟨hparse, hp4'⟩ := ParseCIDR_String lib (maskValue 32 ipnet.ones a) ipnet.ones hm hn
  have h2 := NormalizeCIDR_of_v4 lib _ (maskValue 32 ipnet.ones a) ipnet.ones hm hn hparse
  rw [hidem] at h2
  refine ⟨hp4, h1, hmod, hdiv, hp4', h2, ?_⟩
  intro s' e he
  unfold NormalizeCIDR
  rw [he]

set_option maxRecDepth 100000 in
theorem NormalizeCIDR_ipv4_witness :
    NormalizeCIDR sampleNet6Lib (ascii "10.0.0.7/24") = (ascii "10.0.0.0/24", none) ∧
      NormalizeCIDR sampleNet6Lib (ascii "10.0.0.0/24") = (ascii "10.0.0.0/24", none) := by
  have h := NormalizeCIDR_ipv4 sampleNet6Lib (ascii "10.0.0.7/24") 167772167 sampleCIDR.2 rfl
  have h1 : ip4String (maskValue 32 sampleCIDR.2.ones 167772167) ++ [47]
      ++ uitoa sampleCIDR.2.ones = ascii "10.0.0.0/24" := by decide
  rw [h1] at h
  exact ⟨h.2.1, h.2.2.2.2.2.1⟩

end Netmaker
